import Mathlib

/-! The master-slave protocol of the distributed engine (`distributed/protocol.c`).

A shallow embedding of the shared command/reply state of `protocol.c` and of the
functions that work on it under `slave_lock`: `next_command`, `process_reply`,
the send choice of `slave_loop`, the connection bookkeeping of `slave_thread`,
`update_cmd` and `new_cmd`; of the reply parser `get_reply` over the bytes of a
stream; of `get_replies` over the wake-ups of its waits; and of the calls of the
lock functions that `get_replies`, `send_command`, `slave_loop` and
`slave_thread` make.

Conventions of the embedding.

* A byte is a `Nat`; a C string is the list of bytes in front of its first NUL.
  `gtp_cmds` is the list of all bytes of the static buffer, a `char *` into it is
  an offset (`gtp_cmds` itself is offset `0`), and `NULL` is `none`.
* C `int`s are `Int`s (no command id or counter gets near the 32-bit range: the
  source notes that the id computation cannot overflow). A number that a slave
  sends is cut to an `int` where `get_reply` reads it (`atoi_int`).
* `history` and `gtp_replies` are total maps; the bounds of the C arrays
  (`MAX_GAMELEN`, the allocation of `gtp_replies`) are not part of this file.
* A failed `assert` or a dereference of `NULL` is a `Fault`.
* A loop that reads input (`get_reply`) takes a number of passes as fuel and gives
  `none` when the fuel runs out.
-/

namespace Pachi

/-! ## The constants and helpers of the absent headers -/

/-- Constants and command-word predicates that `protocol.c` takes from headers
that are not part of the sources (`distributed.h`, `gtp.h`): they are parameters
of the embedding. -/
structure Params where
  /-- The modulus of the id scheme. -/
  DIST_GAMELEN : Nat
  /-- The size in bytes of `gtp_cmds` and of every reply buffer. -/
  CMDS_SIZE : Nat
  /-- The command word restarts the round. -/
  is_reset : List Nat → Bool
  /-- The command word is the round-start command. -/
  is_gamestart : List Nat → Bool
  /-- The modulus is positive. -/
  gamelen_pos : 0 < DIST_GAMELEN

/-- Modelled from the spec: `move_number` of the absent `distributed.h`,
"`move_number(id) = id mod DIST_GAMELEN`" (the C remainder). -/
def move_number (P : Params) (id : Int) : Int := Int.tmod id P.DIST_GAMELEN

/-- Modelled from the spec: `prevent_reply` of the absent `distributed.h`, "an id
with the same move number as `id` but with the reply-required bit cleared
(concretely: the move number itself)". -/
def prevent_reply (P : Params) (id : Int) : Int := Int.tmod id P.DIST_GAMELEN

/-- Modelled from the spec: `force_reply` of the absent `distributed.h`, "an id
whose move number is `move` and whose reply-required bit is set", the flag being
encoded in the region above the move number: one more `DIST_GAMELEN`. -/
def force_reply (P : Params) (id : Int) : Int := id + P.DIST_GAMELEN

/-- The number of history slots per move. -/
def MAX_CMDS_PER_MOVE : Nat := 10

/-! ## C strings -/

/-- The C string that starts at the head of a byte list. -/
def cstr (l : List Nat) : List Nat := l.takeWhile (fun c => c != 0)

/-- The function `strlen`. -/
def strlen (l : List Nat) : Nat := (cstr l).length

/-- The function `isdigit`. -/
def isdigit (c : Nat) : Bool := decide (48 ≤ c) && decide (c ≤ 57)

/-- The function `isspace`. -/
def isspace (c : Nat) : Bool := c == 32 || (decide (9 ≤ c) && decide (c ≤ 13))

/-- The digit loop of `atoi`. -/
def atoi_digits : Nat → List Nat → Nat
  | acc, [] => acc
  | acc, c :: cs => if isdigit c then atoi_digits (acc * 10 + (c - 48)) cs else acc

/-- The number that `atoi` reads: white space, an optional sign, decimal digits.
It is the result of the call whenever it is within the range of `int`, as it is
for the ids that the master has printed with `%d` into `gtp_cmds`; for a text
that a slave sends see `atoi_int`. -/
def atoi (l : List Nat) : Int :=
  match l.dropWhile isspace with
  | 45 :: cs => - (atoi_digits 0 cs : Int)
  | 43 :: cs => (atoi_digits 0 cs : Int)
  | cs => (atoi_digits 0 cs : Int)

/-- The `int` that the call `atoi(s)` returns for any text: the C library computes
`(int) strtol(s, NULL, 10)`, so the number is cut to the range of a 64-bit `long`
and then to its low 32 bits, read as a signed number. It is the number itself
when that is within the range of `int`; the C standard leaves the other results
open. -/
def atoi_int (l : List Nat) : Int :=
  (max (-9223372036854775808) (min 9223372036854775807 (atoi l)) + 2147483648) %
    4294967296 - 2147483648

/-- The call `strspn(s, "0123456789")`. -/
def strspn_digits (l : List Nat) : Nat := (l.takeWhile isdigit).length

/-- The decimal digits of a number, most significant first, in front of `acc`. -/
def to_dec : Nat → Nat → List Nat → List Nat
  | 0, _, acc => acc
  | fuel + 1, n, acc =>
    if n < 10 then (48 + n) :: acc else to_dec fuel (n / 10) ((48 + n % 10) :: acc)

/-- The decimal text of a natural number. -/
def fmt_nat (n : Nat) : List Nat := to_dec (n + 1) n []

/-- The conversion `%d` of `printf`. -/
def fmt_d (i : Int) : List Nat :=
  if i < 0 then 45 :: fmt_nat i.natAbs else fmt_nat i.natAbs

/-- The conversion `%0*d` of `printf`: zeros between the sign and the digits up
to the given width. -/
def fmt_0d (width : Nat) (i : Int) : List Nat :=
  if i < 0 then
    45 :: (List.replicate (width - 1 - (fmt_nat i.natAbs).length) 48 ++ fmt_nat i.natAbs)
  else
    List.replicate (width - (fmt_nat i.natAbs).length) 48 ++ fmt_nat i.natAbs

/-- Store `bytes` into a buffer from offset `p` on. -/
def write_at (buf : List Nat) (p : Nat) (bytes : List Nat) : List Nat :=
  buf.take p ++ bytes ++ buf.drop (p + bytes.length)

/-- The call `snprintf(buf + p, size, ...)` whose formatted text is `out`: at
most `size - 1` bytes of it and a NUL are stored; nothing when `size` is `0`. -/
def snprintf_at (buf : List Nat) (p size : Nat) (out : List Nat) : List Nat :=
  if size = 0 then buf else write_at buf p (out.take (size - 1) ++ [0])

/-- The call `strncpy(dst, src, n)` seen as the C string left in `dst`. -/
def strncpy (src : List Nat) (n : Nat) : List Nat := (cstr src).take n

/-! ## The shared state -/

/-- An entry of the history table. -/
structure cmd_history where
  /-- The id of a command. -/
  gtp_id : Int
  /-- The command sent after it: an offset into `gtp_cmds`, or `NULL`. -/
  next_cmd : Option Nat
deriving DecidableEq, Repr

/-- What goes wrong in a C run. -/
inductive Fault where
  /-- An `assert` does not hold. -/
  | assert_failed
  /-- A `NULL` pointer is dereferenced. -/
  | null_deref
  /-- A read past the end of a local array. -/
  | out_of_bounds
deriving DecidableEq, Repr

/-- The variables that `slave_lock` protects, the slaves' reply buffers, and the
`static` locals of `update_cmd`. -/
structure State where
  /-- The buffer `gtp_cmds`. -/
  gtp_cmds : List Nat
  /-- The pointer `gtp_cmd`, an offset into `gtp_cmds`. -/
  gtp_cmd : Option Nat
  /-- The counter `cmd_count`. -/
  cmd_count : Int
  /-- The table `history[move][slot]`. -/
  history : Int → Nat → cmd_history
  /-- The counter `active_slaves`. -/
  active_slaves : Int
  /-- The counter `reply_count`. -/
  reply_count : Int
  /-- The array `gtp_replies`: each entry is `NULL` or points to the `reply_buf`
  of a slave thread, named by the number of the thread. -/
  gtp_replies : Int → Option Nat
  /-- The `reply_buf` of each slave thread, as a C string. -/
  reply_bufs : Nat → List Nat
  /-- The `static int gtp_id` of `update_cmd`. -/
  gtp_id : Int
  /-- The `static int slot` of `update_cmd`. -/
  slot : Nat
  /-- The `static struct cmd_history *last` of `update_cmd`: move and slot. -/
  last : Option (Int × Nat)

/-- The state when the program starts. -/
def State.init (P : Params) : State where
  gtp_cmds := List.replicate P.CMDS_SIZE 0
  gtp_cmd := none
  cmd_count := 0
  history := fun _ _ => ⟨0, none⟩
  active_slaves := 0
  reply_count := 0
  gtp_replies := fun _ => none
  reply_bufs := fun _ => []
  gtp_id := -1
  slot := 0
  last := none

/-- The id that `atoi(gtp_cmd)` reads when `gtp_cmd` is the offset `p`. -/
def cmd_id_at (s : State) (p : Nat) : Int := atoi (s.gtp_cmds.drop p)

/-! ## `next_command` -/

/-- The loop of `next_command`: the first slot from `slot` on, among the next
`n`, whose `gtp_id` is `cmd_id`; `slot + n` when there is none. -/
def scan_slots (row : Nat → cmd_history) (cmd_id : Int) : Nat → Nat → Nat
  | 0, slot => slot
  | n + 1, slot =>
    if cmd_id = (row slot).gtp_id then slot else scan_slots row cmd_id n (slot + 1)

/-- The function `next_command`. -/
def next_command (P : Params) (s : State) (cmd_id : Int) : Except Fault Nat :=
  if cmd_id = -1 then .ok 0
  else
    match s.gtp_cmd with
    | none => .error .null_deref
    | some p =>
      let last_id := cmd_id_at s p
      let reply_move := move_number P cmd_id
      if reply_move > move_number P last_id then .ok 0
      else
        let slot := scan_slots (s.history reply_move) cmd_id MAX_CMDS_PER_MOVE 0
        if slot = MAX_CMDS_PER_MOVE then .ok 0
        else
          match (s.history reply_move slot).next_cmd with
          | none => .error .assert_failed
          | some next => .ok next

/-! ## `process_reply` -/

/-- What `process_reply` leaves: its result, the shared state, and the two
locals of `slave_loop` it gets by reference. -/
structure ReplyResult where
  /-- The result of the function. -/
  resend : Bool
  /-- The shared state. -/
  state : State
  /-- The local `last_reply_id` of the caller. -/
  last_reply_id : Int
  /-- The local `reply_slot` of the caller. -/
  reply_slot : Int

/-- The function `process_reply`; `reply_buf` is the number of the slave thread
whose buffer the pointer `reply_buf` is. (`pthread_cond_signal` changes no
variable.) -/
def process_reply (P : Params) (s : State) (reply_id : Int) (reply : List Nat)
    (reply_buf : Nat) (last_reply_id reply_slot : Int) : Except Fault ReplyResult :=
  if reply.headD 0 ≠ 61 then
    .ok ⟨true, s, -1, reply_slot⟩
  else
    match s.gtp_cmd with
    | none => .error .null_deref
    | some p =>
      let cmd_id := cmd_id_at s p
      if reply_id = cmd_id then
        let bufs := Function.update s.reply_bufs reply_buf (strncpy reply P.CMDS_SIZE)
        let fresh := decide (reply_id ≠ last_reply_id)
        let reply_slot1 := if fresh then s.reply_count else reply_slot
        let reply_count1 := if fresh then s.reply_count + 1 else s.reply_count
        let s1 : State :=
          { s with reply_bufs := bufs, reply_count := reply_count1,
                   gtp_replies := Function.update s.gtp_replies reply_slot1 (some reply_buf) }
        .ok ⟨false, s1, reply_id, reply_slot1⟩
      else
        .ok ⟨true, s, reply_id, reply_slot⟩

/-! ## `slave_loop` and `slave_thread` -/

/-- What an iteration of `slave_loop` does first. -/
inductive Choice where
  /-- It blocks in `pthread_cond_wait(&cmd_cond, ...)`. -/
  | wait
  /-- It sends the text at this offset of `gtp_cmds`. -/
  | send (to_send : Nat)
deriving DecidableEq, Repr

/-- The head of the loop of `slave_loop`: the choice of `to_send`, with the two
`assert`s of `send_command`. -/
def choose_to_send (P : Params) (s : State) (resend : Bool)
    (last_reply_id last_cmd_sent : Int) : Except Fault Choice :=
  if resend then
    match next_command P s last_reply_id with
    | .error e => .error e
    | .ok to_send => if s.gtp_cmd.isSome then .ok (.send to_send) else .error .assert_failed
  else if last_cmd_sent = s.cmd_count then .ok .wait
  else
    match s.gtp_cmd with
    | none => .error .assert_failed
    | some p => .ok (.send p)

/-- The bytes that `send_command` writes to the slave: the copy of the C string
at `to_send` that `strncpy` makes. -/
def sent_text (P : Params) (s : State) (to_send : Nat) : List Nat :=
  strncpy (s.gtp_cmds.drop to_send) P.CMDS_SIZE

/-- The locals of `slave_loop`. -/
structure LoopLocals where
  /-- The flag `resend`. -/
  resend : Bool
  /-- The local `last_cmd_sent`. -/
  last_cmd_sent : Int
  /-- The local `last_reply_id`. -/
  last_reply_id : Int
  /-- The local `reply_slot`. -/
  reply_slot : Int

/-- The locals of `slave_loop` on entry; `resend` is its argument. -/
def slave_loop_entry (resend : Bool) : LoopLocals := ⟨resend, 0, -1, -1⟩

/-- In `slave_thread`, the step after a good handshake: `active_slaves++`. -/
def slave_enter (s : State) : State := { s with active_slaves := s.active_slaves + 1 }

/-- In `slave_thread`, the step after `slave_loop` returns:
`assert(active_slaves > 0); active_slaves--`. -/
def slave_leave (s : State) : Except Fault State :=
  if 0 < s.active_slaves then .ok { s with active_slaves := s.active_slaves - 1 }
  else .error .assert_failed

/-- The value of the local `resend` of `slave_thread` at its `n`-th call of
`slave_loop` (counted from `0`): `false` at first, `true` after each return of
`slave_loop`. Connections whose handshake fails are not counted: they call no
`slave_loop` and leave `resend` as it is, see `slave_thread_resend`. -/
def thread_resend (n : Nat) : Bool := decide (0 < n)

/-- How a pass of the loop of `slave_thread` ends. -/
inductive Conn where
  /-- The handshake fails: the thread logs `bad slave`, closes the connection and
  goes on with `continue`. -/
  | bad_slave
  /-- The handshake is good, `slave_loop` runs, and it returns when the connection
  is cut (`lost slave`). -/
  | lost_slave
deriving DecidableEq, Repr

/-- The local `resend` of `slave_thread` after one pass of its loop: `continue`
leaves it as it is, and `resend = true` follows the return of `slave_loop`. -/
def slave_thread_pass (resend : Bool) : Conn → Bool
  | .bad_slave => resend
  | .lost_slave => true

/-- The local `resend` of `slave_thread` after the passes of its loop, in their
order, from `bool resend = false`: the argument of the next call of
`slave_loop`. -/
def slave_thread_resend (conns : List Conn) : Bool :=
  conns.foldl slave_thread_pass false

/-! ## `update_cmd` and `new_cmd` -/

/-- Assign `history[m][k].next_cmd`. -/
def set_next (h : Int → Nat → cmd_history) (m : Int) (k : Nat) (next : Option Nat) :
    Int → Nat → cmd_history :=
  fun m1 k1 => if m1 = m ∧ k1 = k then ⟨(h m k).gtp_id, next⟩ else h m1 k1

/-- Assign both fields of `history[m][k]`. -/
def set_entry (h : Int → Nat → cmd_history) (m : Int) (k : Nat) (e : cmd_history) :
    Int → Nat → cmd_history :=
  fun m1 k1 => if m1 = m ∧ k1 = k then e else h m1 k1

/-- The text that the format `"%d %s %s"` of `update_cmd` produces. -/
def cmd_text (gtp_id : Int) (cmd args : List Nat) : List Nat :=
  fmt_d gtp_id ++ [32] ++ cstr cmd ++ [32] ++ (if cstr args = [] then [10] else cstr args)

/-- The function `update_cmd`; `b_moves` is the move count `b->moves` and `rnd`
the value that `fast_random(65535)` returns. The size handed to `snprintf` is
what is left of `gtp_cmds` behind `gtp_cmd`. -/
def update_cmd (P : Params) (s : State) (b_moves : Nat) (rnd : Nat) (cmd args : List Nat)
    (new_id : Bool) : Except Fault State :=
  match s.gtp_cmd with
  | none => .error .assert_failed
  | some p =>
    let moves : Int := if P.is_reset (cstr cmd) then 0 else (b_moves : Int)
    let gtp_id := if new_id then force_reply P (moves + rnd * P.DIST_GAMELEN) else s.gtp_id
    let reply_count := if new_id then 0 else s.reply_count
    let buf := snprintf_at s.gtp_cmds p (P.CMDS_SIZE - p) (cmd_text gtp_id cmd args)
    let s1 : State :=
      { s with gtp_id := gtp_id, reply_count := reply_count, gtp_cmds := buf,
               cmd_count := s.cmd_count + 1 }
    if new_id then
      let h1 := match s.last with
        | some (m, k) => set_next s.history m k (some p)
        | none => s.history
      let slot := (s.slot + 1) % MAX_CMDS_PER_MOVE
      .ok { s1 with history := set_entry h1 moves slot ⟨gtp_id, none⟩,
                    slot := slot, last := some (moves, slot) }
    else .ok s1

/-- The first branch of `new_cmd`: `gtp_cmd = gtp_cmds; memset(history, 0, ...)`. -/
def new_cmd_clear (s : State) : State :=
  { s with gtp_cmd := some 0, history := fun _ _ => ⟨0, none⟩ }

/-- The second branch of `new_cmd`, with `gtp_cmd` at offset `p`: the id of the
current command is overwritten and `gtp_cmd` moves to the end of the string.
The local `buf[32]` gets at most 31 bytes of the formatted id and a NUL; `memcpy`
reads `len` bytes of it, past its end when `len` is above 32. -/
def new_cmd_demote (P : Params) (s : State) (p : Nat) : Except Fault State :=
  let cur := s.gtp_cmds.drop p
  let id := prevent_reply P (atoi cur)
  let len := strspn_digits cur
  let buf := (fmt_0d len id).take 31 ++ [0]
  if 32 < len then .error .out_of_bounds
  else
    let cmds := write_at s.gtp_cmds p (buf.take len)
    .ok { s with gtp_cmds := cmds, gtp_cmd := some (p + strlen (cmds.drop p)) }

/-- The function `new_cmd`. -/
def new_cmd (P : Params) (s : State) (b_moves : Nat) (rnd : Nat) (cmd args : List Nat) :
    Except Fault State :=
  match s.gtp_cmd with
  | none => update_cmd P (new_cmd_clear s) b_moves rnd cmd args true
  | some p =>
    if P.is_gamestart (cstr cmd) then update_cmd P (new_cmd_clear s) b_moves rnd cmd args true
    else
      match new_cmd_demote P s p with
      | .error e => .error e
      | .ok s1 => update_cmd P s1 b_moves rnd cmd args true

/-! ## Concrete inputs -/

/-- The bytes of the word boardsize. -/
def w_boardsize : List Nat := [98, 111, 97, 114, 100, 115, 105, 122, 101]

/-- The bytes of the word play. -/
def w_play : List Nat := [112, 108, 97, 121]

/-- The bytes of the word clear_board. -/
def w_clear_board : List Nat := [99, 108, 101, 97, 114, 95, 98, 111, 97, 114, 100]

/-- A setting of the parameters: ids are counted modulo 1000, the buffers have
64 bytes, a round starts with boardsize and is restarted by clear_board too. -/
def P0 : Params where
  DIST_GAMELEN := 1000
  CMDS_SIZE := 64
  is_reset := fun w => w == w_boardsize || w == w_clear_board
  is_gamestart := fun w => w == w_boardsize
  gamelen_pos := by decide

/-- A state with one command, the line 1000 boardsize 19, and no reply yet. -/
def demo_state : State where
  gtp_cmds := [49, 48, 48, 48, 32] ++ w_boardsize ++ [32, 49, 57, 10] ++ List.replicate 46 0
  gtp_cmd := some 0
  cmd_count := 1
  history := set_entry (fun _ _ => ⟨0, none⟩) 0 1 ⟨1000, none⟩
  active_slaves := 1
  reply_count := 0
  gtp_replies := fun _ => none
  reply_bufs := fun _ => []
  gtp_id := 1000
  slot := 1
  last := some (0, 1)

/-- The reply `=1000` and its end of line. -/
def reply_ok_1000 : List Nat := [61, 49, 48, 48, 48, 10]

/-- The reply `?1000` and its end of line. -/
def reply_err_1000 : List Nat := [63, 49, 48, 48, 48, 10]

/-- The reply `=7` and its end of line. -/
def reply_ok_7 : List Nat := [61, 55, 10]

/-! ## Runs of one slave thread while one id is current -/

/-- What happens to the shared state between two looks of one slave thread, as
far as this thread and the text of the current command go. -/
inductive WEvent where
  /-- The thread hands a reply of its slave to `process_reply`. -/
  | reply (reply_id : Int) (reply : List Nat)
  /-- The master calls `update_cmd` with `new_id` false. -/
  | refresh (b_moves : Nat) (cmd args : List Nat)

/-- The shared state with the locals `last_reply_id` and `reply_slot` of one
`slave_loop`. -/
structure WorkerCfg where
  /-- The shared state. -/
  state : State
  /-- The local `last_reply_id`. -/
  last_reply_id : Int
  /-- The local `reply_slot`. -/
  reply_slot : Int

/-- One event, for the thread whose buffer is `reply_buf`. -/
def worker_step (P : Params) (reply_buf : Nat) (c : WorkerCfg) : WEvent → Except Fault WorkerCfg
  | .reply reply_id reply =>
    match process_reply P c.state reply_id reply reply_buf c.last_reply_id c.reply_slot with
    | .error e => .error e
    | .ok r => .ok ⟨r.state, r.last_reply_id, r.reply_slot⟩
  | .refresh b_moves cmd args =>
    match update_cmd P c.state b_moves 0 cmd args false with
    | .error e => .error e
    | .ok s => .ok ⟨s, c.last_reply_id, c.reply_slot⟩

/-- A sequence of events. -/
def worker_run (P : Params) (reply_buf : Nat) : WorkerCfg → List WEvent → Except Fault WorkerCfg
  | c, [] => .ok c
  | c, e :: es =>
    match worker_step P reply_buf c e with
    | .error err => .error err
    | .ok c1 => worker_run P reply_buf c1 es

/-- The id of the current command, when there is a current command. -/
def current_id (s : State) : Option Int := s.gtp_cmd.map (cmd_id_at s)

/-- The id of the current command is `x` before and after every event of the
sequence (and no event faults). -/
def id_stays (P : Params) (reply_buf : Nat) (x : Int) : WorkerCfg → List WEvent → Bool
  | c, [] => decide (current_id c.state = some x)
  | c, e :: es =>
    if current_id c.state = some x then
      match worker_step P reply_buf c e with
      | .error _ => false
      | .ok c1 => id_stays P reply_buf x c1 es
    else false

/-- The event is a reply. -/
def WEvent.is_reply : WEvent → Bool
  | .reply _ _ => true
  | .refresh _ _ _ => false

/-- The event is a success reply to the id `x`. -/
def WEvent.is_match (x : Int) : WEvent → Bool
  | .reply reply_id text => text.headD 0 == 61 && reply_id == x
  | .refresh _ _ _ => false

/-! ## Operations under `slave_lock` -/

/-- The operations on the shared state. -/
inductive Op where
  /-- A thread gets past the handshake: `active_slaves++`. -/
  | enter
  /-- A thread comes back from `slave_loop`: `active_slaves--`. -/
  | leave
  /-- A thread calls `process_reply`. -/
  | reply (reply_id : Int) (reply : List Nat) (reply_buf : Nat) (last_reply_id reply_slot : Int)
  /-- The master calls `update_cmd`. -/
  | update (b_moves rnd : Nat) (cmd args : List Nat) (new_id : Bool)
  /-- The master calls `new_cmd`. -/
  | newc (b_moves rnd : Nat) (cmd args : List Nat)

/-- One operation. -/
def apply_op (P : Params) (s : State) : Op → Except Fault State
  | .enter => .ok (slave_enter s)
  | .leave => slave_leave s
  | .reply reply_id reply reply_buf last_reply_id reply_slot =>
    match process_reply P s reply_id reply reply_buf last_reply_id reply_slot with
    | .error e => .error e
    | .ok r => .ok r.state
  | .update b_moves rnd cmd args new_id => update_cmd P s b_moves rnd cmd args new_id
  | .newc b_moves rnd cmd args => new_cmd P s b_moves rnd cmd args

/-- A sequence of operations. -/
def run_ops (P : Params) : State → List Op → Except Fault State
  | s, [] => .ok s
  | s, o :: os =>
    match apply_op P s o with
    | .error e => .error e
    | .ok s1 => run_ops P s1 os

/-- The bytes of the arguments of the command boardsize 19. -/
def a_19 : List Nat := [49, 57, 10]

/-- Replies of one slave while the command 1000 of `demo_state` is current: an
out-of-sync reply and an error first, then success replies around a refresh. -/
def demo_pre : List WEvent := [.reply 7 reply_ok_7, .reply 1000 reply_err_1000]

/-- The success replies of the run, around a refresh of the command. -/
def demo_post : List WEvent :=
  [.reply 1000 reply_ok_1000, .refresh 0 w_boardsize [57, 10], .reply 1000 reply_ok_1000]

/-- A success reply to 1000, a refresh of the command (which ends the wait of
`slave_loop` for a new command), an error reply and a success reply again. -/
def demo_twice : List WEvent :=
  [.reply 1000 reply_ok_1000, .refresh 0 w_boardsize [57, 10], .reply 1000 reply_err_1000,
   .reply 1000 reply_ok_1000]

/-- The locals of a `slave_loop` that starts at `demo_state`. -/
def demo_cfg : WorkerCfg := ⟨demo_state, -1, -1⟩

/-- The first command of a round is published, one slave joins, replies to it,
and its connection is cut. -/
def ops_leave : List Op :=
  [.newc 0 0 w_boardsize a_19, .enter, .reply 1000 reply_ok_1000 0 (-1) (-1), .leave]

/-- The first command of a round is published, one slave joins and replies to it
with success, then with an error, then with success again; `process_reply` gets
the locals that `slave_loop` holds at each call. -/
def ops_twice : List Op :=
  [.newc 0 0 w_boardsize a_19, .enter, .reply 1000 reply_ok_1000 0 (-1) (-1),
   .reply 1000 reply_err_1000 0 1000 0, .reply 1000 reply_ok_1000 0 (-1) 0]

/-- The first command of a round is published, one slave joins and replies to it
with success; the command is refreshed and the connection is cut; the same thread
gets a new connection and a success reply to the same id. Each call of
`slave_loop` starts with `last_reply_id` and `reply_slot` at `-1`. -/
def ops_reconnect : List Op :=
  [.newc 0 0 w_boardsize a_19, .enter, .reply 1000 reply_ok_1000 0 (-1) (-1),
   .update 0 0 w_boardsize [57, 10] false, .leave, .enter,
   .reply 1000 reply_ok_1000 0 (slave_loop_entry true).last_reply_id
     (slave_loop_entry true).reply_slot]

/-! ## A round as a sequence of `new_cmd` calls -/

/-- The arguments of one call of `new_cmd`. -/
structure Cmd where
  /-- The move count `b->moves`. -/
  b_moves : Nat
  /-- The value of `fast_random(65535)` in the call. -/
  rnd : Nat
  /-- The command word. -/
  cmd : List Nat
  /-- The arguments of the command. -/
  args : List Nat

/-- The id that `update_cmd` gives the command when it mints one. -/
def Cmd.id (P : Params) (c : Cmd) : Int :=
  force_reply P
    ((if P.is_reset (cstr c.cmd) then (0 : Int) else (c.b_moves : Int)) + c.rnd * P.DIST_GAMELEN)

/-- What follows the id in the line of a command: the word, the arguments. -/
def Cmd.tail (c : Cmd) : List Nat :=
  cstr c.cmd ++ [32] ++ (if cstr c.args = [] then [10] else cstr c.args)

/-- The line of the command with its reply-required id. -/
def Cmd.line (P : Params) (c : Cmd) : List Nat := fmt_d (c.id P) ++ 32 :: c.tail

/-- The line of the command with its reply-suppressed id `prevent_reply(id)`, in
as many digits as the id had. -/
def Cmd.quiet_line (P : Params) (c : Cmd) : List Nat :=
  fmt_0d (fmt_d (c.id P)).length (prevent_reply P (c.id P)) ++ 32 :: c.tail

/-- The text of a round as the late-joiner scenario describes it: the lines of
all commands, each but the last with its reply-suppressed id. -/
def round_text (P : Params) : List Cmd → List Nat
  | [] => []
  | [c] => c.line P
  | c :: d :: cs => c.quiet_line P ++ round_text P (d :: cs)

/-- The last command of a list that starts with `c`. -/
def last_cmd (c : Cmd) (cs : List Cmd) : Cmd := (c :: cs).getLast (List.cons_ne_nil c cs)

/-- Successive calls of `new_cmd`. -/
def new_cmds (P : Params) : State → List Cmd → Except Fault State
  | s, [] => .ok s
  | s, c :: cs =>
    match new_cmd P s c.b_moves c.rnd c.cmd c.args with
    | .error e => .error e
    | .ok s1 => new_cmds P s1 cs

/-- The arguments of the command play b a1. -/
def a_b_a1 : List Nat := [98, 32, 97, 49, 10]

/-- The first command of a round: boardsize 19. -/
def demo_first : Cmd := ⟨0, 0, w_boardsize, a_19⟩

/-- Two more commands: clear_board, then play b a1 at move 1. -/
def demo_rest : List Cmd := [⟨0, 5, w_clear_board, []⟩, ⟨1, 7, w_play, a_b_a1⟩]

/-- The line 8001 play b a1. -/
def line_play : List Nat := [56, 48, 48, 49, 32] ++ w_play ++ [32] ++ a_b_a1

/-- The line 1000 boardsize 19 without its id. -/
def body_boardsize : List Nat := w_boardsize ++ [32] ++ a_19

/-! ## A round as a sequence of publishing calls, with its records -/

/-- A call of the master that publishes a command. -/
inductive Pub where
  /-- A call of `new_cmd`. -/
  | newc (c : Cmd)
  /-- A call of `update_cmd`. -/
  | update (c : Cmd) (new_id : Bool)

/-- The call. -/
def Pub.run (P : Params) (s : State) : Pub → Except Fault State
  | .newc c => new_cmd P s c.b_moves c.rnd c.cmd c.args
  | .update c new_id => update_cmd P s c.b_moves c.rnd c.cmd c.args new_id

/-- The call publishes with `new_id` true. -/
def Pub.mints : Pub → Bool
  | .newc _ => true
  | .update _ new_id => new_id

/-- The call does not start another round. -/
def Pub.in_round (P : Params) : Pub → Bool
  | .newc c => !P.is_gamestart (cstr c.cmd)
  | .update _ _ => true

/-- A record of a command published with `new_id` true: its id, where its text
starts in `gtp_cmds`, and the history slot `update_cmd` took for it. -/
structure Minted where
  /-- The id of the command. -/
  id : Int
  /-- The offset of the command in `gtp_cmds`. -/
  pos : Nat
  /-- The move of the slot. -/
  move : Int
  /-- The index of the slot in the row of the move. -/
  slot : Nat
deriving DecidableEq, Repr

/-- The record of the command that the state has just published: `gtp_id`,
`gtp_cmd` and `last` as `update_cmd` leaves them. -/
def minted_of (s : State) : Minted :=
  ⟨s.gtp_id, s.gtp_cmd.getD 0, (s.last.getD (0, 0)).1, (s.last.getD (0, 0)).2⟩

/-- The calls of a round after its first, with the records of the commands
published with `new_id` true, in order. -/
def round_log (P : Params) : State → List Minted → List Pub → Except Fault (State × List Minted)
  | s, log, [] => .ok (s, log)
  | s, log, pub :: pubs =>
    match pub.run P s with
    | .error e => .error e
    | .ok s1 => round_log P s1 (if pub.mints then log ++ [minted_of s1] else log) pubs

/-- A round: a first call of `new_cmd`, then further calls. -/
def round (P : Params) (s0 : State) (c : Cmd) (pubs : List Pub) :
    Except Fault (State × List Minted) :=
  match new_cmd P s0 c.b_moves c.rnd c.cmd c.args with
  | .error e => .error e
  | .ok s1 => round_log P s1 [minted_of s1] pubs

/-- The history table agrees with the records of a round: `last` is the slot of
the latest record and `gtp_id` its id; the slot of a record that no later record took again holds
the id of the record and the offset of the next record (`NULL` for the latest);
a slot that no record took holds the id `0`; no record has the id `0`. -/
def LogInv (s : State) (log : List Minted) : Prop :=
  (∀ e, log[log.length - 1]? = some e →
    s.last = some (e.move, e.slot) ∧ s.gtp_id = e.id) ∧
  (∀ k e, log[k]? = some e →
    (∀ j f, k < j → log[j]? = some f → ¬ (f.move = e.move ∧ f.slot = e.slot)) →
    s.history e.move e.slot = ⟨e.id, (log[k + 1]?).map Minted.pos⟩) ∧
  (∀ m sl, (∀ e ∈ log, ¬ (e.move = m ∧ e.slot = sl)) → (s.history m sl).gtp_id = 0) ∧
  (∀ e ∈ log, e.id ≠ 0)

/-- A round in progress: after boardsize 19, a call of `new_cmd` for clear_board,
a refresh of it, and a call of `new_cmd` for play b a1. -/
def demo_pubs : List Pub :=
  [.newc ⟨0, 5, w_clear_board, []⟩, .update ⟨0, 5, w_clear_board, [57, 10]⟩ false,
   .newc ⟨1, 7, w_play, a_b_a1⟩]

/-- The state after the round of `demo_pubs`. -/
def demo_final : State :=
  match round P0 (State.init P0) demo_first demo_pubs with
  | .ok r => r.1
  | .error _ => State.init P0

/-- The records of the round of `demo_pubs`. -/
def demo_log : List Minted :=
  match round P0 (State.init P0) demo_first demo_pubs with
  | .ok r => r.2
  | .error _ => []

/-- A second command that gets the id of the first: the move is 0 as for
boardsize, and the random value is the same. -/
def pubs_same_id : List Pub := [.newc ⟨0, 0, w_play, a_b_a1⟩]

/-- Ten more commands of the same move, each published in place with a new id. -/
def pubs_wrap : List Pub :=
  (List.range 10).map (fun i => Pub.update ⟨0, i + 1, w_play, a_b_a1⟩ true)

/-- The reply `=0` and its end of line. -/
def reply_ok_0 : List Nat := [61, 48, 10]

/-- The fault of a run that faults. -/
def fault_of {α : Type} : Except Fault α → Option Fault
  | .error e => some e
  | .ok _ => none

/-! ## Inputs of the theorems on round starts, reconnects and reply slots -/

/-- Two rounds: boardsize 19, then boardsize 19 again. -/
def two_rounds : List Cmd := [demo_first, ⟨0, 3, w_boardsize, a_19⟩]

/-- In `slave_thread`, after `slave_loop` has returned with the locals `prev`:
`resend = true`, and after the next handshake `slave_loop` is entered again, with
new locals. -/
def slave_thread_reconnect (_prev : LoopLocals) : LoopLocals := slave_loop_entry true

/-- The reply `=2000` and its end of line. -/
def reply_ok_2000 : List Nat := [61, 50, 48, 48, 48, 10]

/-- A slave enters `slave_loop` while 1000 is the current id and replies `=2000`:
the first call of `process_reply`, with the locals of the loop at `-1`. -/
def run_minus_one_first : Except Fault ReplyResult :=
  match new_cmd P0 (State.init P0) 0 0 w_boardsize a_19 with
  | .error e => .error e
  | .ok s1 => process_reply P0 (slave_enter s1) 2000 reply_ok_2000 0 (-1) (-1)

/-- After the reply of `run_minus_one_first` the command play b a1 gets the id
2000, and the slave replies `=2000` again: the second call of `process_reply`,
with the locals that the first call has left. -/
def run_minus_one : Except Fault ReplyResult :=
  match run_minus_one_first with
  | .error e => .error e
  | .ok r1 =>
    match new_cmd P0 r1.state 0 1 w_play a_b_a1 with
    | .error e => .error e
    | .ok s2 => process_reply P0 s2 2000 reply_ok_2000 0 r1.last_reply_id r1.reply_slot

/-- A command of move 5 is current; a command of move 3 is then published in
place, by `update_cmd` with `new_id` true. -/
def run_overwrite : Except Fault State :=
  match new_cmds P0 (State.init P0) [demo_first, ⟨5, 7, w_play, a_b_a1⟩] with
  | .error e => .error e
  | .ok s => update_cmd P0 s 3 3 w_play a_b_a1 true

/-! ## `get_reply` -/

/-- What `fgets` reads when it may store `k` bytes: the bytes up to the first
newline, the newline included, and what is left of the stream. -/
def read_line : Nat → List Nat → List Nat × List Nat
  | 0, stream => ([], stream)
  | _ + 1, [] => ([], [])
  | k + 1, c :: cs =>
    if c = 10 then ([c], cs) else (c :: (read_line k cs).1, (read_line k cs).2)

/-- The call `fgets(line, n, f)` on the bytes left in the stream: `none` for
`NULL` (the stream is at its end); otherwise the string stored at `line` and the
bytes left. With `n` equal to `1` it stores the empty string and reads nothing. -/
def fgets (n : Nat) (stream : List Nat) : Option (List Nat × List Nat) :=
  if n ≤ 1 then some ([], stream)
  else
    match stream with
    | [] => none
    | _ :: _ => some (read_line (n - 1) stream)

/-- The loop of `get_reply` and its two `return`s. The pointer `line` is kept as
`room`, the number `reply + CMDS_SIZE - line` of bytes behind it; `line` is the
string that `fgets` has just stored there. When `fgets` gives `NULL`, `*line` is
still the NUL at the end of what was read before. The result of `atoi(line+1)`
goes into the `int` `reply_id`. The result is `none` when the loop has not ended
after `fuel` passes. -/
def get_reply_loop : Nat → Nat → Int → List Nat → Option Int
  | 0, _, _, _ => none
  | fuel + 1, room, reply_id, stream =>
    match fgets room stream with
    | none => some (-1)
    | some (line, rest) =>
      if line.headD 0 = 10 then some reply_id
      else
        let reply_id1 :=
          if reply_id < 0 ∧ (line.headD 0 = 61 ∨ line.headD 0 = 63) ∧
              isdigit ((line.drop 1).headD 0) = true
          then atoi_int (line.drop 1) else reply_id
        get_reply_loop fuel (room - strlen line) reply_id1 rest

/-- The function `get_reply` on the bytes that the slave sends until it closes
the connection; `none` when it has not returned after `fuel` passes of its loop. -/
def get_reply (P : Params) (fuel : Nat) (stream : List Nat) : Option Int :=
  get_reply_loop fuel P.CMDS_SIZE (-1) stream

/-- A line of a reply that is not the empty line: some bytes other than newline,
then a newline. -/
def full_line (l : List Nat) : Bool :=
  decide (2 ≤ l.length) && (l.getLast? == some 10) && !(l.dropLast.contains 10)

/-- The line starts with `=` or `?` and a digit right after it. -/
def is_id_line (l : List Nat) : Bool :=
  (l.headD 0 == 61 || l.headD 0 == 63) && isdigit ((l.drop 1).headD 0)

/-- The id of the first line that starts with `=` or `?` and a digit; `-1` when
there is no such line. -/
def first_id : List (List Nat) → Int
  | [] => -1
  | l :: ls => if is_id_line l then atoi (l.drop 1) else first_id ls

/-- The decimal number of the first line that starts with `=` or `?` and a digit
is within the range of `int` (it is less than `2^31`); true when there is no such
line. -/
def first_id_fits : List (List Nat) → Bool
  | [] => true
  | l :: ls =>
    if is_id_line l then decide (atoi (l.drop 1) < 2147483648) else first_id_fits ls

/-! ## `get_replies` -/

/-- What `get_replies` sees when it wakes up from its wait. Times are numbers of
some unit of time. -/
structure WakeUp where
  /-- The value of `reply_count`. -/
  reply_count : Int
  /-- The value of `active_slaves`. -/
  active_slaves : Int
  /-- The value of `time_now()`. -/
  now : Int

/-- The calls of the lock functions, in the order of a run. -/
inductive LockEvent where
  /-- The lock `slave_lock` is taken. -/
  | lock_slave
  /-- The lock `slave_lock` is released. -/
  | unlock_slave
  /-- A call of `logline`, which takes `log_lock` and releases it. -/
  | log
deriving DecidableEq, Repr

/-- How a run of `get_replies` over some wake-ups ends. -/
inductive Waited where
  /-- It waits again after the last of the wake-ups. -/
  | blocked
  /-- It returns at the wake-up of this number, after the `break` or not. -/
  | returned (wake : Nat) (timed_out : Bool)
  /-- The final `assert` fails at the wake-up of this number. -/
  | assert_failed (wake : Nat)
deriving DecidableEq, Repr

/-- The loop of `get_replies` from the wake-up of number `k` on, with the calls of
the lock functions: each wait releases `slave_lock` and takes it again at the
wake-up. `debugl` is the macro `DEBUGL` of the absent `debug.h`. -/
def get_replies_loop (debugl : Nat → Bool) (time_limit : Int) :
    Nat → List WakeUp → Waited × List LockEvent
  | _, [] => (.blocked, [.unlock_slave])
  | k, w :: ws =>
    if w.reply_count = 0 then
      ((get_replies_loop debugl time_limit (k + 1) ws).1,
        .unlock_slave :: .lock_slave :: (get_replies_loop debugl time_limit (k + 1) ws).2)
    else if w.reply_count ≥ w.active_slaves then
      (.returned k false, [.unlock_slave, .lock_slave])
    else if w.now ≥ time_limit then
      (if 0 < w.reply_count then .returned k true else .assert_failed k,
        [.unlock_slave, .lock_slave] ++ (if debugl 1 then [.log] else []))
    else
      ((get_replies_loop debugl time_limit (k + 1) ws).1,
        .unlock_slave :: .lock_slave :: (get_replies_loop debugl time_limit (k + 1) ws).2)

/-- The function `get_replies` on the wake-ups of its waits. -/
def get_replies (debugl : Nat → Bool) (time_limit : Int) (wakes : List WakeUp) :
    Waited × List LockEvent :=
  get_replies_loop debugl time_limit 0 wakes

/-- At this wake-up `get_replies` is to return: there is a reply, and all active
slaves have replied or the time limit is reached. -/
def WakeUp.done (time_limit : Int) (w : WakeUp) : Bool :=
  decide (0 < w.reply_count) &&
    (decide (w.reply_count ≥ w.active_slaves) || decide (w.now ≥ time_limit))

/-! ## The two locks -/

/-- No call of `logline` happens while `slave_lock` is held; `held` tells whether
it is held at the start. -/
def log_outside_lock : Bool → List LockEvent → Bool
  | _, [] => true
  | _, .lock_slave :: es => log_outside_lock true es
  | _, .unlock_slave :: es => log_outside_lock false es
  | held, .log :: es => !held && log_outside_lock held es

/-- Whether `slave_lock` is held after the calls, when `held` tells whether it is
held before them. -/
def held_after : Bool → List LockEvent → Bool
  | held, [] => held
  | _, .lock_slave :: es => held_after true es
  | _, .unlock_slave :: es => held_after false es
  | held, .log :: es => held_after held es

/-- The calls of the lock functions in `send_command`, which is entered with
`slave_lock` held; `reply_logs` is the number of lines that `get_reply` logs. -/
def send_command_events (debugl : Nat → Bool) (resend : Bool) (reply_logs : Nat) :
    List LockEvent :=
  [.unlock_slave] ++ (if debugl 1 && resend then [.log] else []) ++
    (if debugl 2 then [.log] else []) ++ List.replicate reply_logs .log ++ [.lock_slave]

/-- A pass of the loop of `slave_loop`: some waits for a new command, then
`send_command`; `process_reply` calls no lock function. -/
structure LoopPass where
  /-- The number of waits on `cmd_cond`. -/
  waits : Nat
  /-- The command sent is not the current one. -/
  resend : Bool
  /-- The number of lines that `get_reply` logs. -/
  reply_logs : Nat

/-- The calls of the lock functions in `slave_loop`, pass by pass. -/
def slave_loop_events (debugl : Nat → Bool) : List LoopPass → List LockEvent
  | [] => []
  | q :: qs =>
    (List.replicate q.waits [LockEvent.unlock_slave, LockEvent.lock_slave]).flatten ++
      send_command_events debugl q.resend q.reply_logs ++ slave_loop_events debugl qs

/-- The calls of the lock functions in one pass of the loop of `slave_thread`:
a connection whose handshake is good or bad, and the passes of its `slave_loop`. -/
def slave_thread_events (debugl : Nat → Bool) (good : Bool) (passes : List LoopPass) :
    List LockEvent :=
  (if debugl 2 then [.log] else []) ++
    (if good then
      [.lock_slave] ++ slave_loop_events debugl passes ++ [.unlock_slave] ++
        (if debugl 2 then [.log] else [])
    else [.log])

/-- The macro `DEBUGL` at debug level 1. -/
def debug_level_1 (n : Nat) : Bool := decide (n ≤ 1)

/-- Wake-ups of `get_replies` with two active slaves and the time limit 10: no
reply yet (twice, once past the limit), one reply before the limit, one reply at
the limit. -/
def demo_wakes : List WakeUp := [⟨0, 2, 3⟩, ⟨0, 2, 12⟩, ⟨1, 2, 5⟩, ⟨1, 2, 10⟩]

/-- The lines of a reply: a line with no id, the line `=5`, the line `=6`. -/
def demo_reply_lines : List (List Nat) := [[120, 10], [61, 53, 10], [61, 54, 10]]

/-! # Theorems -/

/-! ## `process_reply` -/

/-- C1. `process_reply`, the reply matches: when the reply starts with `=` and
`reply_id` is the id read from the current command, the reply is copied into the
slave's `reply_buf`; a fresh slot is claimed (`reply_slot` becomes the old
`reply_count`, which grows by one) exactly when `reply_id` differs from
`last_reply_id`, and otherwise both stay as they are; `gtp_replies[reply_slot]`
points to the slave's `reply_buf`; `last_reply_id` becomes `reply_id`; the result
is `false`. The reply is a C string of a buffer of `CMDS_SIZE` bytes. -/
theorem process_reply_match (P : Params) (s : State) (reply_id : Int) (reply : List Nat)
    (reply_buf : Nat) (last_reply_id reply_slot : Int) (p : Nat)
    (hcmd : s.gtp_cmd = some p) (hfirst : reply.headD 0 = 61)
    (hid : reply_id = cmd_id_at s p) (hfit : strlen reply < P.CMDS_SIZE) :
    ∃ r, process_reply P s reply_id reply reply_buf last_reply_id reply_slot = .ok r ∧
      r.resend = false ∧
      r.last_reply_id = reply_id ∧
      r.state.reply_bufs reply_buf = cstr reply ∧
      (reply_id ≠ last_reply_id ↔
        (r.reply_slot = s.reply_count ∧ r.state.reply_count = s.reply_count + 1)) ∧
      (reply_id = last_reply_id →
        (r.reply_slot = reply_slot ∧ r.state.reply_count = s.reply_count)) ∧
      r.state.gtp_replies r.reply_slot = some reply_buf := by
  have hcopy : strncpy reply P.CMDS_SIZE = cstr reply := by
    unfold strncpy
    exact List.take_of_length_le (Nat.le_of_lt hfit)
  have hnot : ¬ (reply.headD 0 ≠ 61) := fun h => h hfirst
  unfold process_reply
  rw [if_neg hnot]
  simp only [hcmd]
  rw [if_pos hid]
  refine ⟨_, rfl, ?_⟩
  by_cases hne : reply_id = last_reply_id
  · simp [hne, hcopy]
  · simp [hne, hcopy]

/-- A use of `process_reply_match`: the first reply `=1000` to the command of
`demo_state` claims slot `0`. -/
theorem process_reply_match_witness :
    ∃ r, process_reply P0 demo_state 1000 reply_ok_1000 0 (-1) (-1) = .ok r ∧
      r.resend = false ∧
      r.last_reply_id = 1000 ∧
      r.state.reply_bufs 0 = cstr reply_ok_1000 ∧
      ((1000 : Int) ≠ -1 ↔
        (r.reply_slot = demo_state.reply_count ∧
          r.state.reply_count = demo_state.reply_count + 1)) ∧
      ((1000 : Int) = -1 →
        (r.reply_slot = -1 ∧ r.state.reply_count = demo_state.reply_count)) ∧
      r.state.gtp_replies r.reply_slot = some 0 :=
  process_reply_match P0 demo_state 1000 reply_ok_1000 0 (-1) (-1) 0 rfl (by decide)
    (by decide) (by decide)

/-- C2. `process_reply`, the slave reports an error: when the reply does not
start with `=`, `last_reply_id` becomes `-1`, the result is `true`, and the shared
state (`gtp_replies`, `reply_count`, every `reply_buf`) and `reply_slot` are as
before; the next pass of `slave_loop` then takes `next_command(-1)`, the base of
`gtp_cmds`, as `to_send` (`send_command` asserts that there is a current
command). -/
theorem process_reply_error (P : Params) (s : State) (reply_id : Int) (reply : List Nat)
    (reply_buf : Nat) (last_reply_id reply_slot : Int) (hfirst : reply.headD 0 ≠ 61) :
    ∃ r, process_reply P s reply_id reply reply_buf last_reply_id reply_slot = .ok r ∧
      r.resend = true ∧
      r.last_reply_id = -1 ∧
      r.state = s ∧
      r.reply_slot = reply_slot ∧
      next_command P r.state r.last_reply_id = .ok 0 ∧
      ∀ last_cmd_sent, s.gtp_cmd.isSome = true →
        choose_to_send P r.state r.resend r.last_reply_id last_cmd_sent = .ok (.send 0) := by
  refine ⟨⟨true, s, -1, reply_slot⟩, ?_, rfl, rfl, rfl, rfl, ?_, ?_⟩
  · unfold process_reply
    rw [if_pos hfirst]
  · simp [next_command]
  · intro l hsome
    simp [choose_to_send, next_command, hsome]

/-- A use of `process_reply_error`: the reply `?1000` of a slave that had claimed
slot `0`. -/
theorem process_reply_error_witness :
    ∃ r, process_reply P0 demo_state 1000 reply_err_1000 0 1000 0 = .ok r ∧
      r.resend = true ∧
      r.last_reply_id = -1 ∧
      r.state = demo_state ∧
      r.reply_slot = 0 ∧
      next_command P0 r.state r.last_reply_id = .ok 0 ∧
      ∀ last_cmd_sent, demo_state.gtp_cmd.isSome = true →
        choose_to_send P0 r.state r.resend r.last_reply_id last_cmd_sent = .ok (.send 0) :=
  process_reply_error P0 demo_state 1000 reply_err_1000 0 1000 0 (by decide)

/-- C3. `process_reply`, the slave is out of sync: when the reply starts with `=`
and `reply_id` is not the id read from the current command, the shared state
(`gtp_replies`, `reply_count`, every `reply_buf`) and `reply_slot` are as before,
`last_reply_id` becomes `reply_id`, and the result is `true`. -/
theorem process_reply_mismatch (P : Params) (s : State) (reply_id : Int)
    (reply : List Nat) (reply_buf : Nat) (last_reply_id reply_slot : Int) (p : Nat)
    (hcmd : s.gtp_cmd = some p) (hfirst : reply.headD 0 = 61)
    (hid : reply_id ≠ cmd_id_at s p) :
    ∃ r, process_reply P s reply_id reply reply_buf last_reply_id reply_slot = .ok r ∧
      r.resend = true ∧
      r.last_reply_id = reply_id ∧
      r.state = s ∧
      r.reply_slot = reply_slot := by
  refine ⟨⟨true, s, reply_id, reply_slot⟩, ?_, rfl, rfl, rfl, rfl⟩
  have hnot : ¬ (reply.headD 0 ≠ 61) := fun h => h hfirst
  unfold process_reply
  rw [if_neg hnot]
  simp only [hcmd]
  rw [if_neg hid]

/-- A use of `process_reply_mismatch`: the reply `=7` while the command 1000 is
current. -/
theorem process_reply_mismatch_witness :
    ∃ r, process_reply P0 demo_state 7 reply_ok_7 0 (-1) (-1) = .ok r ∧
      r.resend = true ∧
      r.last_reply_id = 7 ∧
      r.state = demo_state ∧
      r.reply_slot = -1 :=
  process_reply_mismatch P0 demo_state 7 reply_ok_7 0 (-1) (-1) 0 rfl (by decide) (by decide)

/-! ## `next_command` -/

/-- The loop of `next_command` runs to the end when no slot holds the id. -/
theorem scan_slots_none (row : Nat → cmd_history) (cmd_id : Int) (n slot : Nat)
    (h : ∀ k, slot ≤ k → k < slot + n → (row k).gtp_id ≠ cmd_id) :
    scan_slots row cmd_id n slot = slot + n := by
  induction n generalizing slot with
  | zero => rfl
  | succ n ih =>
    have h0 : ¬ cmd_id = (row slot).gtp_id := fun e => h slot (Nat.le_refl _) (by omega) e.symm
    rw [scan_slots, if_neg h0, ih (slot + 1) (fun k h1 h2 => h k (by omega) (by omega))]
    omega

/-- The loop of `next_command` stops at the first slot that holds the id. -/
theorem scan_slots_first (row : Nat → cmd_history) (cmd_id : Int) (n slot k : Nat)
    (hk : slot ≤ k) (hkn : k < slot + n) (hit : (row k).gtp_id = cmd_id)
    (hbefore : ∀ j, slot ≤ j → j < k → (row j).gtp_id ≠ cmd_id) :
    scan_slots row cmd_id n slot = k := by
  induction n generalizing slot with
  | zero => omega
  | succ n ih =>
    by_cases e : slot = k
    · subst e
      rw [scan_slots, if_pos hit.symm]
    · have h0 : ¬ cmd_id = (row slot).gtp_id :=
        fun e1 => hbefore slot (Nat.le_refl _) (by omega) e1.symm
      rw [scan_slots, if_neg h0]
      exact ih (slot + 1) (by omega) (by omega) (fun j h1 h2 => hbefore j (by omega) h2)

/-- C8. `next_command` falls back to the base of `gtp_cmds` (offset `0`) when
`cmd_id` is `-1`, or when its move number is above the move number of the id of
the current command, or when none of the `MAX_CMDS_PER_MOVE` slots of
`history[move_number(cmd_id)]` holds `cmd_id`; in the remaining case the pointer
it returns is the `next_cmd` of the first slot that holds `cmd_id` (it is returned
when it is not `NULL`, and `assert(next)` fails when it is). -/
theorem next_command_cases (P : Params) (s : State) (cmd_id : Int) :
    next_command P s (-1) = .ok 0 ∧
    ∀ p, s.gtp_cmd = some p →
      (move_number P cmd_id > move_number P (cmd_id_at s p) →
        next_command P s cmd_id = .ok 0) ∧
      ((∀ k, k < MAX_CMDS_PER_MOVE → (s.history (move_number P cmd_id) k).gtp_id ≠ cmd_id) →
        next_command P s cmd_id = .ok 0) ∧
      (∀ k, cmd_id ≠ -1 → ¬ move_number P cmd_id > move_number P (cmd_id_at s p) →
        k < MAX_CMDS_PER_MOVE →
        (s.history (move_number P cmd_id) k).gtp_id = cmd_id →
        (∀ j, j < k → (s.history (move_number P cmd_id) j).gtp_id ≠ cmd_id) →
        (next_command P s cmd_id).toOption = (s.history (move_number P cmd_id) k).next_cmd ∧
        (∀ q, (s.history (move_number P cmd_id) k).next_cmd = some q →
          next_command P s cmd_id = .ok q) ∧
        ((s.history (move_number P cmd_id) k).next_cmd = none →
          next_command P s cmd_id = .error .assert_failed)) := by
  refine ⟨by simp [next_command], ?_⟩
  intro p hcmd
  refine ⟨?_, ?_, ?_⟩
  · intro hgt
    unfold next_command
    by_cases h1 : cmd_id = -1
    · rw [if_pos h1]
    · rw [if_neg h1]
      simp only [hcmd]
      rw [if_pos hgt]
  · intro hnone
    unfold next_command
    by_cases h1 : cmd_id = -1
    · rw [if_pos h1]
    · rw [if_neg h1]
      simp only [hcmd]
      by_cases hgt : move_number P cmd_id > move_number P (cmd_id_at s p)
      · rw [if_pos hgt]
      · rw [if_neg hgt]
        have hs := scan_slots_none (s.history (move_number P cmd_id)) cmd_id
          MAX_CMDS_PER_MOVE 0 (fun k _ h2 => hnone k (by omega))
        rw [hs, if_pos (by omega)]
  · intro k h1 hgt hk hit hbefore
    have hs := scan_slots_first (s.history (move_number P cmd_id)) cmd_id
      MAX_CMDS_PER_MOVE 0 k (Nat.zero_le _) (by omega) hit (fun j _ h2 => hbefore j h2)
    have hne : ¬ k = MAX_CMDS_PER_MOVE := by omega
    have hform : next_command P s cmd_id =
        match (s.history (move_number P cmd_id) k).next_cmd with
        | none => .error .assert_failed
        | some next => .ok next := by
      unfold next_command
      rw [if_neg h1]
      simp only [hcmd]
      rw [if_neg hgt]
      simp only [hs]
      rw [if_neg hne]
    rw [hform]
    cases (s.history (move_number P cmd_id) k).next_cmd with
    | none => simp [Except.toOption]
    | some q => simp [Except.toOption]

/-- A use of `next_command_cases` at `demo_state`, where the only slot in use
holds the id 1000 of the current command and has no successor yet: the ids `-1`,
`1001` (a later move) and `2000` (in no slot) lead to the base. -/
theorem next_command_cases_witness :
    next_command P0 demo_state (-1) = .ok 0 ∧
    next_command P0 demo_state 1001 = .ok 0 ∧
    next_command P0 demo_state 2000 = .ok 0 ∧
    (next_command P0 demo_state 1000).toOption = (demo_state.history 0 1).next_cmd :=
  ⟨(next_command_cases P0 demo_state 1001).1,
   ((next_command_cases P0 demo_state 1001).2 0 rfl).1 (by decide),
   ((next_command_cases P0 demo_state 2000).2 0 rfl).2.1 (by decide),
   (((next_command_cases P0 demo_state 1000).2 0 rfl).2.2 1 (by decide) (by decide)
      (by decide) (by decide) (by decide)).1⟩

/-! ## One slave thread while one id is current -/

/-- An in-place refresh leaves `reply_count` and `gtp_replies` alone. -/
theorem update_cmd_refresh_frame (P : Params) (s s1 : State) (b_moves rnd : Nat)
    (cmd args : List Nat) (h : update_cmd P s b_moves rnd cmd args false = .ok s1) :
    s1.reply_count = s.reply_count ∧ s1.gtp_replies = s.gtp_replies ∧
      s1.active_slaves = s.active_slaves := by
  unfold update_cmd at h
  cases hc : s.gtp_cmd with
  | none => simp [hc] at h
  | some p =>
    simp only [hc] at h
    injection h with h
    subst h
    exact ⟨rfl, rfl, rfl⟩

/-- The events of a run in front of a step. -/
theorem id_stays_cons (P : Params) (w : Nat) (x : Int) (c : WorkerCfg) (e : WEvent)
    (es : List WEvent) (h : id_stays P w x c (e :: es) = true) :
    current_id c.state = some x ∧
      ∃ c1, worker_step P w c e = .ok c1 ∧ id_stays P w x c1 es = true := by
  unfold id_stays at h
  by_cases h1 : current_id c.state = some x
  · rw [if_pos h1] at h
    refine ⟨h1, ?_⟩
    cases hs : worker_step P w c e with
    | error err => simp [hs] at h
    | ok c1 =>
      simp only [hs] at h
      exact ⟨c1, rfl, h⟩
  · rw [if_neg h1] at h
    exact absurd h (by decide)

/-- A run splits at any point. -/
theorem id_stays_append (P : Params) (w : Nat) (x : Int) (pre post : List WEvent)
    (c : WorkerCfg) (h : id_stays P w x c (pre ++ post) = true) :
    ∃ c1, worker_run P w c pre = .ok c1 ∧ id_stays P w x c1 post = true := by
  induction pre generalizing c with
  | nil => exact ⟨c, rfl, h⟩
  | cons e es ih =>
    obtain ⟨_, c1, hstep, hrest⟩ := id_stays_cons P w x c e (es ++ post) h
    obtain ⟨c2, hrun, hpost⟩ := ih c1 hrest
    refine ⟨c2, ?_, hpost⟩
    simp only [worker_run, hstep]
    exact hrun

/-- The id stays over the first part of a run over which it stays. -/
theorem id_stays_prefix (P : Params) (w : Nat) (x : Int) (pre post : List WEvent)
    (c : WorkerCfg) (h : id_stays P w x c (pre ++ post) = true) :
    id_stays P w x c pre = true := by
  induction pre generalizing c with
  | nil =>
    cases post with
    | nil => exact h
    | cons e es =>
      have h1 := (id_stays_cons P w x c e es h).1
      simp [id_stays, h1]
  | cons e es ih =>
    obtain ⟨hid, c1, hstep, hrest⟩ := id_stays_cons P w x c e (es ++ post) h
    have h1 := ih c1 hrest
    simp only [id_stays, hid, if_true, hstep]
    exact h1

/-- A run is the run of its first part followed by the run of the rest. -/
theorem worker_run_append (P : Params) (w : Nat) (pre post : List WEvent)
    (c c1 : WorkerCfg) (h : worker_run P w c pre = .ok c1) :
    worker_run P w c (pre ++ post) = worker_run P w c1 post := by
  induction pre generalizing c with
  | nil =>
    simp only [worker_run] at h
    injection h with h
    subst h
    rfl
  | cons e es ih =>
    simp only [worker_run, List.cons_append] at h ⊢
    cases hs : worker_step P w c e with
    | error err => simp [hs] at h
    | ok c2 =>
      simp only [hs] at h ⊢
      exact ih c2 h

/-- The id that a state with current id `x` compares replies with. -/
theorem current_id_some (s : State) (x : Int) (h : current_id s = some x) :
    ∃ p, s.gtp_cmd = some p ∧ cmd_id_at s p = x := by
  unfold current_id at h
  cases hc : s.gtp_cmd with
  | none => simp [hc] at h
  | some p =>
    refine ⟨p, rfl, ?_⟩
    simpa [hc] using h

/-- A reply that is no success reply to the current id changes neither
`reply_count` nor `gtp_replies`, and leaves a `last_reply_id` other than the
current id. -/
theorem worker_step_no_match (P : Params) (w : Nat) (x : Int) (c c1 : WorkerCfg) (e : WEvent)
    (hid : current_id c.state = some x) (hx : x ≠ -1) (hlast : c.last_reply_id ≠ x)
    (hno : e.is_match x = false) (hstep : worker_step P w c e = .ok c1) :
    c1.last_reply_id ≠ x ∧ c1.state.reply_count = c.state.reply_count ∧
      c1.state.gtp_replies = c.state.gtp_replies := by
  obtain ⟨p, hp, hpx⟩ := current_id_some c.state x hid
  cases e with
  | refresh b cmd args =>
    simp only [worker_step] at hstep
    cases hu : update_cmd P c.state b 0 cmd args false with
    | error err => simp [hu] at hstep
    | ok s1 =>
      simp only [hu] at hstep
      injection hstep with hstep
      subst hstep
      obtain ⟨h1, h2, _⟩ := update_cmd_refresh_frame P c.state s1 b 0 cmd args hu
      exact ⟨hlast, h1, h2⟩
  | reply reply_id text =>
    simp only [worker_step, process_reply, hp] at hstep
    by_cases hf : text.headD 0 = 61
    · have hne : reply_id ≠ x := by
        intro e1
        have hyes : WEvent.is_match x (.reply reply_id text) = true := by
          show (text.headD 0 == 61 && reply_id == x) = true
          rw [hf, e1]
          simp
        rw [hyes] at hno
        exact absurd hno (by decide)
      rw [if_neg (fun h => h hf), hpx, if_neg hne] at hstep
      injection hstep with hstep
      subst hstep
      exact ⟨hne, rfl, rfl⟩
    · rw [if_pos hf] at hstep
      injection hstep with hstep
      subst hstep
      exact ⟨fun h => hx h.symm, rfl, rfl⟩

/-- Events without a success reply to the current id change neither
`reply_count` nor `gtp_replies`. -/
theorem worker_run_no_match (P : Params) (w : Nat) (x : Int) (es : List WEvent)
    (c : WorkerCfg) (hx : x ≠ -1) (hstay : id_stays P w x c es = true)
    (hlast : c.last_reply_id ≠ x) (hno : ∀ e ∈ es, e.is_match x = false) :
    ∃ c1, worker_run P w c es = .ok c1 ∧ c1.last_reply_id ≠ x ∧
      c1.state.reply_count = c.state.reply_count ∧
      c1.state.gtp_replies = c.state.gtp_replies := by
  induction es generalizing c with
  | nil => exact ⟨c, rfl, hlast, rfl, rfl⟩
  | cons e es ih =>
    obtain ⟨hid, c1, hstep, hrest⟩ := id_stays_cons P w x c e es hstay
    obtain ⟨h1, h2, h3⟩ := worker_step_no_match P w x c c1 e hid hx hlast
      (hno e (List.mem_cons_self _ _)) hstep
    obtain ⟨c2, hrun, h4, h5, h6⟩ := ih c1 hrest h1
      (fun e1 he1 => hno e1 (List.mem_cons_of_mem _ he1))
    refine ⟨c2, ?_, h4, by rw [h5, h2], by rw [h6, h3]⟩
    simp only [worker_run, hstep]
    exact hrun

/-- Once the thread has its slot for the current id, further success replies to
that id and refreshes change neither `reply_count` nor `gtp_replies`. -/
theorem worker_run_matched (P : Params) (w : Nat) (x : Int) (es : List WEvent)
    (c : WorkerCfg) (hstay : id_stays P w x c es = true)
    (hlast : c.last_reply_id = x)
    (hslot : c.state.gtp_replies c.reply_slot = some w)
    (hall : ∀ e ∈ es, e.is_reply = true → e.is_match x = true) :
    ∃ c1, worker_run P w c es = .ok c1 ∧ c1.last_reply_id = x ∧
      c1.reply_slot = c.reply_slot ∧
      c1.state.reply_count = c.state.reply_count ∧
      c1.state.gtp_replies = c.state.gtp_replies := by
  induction es generalizing c with
  | nil => exact ⟨c, rfl, hlast, rfl, rfl, rfl⟩
  | cons e es ih =>
    obtain ⟨hid, c1, hstep, hrest⟩ := id_stays_cons P w x c e es hstay
    obtain ⟨p, hp, hpx⟩ := current_id_some c.state x hid
    have hall1 : ∀ e1 ∈ es, e1.is_reply = true → e1.is_match x = true :=
      fun e1 he1 => hall e1 (List.mem_cons_of_mem _ he1)
    have key : c1.last_reply_id = x ∧ c1.reply_slot = c.reply_slot ∧
        c1.state.reply_count = c.state.reply_count ∧
        c1.state.gtp_replies = c.state.gtp_replies := by
      cases e with
      | refresh b cmd args =>
        simp only [worker_step] at hstep
        cases hu : update_cmd P c.state b 0 cmd args false with
        | error err => simp [hu] at hstep
        | ok s1 =>
          simp only [hu] at hstep
          injection hstep with hstep
          subst hstep
          obtain ⟨h1, h2, _⟩ := update_cmd_refresh_frame P c.state s1 b 0 cmd args hu
          exact ⟨hlast, rfl, h1, h2⟩
      | reply reply_id text =>
        have hm := hall (.reply reply_id text) (List.mem_cons_self _ _) rfl
        simp only [WEvent.is_match, Bool.and_eq_true, beq_iff_eq] at hm
        obtain ⟨hf, hrx⟩ := hm
        simp only [worker_step, process_reply, hp] at hstep
        rw [if_neg (fun h => h hf), hpx, if_pos hrx] at hstep
        injection hstep with hstep
        subst hstep
        have hsame : reply_id = c.last_reply_id := by rw [hrx, hlast]
        refine ⟨hrx, ?_, ?_, ?_⟩
        · simp [hsame]
        · simp [hsame]
        · simp only [hsame, ne_eq, not_true_eq_false, decide_False, Bool.false_eq_true,
            if_false]
          funext i
          by_cases hi : i = c.reply_slot
          · subst hi
            simp [hslot]
          · simp [Function.update_noteq hi]
    obtain ⟨k1, k2, k3, k4⟩ := key
    obtain ⟨c2, hrun, h4, h5, h6, h7⟩ := ih c1 hrest k1 (by rw [k4, k2]; exact hslot) hall1
    refine ⟨c2, ?_, h4, by rw [h5, k2], by rw [h6, k3], by rw [h7, k4]⟩
    simp only [worker_run, hstep]
    exact hrun

/-- From the first success reply to the current id on, when every later reply is
one too: the thread claims the slot `reply_count` once. -/
theorem worker_run_claims_once (P : Params) (w : Nat) (x : Int) (es : List WEvent)
    (c : WorkerCfg) (hstay : id_stays P w x c es = true)
    (hlast : c.last_reply_id ≠ x)
    (hall : ∀ e ∈ es, e.is_reply = true → e.is_match x = true)
    (hsome : ∃ e ∈ es, e.is_match x = true) :
    ∃ c1, worker_run P w c es = .ok c1 ∧ c1.last_reply_id = x ∧
      c1.reply_slot = c.state.reply_count ∧
      c1.state.reply_count = c.state.reply_count + 1 ∧
      c1.state.gtp_replies =
        Function.update c.state.gtp_replies c.state.reply_count (some w) := by
  induction es generalizing c with
  | nil =>
    obtain ⟨e, he, _⟩ := hsome
    exact absurd he (List.not_mem_nil e)
  | cons e es ih =>
    obtain ⟨hid, c1, hstep, hrest⟩ := id_stays_cons P w x c e es hstay
    obtain ⟨p, hp, hpx⟩ := current_id_some c.state x hid
    have hall1 : ∀ e1 ∈ es, e1.is_reply = true → e1.is_match x = true :=
      fun e1 he1 => hall e1 (List.mem_cons_of_mem _ he1)
    cases e with
    | refresh b cmd args =>
      have hsome1 : ∃ e1 ∈ es, e1.is_match x = true := by
        obtain ⟨e1, he1, hm⟩ := hsome
        rcases List.mem_cons.mp he1 with h0 | h0
        · subst h0
          simp [WEvent.is_match] at hm
        · exact ⟨e1, h0, hm⟩
      simp only [worker_step] at hstep
      cases hu : update_cmd P c.state b 0 cmd args false with
      | error err => simp [hu] at hstep
      | ok s1 =>
        simp only [hu] at hstep
        injection hstep with hstep
        subst hstep
        obtain ⟨h1, h2, _⟩ := update_cmd_refresh_frame P c.state s1 b 0 cmd args hu
        obtain ⟨c2, hrun, h4, h5, h6, h7⟩ := ih ⟨s1, c.last_reply_id, c.reply_slot⟩ hrest
          hlast hall1 hsome1
        refine ⟨c2, ?_, h4, by rw [h5, h1], by rw [h6, h1], by rw [h7, h1, h2]⟩
        simp only [worker_run, worker_step, hu]
        exact hrun
    | reply reply_id text =>
      have hm := hall (.reply reply_id text) (List.mem_cons_self _ _) rfl
      simp only [WEvent.is_match, Bool.and_eq_true, beq_iff_eq] at hm
      obtain ⟨hf, hrx⟩ := hm
      have hstep0 := hstep
      simp only [worker_step, process_reply, hp] at hstep
      rw [if_neg (fun h => h hf), hpx, if_pos hrx] at hstep
      injection hstep with hstep
      subst hstep
      have hfresh : reply_id ≠ c.last_reply_id := by
        rw [hrx]
        exact fun h => hlast h.symm
      simp only [hfresh, ne_eq, not_false_eq_true, decide_True, if_true] at hrest
      obtain ⟨c2, hrun, h4, h5, h6, h7⟩ := worker_run_matched P w x es _ hrest hrx
        (by simp) hall1
      simp only at h5 h6 h7
      refine ⟨c2, ?_, h4, h5, h6, h7⟩
      simp only [worker_run, hstep0]
      simp only [hfresh, ne_eq, not_false_eq_true, decide_True, if_true]
      exact hrun

/-- Where the check of `last_reply_id` in `process_reply` does what it is there
for. Within one call of `slave_loop`, with no reply of another thread in between:
while the id `x` of the current command stays the same (refreshes allowed), a
thread whose `last_reply_id` is not `x` hands replies to `process_reply`; when no
error or out-of-sync reply comes after a success reply to `x`, and there is a
success reply to `x`, the thread raises `reply_count` by exactly one and writes
exactly one entry of `gtp_replies`, the one at the old `reply_count`. -/
theorem one_slot_per_id (P : Params) (w : Nat) (x : Int) (pre post : List WEvent)
    (c : WorkerCfg) (hx : x ≠ -1)
    (hstay : id_stays P w x c (pre ++ post) = true)
    (hlast : c.last_reply_id ≠ x)
    (hpre : ∀ e ∈ pre, e.is_match x = false)
    (hpost : ∀ e ∈ post, e.is_reply = true → e.is_match x = true)
    (hsome : ∃ e ∈ post, e.is_match x = true) :
    ∃ c1, worker_run P w c (pre ++ post) = .ok c1 ∧
      c1.state.reply_count = c.state.reply_count + 1 ∧
      c1.state.gtp_replies =
        Function.update c.state.gtp_replies c.state.reply_count (some w) ∧
      c1.reply_slot = c.state.reply_count := by
  obtain ⟨c0, hrun0, hstay0⟩ := id_stays_append P w x pre post c hstay
  have hpre_stay := id_stays_prefix P w x pre post c hstay
  obtain ⟨c1, hrun1, h1, h2, h3⟩ := worker_run_no_match P w x pre c hx hpre_stay hlast hpre
  have hc : c0 = c1 := by
    rw [hrun0] at hrun1
    injection hrun1
  subst hc
  obtain ⟨c2, hrun2, _, k2, k3, k4⟩ := worker_run_claims_once P w x post c0 hstay0 h1 hpost hsome
  refine ⟨c2, ?_, by rw [k3, h2], by rw [k4, h2, h3], by rw [k2, h2]⟩
  rw [worker_run_append P w pre post c c0 hrun0]
  exact hrun2

/-- A use of `one_slot_per_id` at `demo_state`: an out-of-sync reply, an error
reply, then two success replies to 1000 with a refresh in between. -/
theorem one_slot_per_id_witness :
    ∃ c1, worker_run P0 0 demo_cfg (demo_pre ++ demo_post) = .ok c1 ∧
      c1.state.reply_count = demo_cfg.state.reply_count + 1 ∧
      c1.state.gtp_replies =
        Function.update demo_cfg.state.gtp_replies demo_cfg.state.reply_count (some 0) ∧
      c1.reply_slot = demo_cfg.state.reply_count :=
  one_slot_per_id P0 0 1000 demo_pre demo_post demo_cfg (by decide) (by decide) (by decide)
    (by decide) (by decide) (by decide)

/-- C4, at an input where the code fails. While 1000 stays the id of the current
command, a slave thread gets a success reply, the command is refreshed, and the
slave sends an error reply and a success reply again: the error reply has set
`last_reply_id` to `-1`, so the second success reply claims a second slot, and
the thread has raised `reply_count` by two and filled two entries of
`gtp_replies` with its one buffer. The same happens when the connection is cut
after the first success reply and the thread gets a new connection: the locals of
`slave_loop` start at `-1` again and `reply_count` is 2 with one active slave. -/
theorem reply_counted_twice :
    id_stays P0 0 1000 demo_cfg demo_twice = true ∧
    (∃ e ∈ demo_twice, e.is_match 1000 = true) ∧
    demo_cfg.state.reply_count = 0 ∧
    demo_cfg.state.gtp_replies 0 = none ∧ demo_cfg.state.gtp_replies 1 = none ∧
    (worker_run P0 0 demo_cfg demo_twice).toOption.map
      (fun c1 => (c1.state.reply_count, c1.state.gtp_replies 0, c1.state.gtp_replies 1)) =
      some (2, some 0, some 0) ∧
    (run_ops P0 (State.init P0) ops_reconnect).toOption.map
      (fun s => (current_id s, s.reply_count, s.active_slaves)) = some (some 1000, 2, 1) ∧
    (run_ops P0 (State.init P0) ops_reconnect).toOption.map
      (fun s => (s.gtp_replies 0, s.gtp_replies 1)) = some (some 0, some 0) := by
  decide

/-! ## `reply_count` and `active_slaves` -/

/-- C5, as the code has it. Where `reply_count ≤ active_slaves` holds (and
`active_slaves` is not negative, which every operation keeps): it holds when the
program starts; it still holds after a thread enters the loop, after `update_cmd`
and after `new_cmd`; after `process_reply` it holds exactly when no fresh slot
was claimed or `reply_count < active_slaves` held before; after a thread leaves
the loop it holds exactly when `reply_count < active_slaves` held before.
`update_cmd` and `process_reply` return when there is a current command, and a
thread can leave when `active_slaves` is positive. -/
theorem reply_count_le_active_steps (P : Params) (s : State)
    (hinv : s.reply_count ≤ s.active_slaves) (hact : 0 ≤ s.active_slaves) :
    ((State.init P).reply_count ≤ (State.init P).active_slaves ∧
      0 ≤ (State.init P).active_slaves) ∧
    ((slave_enter s).reply_count ≤ (slave_enter s).active_slaves ∧
      0 ≤ (slave_enter s).active_slaves) ∧
    (∀ b_moves rnd cmd args new_id s1, update_cmd P s b_moves rnd cmd args new_id = .ok s1 →
      s1.reply_count ≤ s1.active_slaves ∧ 0 ≤ s1.active_slaves) ∧
    (∀ b_moves rnd cmd args s1, new_cmd P s b_moves rnd cmd args = .ok s1 →
      s1.reply_count ≤ s1.active_slaves ∧ 0 ≤ s1.active_slaves) ∧
    (∀ reply_id reply reply_buf last_reply_id reply_slot r,
      process_reply P s reply_id reply reply_buf last_reply_id reply_slot = .ok r →
      (r.state.reply_count = s.reply_count ∨ r.state.reply_count = s.reply_count + 1) ∧
      0 ≤ r.state.active_slaves ∧
      (r.state.reply_count ≤ r.state.active_slaves ↔
        (r.state.reply_count = s.reply_count ∨ s.reply_count < s.active_slaves))) ∧
    (∀ s1, slave_leave s = .ok s1 →
      0 ≤ s1.active_slaves ∧
      (s1.reply_count ≤ s1.active_slaves ↔ s.reply_count < s.active_slaves)) ∧
    (∀ p, s.gtp_cmd = some p →
      (∀ b_moves rnd cmd args new_id, ∃ s1, update_cmd P s b_moves rnd cmd args new_id = .ok s1) ∧
      (∀ reply_id reply reply_buf last_reply_id reply_slot,
        ∃ r, process_reply P s reply_id reply reply_buf last_reply_id reply_slot = .ok r)) ∧
    (0 < s.active_slaves → ∃ s1, slave_leave s = .ok s1) := by
  have hupd : ∀ (t : State) b_moves rnd cmd args new_id s1,
      t.reply_count ≤ t.active_slaves → 0 ≤ t.active_slaves →
      update_cmd P t b_moves rnd cmd args new_id = .ok s1 →
      s1.reply_count ≤ s1.active_slaves ∧ 0 ≤ s1.active_slaves := by
    intro t b_moves rnd cmd args new_id s1 h1 h2 h
    unfold update_cmd at h
    cases hc : t.gtp_cmd with
    | none => simp [hc] at h
    | some p =>
      simp only [hc] at h
      cases new_id with
      | true =>
        simp only [if_true] at h
        injection h with h
        subst h
        exact ⟨h2, h2⟩
      | false =>
        simp only [Bool.false_eq_true, if_false] at h
        injection h with h
        subst h
        exact ⟨h1, h2⟩
  refine ⟨⟨Int.le_refl _, Int.le_refl _⟩, ?_, ?_, ?_, ?_, ?_, ?_, ?_⟩
  rotate_left 5
  · intro p hp
    constructor
    · intro b_moves rnd cmd args new_id
      unfold update_cmd
      simp only [hp]
      cases new_id with
      | true => exact ⟨_, rfl⟩
      | false => exact ⟨_, rfl⟩
    · intro reply_id reply reply_buf last_reply_id reply_slot
      unfold process_reply
      simp only [hp]
      by_cases hf : reply.headD 0 ≠ 61
      · rw [if_pos hf]
        exact ⟨_, rfl⟩
      · rw [if_neg hf]
        by_cases hid : reply_id = cmd_id_at s p
        · rw [if_pos hid]
          exact ⟨_, rfl⟩
        · rw [if_neg hid]
          exact ⟨_, rfl⟩
  · intro hpos
    unfold slave_leave
    rw [if_pos hpos]
    exact ⟨_, rfl⟩
  · simp only [slave_enter]
    omega
  · intro b_moves rnd cmd args new_id s1 h
    exact hupd s b_moves rnd cmd args new_id s1 hinv hact h
  · intro b_moves rnd cmd args s1 h
    unfold new_cmd at h
    cases hc : s.gtp_cmd with
    | none =>
      simp only [hc] at h
      exact hupd (new_cmd_clear s) b_moves rnd cmd args true s1 hinv hact h
    | some p =>
      simp only [hc] at h
      by_cases hg : P.is_gamestart (cstr cmd) = true
      · rw [if_pos hg] at h
        exact hupd (new_cmd_clear s) b_moves rnd cmd args true s1 hinv hact h
      · rw [if_neg hg] at h
        cases hd : new_cmd_demote P s p with
        | error e => simp [hd] at h
        | ok s2 =>
          simp only [hd] at h
          have h2 : s2.reply_count = s.reply_count ∧ s2.active_slaves = s.active_slaves := by
            unfold new_cmd_demote at hd
            by_cases hl : 32 < strspn_digits (s.gtp_cmds.drop p)
            · simp [hl] at hd
            · simp only [hl, if_false] at hd
              injection hd with hd
              subst hd
              exact ⟨rfl, rfl⟩
          exact hupd s2 b_moves rnd cmd args true s1 (by rw [h2.1, h2.2]; exact hinv)
            (by rw [h2.2]; exact hact) h
  · intro reply_id reply reply_buf last_reply_id reply_slot r h
    unfold process_reply at h
    by_cases hf : reply.headD 0 ≠ 61
    · rw [if_pos hf] at h
      injection h with h
      subst h
      exact ⟨Or.inl rfl, hact, by simp [hinv]⟩
    · rw [if_neg hf] at h
      cases hc : s.gtp_cmd with
      | none => simp [hc] at h
      | some p =>
        simp only [hc] at h
        by_cases hid : reply_id = cmd_id_at s p
        · rw [if_pos hid] at h
          injection h with h
          subst h
          by_cases hfr : reply_id = last_reply_id
          · simp [hfr, hinv, hact]
          · have hd : decide (reply_id ≠ last_reply_id) = true := by simp [hfr]
            simp only [hd, if_true]
            refine ⟨by simp, hact, ?_⟩
            constructor
            · intro h1
              right
              omega
            · intro h1
              rcases h1 with h1 | h1
              · omega
              · omega
        · rw [if_neg hid] at h
          injection h with h
          subst h
          exact ⟨Or.inl rfl, hact, by simp [hinv]⟩
  · intro s1 h
    unfold slave_leave at h
    by_cases hp : 0 < s.active_slaves
    · rw [if_pos hp] at h
      injection h with h
      subst h
      simp only
      constructor
      · omega
      · constructor
        · intro h1
          omega
        · intro h1
          omega
    · rw [if_neg hp] at h
      exact absurd h (by simp)

/-- A use of `reply_count_le_active_steps` at `demo_state`, where one slave is
active and none has replied: the bound holds after one more slave enters, and
after the slave leaves. -/
theorem reply_count_le_active_steps_witness :
    ((slave_enter demo_state).reply_count ≤ (slave_enter demo_state).active_slaves ∧
      0 ≤ (slave_enter demo_state).active_slaves) ∧
    (∀ s1, slave_leave demo_state = .ok s1 →
      0 ≤ s1.active_slaves ∧
      (s1.reply_count ≤ s1.active_slaves ↔
        demo_state.reply_count < demo_state.active_slaves)) :=
  ⟨(reply_count_le_active_steps P0 demo_state (by decide) (by decide)).2.1,
   (reply_count_le_active_steps P0 demo_state (by decide) (by decide)).2.2.2.2.2.1⟩

/-- C5 as stated does not hold: from the start of the program, after the first
command, one slave that joins, replies and is cut off leaves `reply_count = 1`
with `active_slaves = 0`; and one slave whose replies are a success, an error
and a success again leaves `reply_count = 2` with `active_slaves = 1`. -/
theorem reply_count_le_active_counterexample :
    (run_ops P0 (State.init P0) ops_leave).toOption.map
      (fun s => (s.reply_count, s.active_slaves)) = some (1, 0) ∧
    (run_ops P0 (State.init P0) ops_twice).toOption.map
      (fun s => (s.reply_count, s.active_slaves)) = some (2, 1) := by
  decide

/-! ## Decimal numbers and C strings -/

/-- The digits that `to_dec` produces are those of `Nat.digits`, most significant first. -/
theorem to_dec_eq (fuel n : Nat) (acc : List Nat) (h0 : 0 < n) (hf : n < fuel) :
    to_dec fuel n acc = (Nat.digits 10 n).reverse.map (fun d => 48 + d) ++ acc := by
  induction fuel generalizing n acc with
  | zero => omega
  | succ f ih =>
    unfold to_dec
    by_cases h : n < 10
    · rw [if_pos h, Nat.digits_of_lt 10 n (by omega) h]
      rfl
    · rw [if_neg h, ih (n / 10) _ (by omega) (by omega)]
      rw [Nat.digits_def' (by decide) h0]
      simp

/-- The decimal text of a positive number, by `Nat.digits`. -/
theorem fmt_nat_eq (n : Nat) (h0 : 0 < n) :
    fmt_nat n = (Nat.digits 10 n).reverse.map (fun d => 48 + d) := by
  unfold fmt_nat
  rw [to_dec_eq (n + 1) n [] h0 (by omega)]
  simp

/-- The decimal text of `0`. -/
theorem fmt_nat_zero : fmt_nat 0 = [48] := rfl

/-- A decimal text consists of digits. -/
theorem fmt_nat_isdigit (n : Nat) : ∀ c ∈ fmt_nat n, isdigit c = true := by
  intro c hc
  rcases Nat.eq_zero_or_pos n with h | h
  · subst h
    simp [fmt_nat_zero] at hc
    subst hc
    rfl
  · rw [fmt_nat_eq n h] at hc
    simp only [List.mem_map, List.mem_reverse] at hc
    obtain ⟨d, hd, rfl⟩ := hc
    have := Nat.digits_lt_base (by decide : 1 < 10) hd
    simp [isdigit]
    omega


/-- A decimal text is not empty. -/
theorem fmt_nat_length_pos (n : Nat) : 0 < (fmt_nat n).length := by
  unfold fmt_nat to_dec
  by_cases h : n < 10
  · rw [if_pos h]
    simp
  · rw [if_neg h]
    rw [to_dec_eq n (n / 10) _ (by omega) (by omega)]
    simp

/-- A smaller number has no more digits. -/
theorem fmt_nat_length_mono (m n : Nat) (h : m ≤ n) :
    (fmt_nat m).length ≤ (fmt_nat n).length := by
  rcases Nat.eq_zero_or_pos m with hm | hm
  · subst hm
    have := fmt_nat_length_pos n
    simp [fmt_nat_zero]
    omega
  · rw [fmt_nat_eq m hm, fmt_nat_eq n (by omega)]
    simp only [List.length_map, List.length_reverse]
    exact Nat.le_digits_len_le 10 m n h

/-- A number below `10 ^ k` has at most `k` digits. -/
theorem fmt_nat_length_le (n k : Nat) (hk : 0 < k) (h : n < 10 ^ k) :
    (fmt_nat n).length ≤ k := by
  rcases Nat.eq_zero_or_pos n with hn | hn
  · subst hn
    simp [fmt_nat_zero]
    omega
  · rw [fmt_nat_eq n hn]
    simp only [List.length_map, List.length_reverse]
    have h1 := Nat.base_pow_length_digits_le 10 n (by decide) (by omega)
    have h2 : 10 ^ (Nat.digits 10 n).length < 10 ^ (k + 1) := by
      have : 10 ^ (k + 1) = 10 * 10 ^ k := by ring
      omega
    have h3 := (Nat.pow_lt_pow_iff_right (by decide : 1 < 10)).mp h2
    omega

/-- The digit loop of `atoi` stops at a byte that is no digit. -/
theorem atoi_digits_stop (acc c : Nat) (rest : List Nat) (h : isdigit c = false) :
    atoi_digits acc (c :: rest) = acc := by
  simp [atoi_digits, h]

/-- The digit loop of `atoi` over a run of digits: the value read so far is shifted
and the value of the run added; the value of a run of `n` digits is below `10 ^ n`. -/
theorem atoi_digits_append (digs : List Nat) (h : ∀ c ∈ digs, isdigit c = true)
    (acc : Nat) (rest : List Nat) :
    atoi_digits acc (digs ++ rest) =
      atoi_digits (acc * 10 ^ digs.length + atoi_digits 0 digs) rest ∧
    atoi_digits acc digs = acc * 10 ^ digs.length + atoi_digits 0 digs ∧
    atoi_digits 0 digs < 10 ^ digs.length := by
  induction digs generalizing acc with
  | nil => simp [atoi_digits]
  | cons c cs ih =>
    have hc : isdigit c = true := h c (List.mem_cons_self _ _)
    have hcs : ∀ d ∈ cs, isdigit d = true := fun d hd => h d (List.mem_cons_of_mem _ hd)
    have hc9 : c - 48 ≤ 9 := by
      simp [isdigit] at hc
      omega
    obtain ⟨i1, i2, i3⟩ := ih hcs (acc * 10 + (c - 48))
    obtain ⟨_, j2, _⟩ := ih hcs (c - 48)
    have e0 : atoi_digits 0 (c :: cs) = atoi_digits (c - 48) cs := by
      rw [atoi_digits, if_pos hc, Nat.zero_mul, Nat.zero_add]
    have hp : 10 ^ (cs.length + 1) = 10 * 10 ^ cs.length := by ring
    have hm : (c - 48) * 10 ^ cs.length ≤ 9 * 10 ^ cs.length :=
      Nat.mul_le_mul_right _ hc9
    have e1 : (acc * 10 + (c - 48)) * 10 ^ cs.length + atoi_digits 0 cs =
        acc * 10 ^ (cs.length + 1) + atoi_digits 0 (c :: cs) := by
      rw [e0, j2, hp]
      ring
    refine ⟨?_, ?_, ?_⟩
    · rw [List.cons_append, atoi_digits, if_pos hc, i1, List.length_cons, e1]
    · rw [atoi_digits, if_pos hc, i2, List.length_cons, e1]
    · rw [e0, j2, List.length_cons, hp]
      omega


/-- The digit loop of `atoi` reads back a list of digits. -/
theorem atoi_digits_of_digits (l : List Nat) (h : ∀ d ∈ l, d < 10) :
    atoi_digits 0 (l.reverse.map (fun d => 48 + d)) = Nat.ofDigits 10 l := by
  induction l with
  | nil => rfl
  | cons d l ih =>
    have hl : ∀ e ∈ l, e < 10 := fun e he => h e (List.mem_cons_of_mem _ he)
    have hd : d < 10 := h d (List.mem_cons_self _ _)
    have hdig : ∀ c ∈ l.reverse.map (fun d => 48 + d), isdigit c = true := by
      intro c hc
      simp only [List.mem_map, List.mem_reverse] at hc
      obtain ⟨e, he, rfl⟩ := hc
      have := hl e he
      simp [isdigit]
      omega
    have h1 := (atoi_digits_append _ hdig 0 [48 + d]).1
    rw [List.reverse_cons, List.map_append, List.map_singleton, h1, ih hl, Nat.ofDigits_cons]
    have hdd : isdigit (48 + d) = true := by
      simp [isdigit]
      omega
    rw [atoi_digits, if_pos hdd, atoi_digits]
    simp only [Nat.zero_mul, Nat.zero_add, Nat.add_sub_cancel_left]
    ring

/-- The digit loop of `atoi` reads a number back from its decimal text. -/
theorem atoi_digits_fmt_nat (n : Nat) : atoi_digits 0 (fmt_nat n) = n := by
  rcases Nat.eq_zero_or_pos n with h | h
  · subst h
    rfl
  · rw [fmt_nat_eq n h, atoi_digits_of_digits _ (fun d hd => Nat.digits_lt_base (by decide) hd),
      Nat.ofDigits_digits]

/-- Zeros are digits. -/
theorem replicate_isdigit (z : Nat) : ∀ c ∈ List.replicate z 48, isdigit c = true := by
  intro c hc
  rw [List.eq_of_mem_replicate hc]
  rfl

/-- Leading zeros have the value `0`. -/
theorem atoi_digits_zeros (z : Nat) : atoi_digits 0 (List.replicate z 48) = 0 := by
  induction z with
  | zero => rfl
  | succ z ih =>
    rw [List.replicate_succ, atoi_digits, if_pos (by rfl)]
    exact ih

/-- The digit loop of `atoi` reads a number back from its zero-padded text. -/
theorem atoi_digits_padded (z n : Nat) :
    atoi_digits 0 (List.replicate z 48 ++ fmt_nat n) = n := by
  rw [(atoi_digits_append _ (replicate_isdigit z) 0 (fmt_nat n)).1, atoi_digits_zeros]
  simp only [Nat.zero_mul, Nat.zero_add]
  exact atoi_digits_fmt_nat n

/-- What `atoi` reads from a text that starts with digits. -/
theorem atoi_of_digits (digs : List Nat) (c : Nat) (rest : List Nat)
    (hne : digs ≠ []) (hd : ∀ x ∈ digs, isdigit x = true) (hc : isdigit c = false) :
    atoi (digs ++ c :: rest) = (atoi_digits 0 digs : Int) := by
  cases digs with
  | nil => exact absurd rfl hne
  | cons x xs =>
    have hx : isdigit x = true := hd x (List.mem_cons_self _ _)
    have hx1 : 48 ≤ x ∧ x ≤ 57 := by
      simpa [isdigit] using hx
    have hsp : ¬ isspace x = true := by
      simp [isspace]
      omega
    have hval : atoi_digits 0 (x :: xs ++ c :: rest) = atoi_digits 0 (x :: xs) := by
      rw [(atoi_digits_append _ hd 0 (c :: rest)).1, atoi_digits_stop _ _ _ hc]
      simp
    unfold atoi
    rw [List.cons_append, List.dropWhile_cons_of_neg hsp]
    split
    · rename_i h
      injection h with h1 h2
      omega
    · rename_i h
      injection h with h1 h2
      omega
    · rw [← List.cons_append, hval]

/-- What `strspn` counts in a text that starts with digits. -/
theorem strspn_of_digits (digs : List Nat) (c : Nat) (rest : List Nat)
    (hd : ∀ x ∈ digs, isdigit x = true) (hc : isdigit c = false) :
    strspn_digits (digs ++ c :: rest) = digs.length := by
  unfold strspn_digits
  rw [List.takeWhile_append_of_pos hd, List.takeWhile_cons_of_neg (by simp [hc])]
  simp

/-- A C string goes on over bytes that are not NUL. -/
theorem cstr_append (a b : List Nat) (ha : ∀ x ∈ a, x ≠ 0) :
    cstr (a ++ b) = a ++ cstr b := by
  unfold cstr
  exact List.takeWhile_append_of_pos (fun x hx => by simpa using ha x hx)

/-- A C string ends at the first NUL. -/
theorem cstr_nul (a b : List Nat) (ha : ∀ x ∈ a, x ≠ 0) :
    cstr (a ++ 0 :: b) = a := by
  rw [cstr_append a _ ha]
  simp [cstr]

/-- A C string has no NUL in it. -/
theorem cstr_no_nul (l : List Nat) : ∀ x ∈ cstr l, x ≠ 0 := by
  intro x hx
  have := List.mem_takeWhile_imp hx
  simpa using this

/-- A store at an offset leaves the bytes in front of it. -/
theorem write_at_take (buf : List Nat) (p : Nat) (bytes : List Nat) (hp : p ≤ buf.length) :
    (write_at buf p bytes).take p = buf.take p := by
  unfold write_at
  rw [List.append_assoc, List.take_append_of_le_length (by simp [hp])]
  simp [List.take_take]

/-- The bytes from the offset of a store on. -/
theorem write_at_drop (buf : List Nat) (p : Nat) (bytes : List Nat) (hp : p ≤ buf.length) :
    (write_at buf p bytes).drop p = bytes ++ buf.drop (p + bytes.length) := by
  unfold write_at
  have hl : (buf.take p).length = p := by simp [hp]
  rw [List.append_assoc, List.drop_append_of_le_length (by omega), List.drop_of_length_le (by omega)]
  simp

/-- A store within a buffer keeps its size. -/
theorem write_at_length (buf : List Nat) (p : Nat) (bytes : List Nat)
    (hp : p + bytes.length ≤ buf.length) :
    (write_at buf p bytes).length = buf.length := by
  unfold write_at
  simp
  omega

/-- A buffer is what is in front of an offset and what is behind it. -/
theorem write_at_eq (pre old post bytes : List Nat) (h : bytes.length = old.length) :
    write_at (pre ++ old ++ post) pre.length bytes = pre ++ bytes ++ post := by
  unfold write_at
  simp [List.append_assoc, h, List.take_append_of_le_length, List.drop_append_of_le_length]

/-! ## `new_cmd`: the previous command is demoted -/

/-- The reply-suppressed form of an id that is not negative. -/
theorem prevent_reply_nat (P : Params) (v : Nat) :
    prevent_reply P (v : Int) = ((v % P.DIST_GAMELEN : Nat) : Int) := by
  unfold prevent_reply
  exact (Int.ofNat_tmod v P.DIST_GAMELEN).symm

/-- The conversion with zeros of a number that is not negative. -/
theorem fmt_0d_nat (width n : Nat) :
    fmt_0d width (n : Int) = List.replicate (width - (fmt_nat n).length) 48 ++ fmt_nat n := by
  unfold fmt_0d
  have h : ¬ ((n : Int) < 0) := by omega
  rw [if_neg h]
  simp

/-- The conversion with zeros has the given width when the digits fit. -/
theorem fmt_0d_length (width n : Nat) (h : (fmt_nat n).length ≤ width) :
    (fmt_0d width (n : Int)).length = width := by
  rw [fmt_0d_nat]
  simp
  omega

/-- The conversion with zeros of a number that is not negative consists of digits. -/
theorem fmt_0d_isdigit (width n : Nat) : ∀ c ∈ fmt_0d width (n : Int), isdigit c = true := by
  intro c hc
  rw [fmt_0d_nat] at hc
  rcases List.mem_append.mp hc with h | h
  · exact replicate_isdigit _ c h
  · exact fmt_nat_isdigit n c h

/-- No digit is the NUL byte. -/
theorem isdigit_ne_zero (l : List Nat) (h : ∀ c ∈ l, isdigit c = true) : ∀ c ∈ l, c ≠ 0 := by
  intro c hc h0
  have := h c hc
  subst h0
  exact absurd this (by decide)

/-- The token that `new_cmd` writes over an id token `digs`: it has as many bytes,
all of them digits, and `atoi` reads `prevent_reply` of the old id from it. -/
theorem demoted_token (P : Params) (digs rest : List Nat) (hne : digs ≠ [])
    (hdigs : ∀ c ∈ digs, isdigit c = true) :
    (fmt_0d digs.length (prevent_reply P (atoi_digits 0 digs : Nat))).length = digs.length ∧
    (∀ c ∈ fmt_0d digs.length (prevent_reply P (atoi_digits 0 digs : Nat)), isdigit c = true) ∧
    atoi (fmt_0d digs.length (prevent_reply P (atoi_digits 0 digs : Nat)) ++ 32 :: rest) =
      prevent_reply P (atoi_digits 0 digs : Nat) := by
  have hsp : isdigit 32 = false := by decide
  have hfit : (fmt_nat (atoi_digits 0 digs % P.DIST_GAMELEN)).length ≤ digs.length := by
    have h1 := (atoi_digits_append digs hdigs 0 []).2.2
    have h2 : atoi_digits 0 digs % P.DIST_GAMELEN < 10 ^ digs.length :=
      Nat.lt_of_le_of_lt (Nat.mod_le _ _) h1
    exact fmt_nat_length_le _ _ (List.length_pos.mpr hne) h2
  rw [prevent_reply_nat]
  have hdl := fmt_0d_length digs.length _ hfit
  have hdd := fmt_0d_isdigit digs.length (atoi_digits 0 digs % P.DIST_GAMELEN)
  have hdne : fmt_0d digs.length ((atoi_digits 0 digs % P.DIST_GAMELEN : Nat) : Int) ≠ [] := by
    intro h
    rw [h] at hdl
    exact hne (List.length_eq_zero.mp hdl.symm)
  refine ⟨hdl, hdd, ?_⟩
  rw [atoi_of_digits _ 32 _ hdne hdd hsp, fmt_0d_nat, atoi_digits_padded]

/-- The second branch of `new_cmd` on a current command that is a line: an id
token `digs` of at most 31 digits, a space, the rest `body` of the line, a NUL. -/
theorem new_cmd_demote_line (P : Params) (s : State) (pre digs body post : List Nat)
    (hbuf : s.gtp_cmds = pre ++ (digs ++ 32 :: (body ++ 0 :: post)))
    (hne : digs ≠ []) (hdigs : ∀ c ∈ digs, isdigit c = true) (hlen : digs.length ≤ 31)
    (hbody : ∀ c ∈ body, c ≠ 0) :
    cmd_id_at s pre.length = (atoi_digits 0 digs : Nat) ∧
    new_cmd_demote P s pre.length = .ok
      { s with
        gtp_cmds := pre ++ (fmt_0d digs.length (prevent_reply P (cmd_id_at s pre.length)) ++
          32 :: (body ++ 0 :: post)),
        gtp_cmd := some (pre.length + (digs.length + 1 + body.length)) } := by
  have hsp : isdigit 32 = false := by decide
  have hdrop : s.gtp_cmds.drop pre.length = digs ++ 32 :: (body ++ 0 :: post) := by
    rw [hbuf]
    simp
  have hid : cmd_id_at s pre.length = (atoi_digits 0 digs : Nat) := by
    unfold cmd_id_at
    rw [hdrop, atoi_of_digits digs 32 _ hne hdigs hsp]
  refine ⟨hid, ?_⟩
  obtain ⟨hdl, hdd, _⟩ := demoted_token P digs [] hne hdigs
  rw [← hid] at hdl hdd
  unfold new_cmd_demote
  have hspn : strspn_digits (s.gtp_cmds.drop pre.length) = digs.length := by
    rw [hdrop]
    exact strspn_of_digits digs 32 _ hdigs hsp
  have hatoi : prevent_reply P (atoi (s.gtp_cmds.drop pre.length)) =
      prevent_reply P (cmd_id_at s pre.length) := rfl
  simp only [hspn, hatoi]
  rw [if_neg (by omega)]
  have htake : (List.take 31 (fmt_0d digs.length (prevent_reply P (cmd_id_at s pre.length))) ++
      [0]).take digs.length = fmt_0d digs.length (prevent_reply P (cmd_id_at s pre.length)) := by
    have h31 : List.take 31 (fmt_0d digs.length (prevent_reply P (cmd_id_at s pre.length))) =
        fmt_0d digs.length (prevent_reply P (cmd_id_at s pre.length)) :=
      List.take_of_length_le (by rw [hdl]; exact hlen)
    rw [h31, List.take_append_of_le_length (by omega), List.take_of_length_le (by omega)]
  rw [htake]
  have hw : write_at s.gtp_cmds pre.length
      (fmt_0d digs.length (prevent_reply P (cmd_id_at s pre.length))) =
      pre ++ (fmt_0d digs.length (prevent_reply P (cmd_id_at s pre.length)) ++
        32 :: (body ++ 0 :: post)) := by
    rw [hbuf]
    have := write_at_eq pre digs (32 :: (body ++ 0 :: post)) _ hdl
    simpa [List.append_assoc] using this
  rw [hw]
  have hstr : strlen ((pre ++ (fmt_0d digs.length (prevent_reply P (cmd_id_at s pre.length)) ++
      32 :: (body ++ 0 :: post))).drop pre.length) = digs.length + 1 + body.length := by
    have h1 : (pre ++ (fmt_0d digs.length (prevent_reply P (cmd_id_at s pre.length)) ++
        32 :: (body ++ 0 :: post))).drop pre.length =
        (fmt_0d digs.length (prevent_reply P (cmd_id_at s pre.length)) ++ 32 :: body) ++
          0 :: post := by simp
    unfold strlen
    rw [h1, cstr_nul]
    · simp [hdl]
      omega
    · intro x hx
      rcases List.mem_append.mp hx with h | h
      · exact isdigit_ne_zero _ hdd x h
      · rcases List.mem_cons.mp h with h | h
        · omega
        · exact hbody x h
  rw [hstr]

/-- C10. `new_cmd` on a round in progress, for a command word that is not the
round-start command. The current command is a line at `gtp_cmd`: an id token
`digs` (decimal digits, at most 31, as an `int` printed by `%d` has), a space, and
the rest `body` of the line up to the NUL. `new_cmd` overwrites exactly the id
token with `prevent_reply(id)` in decimal, padded with zeros to the same number
of digits: the bytes before and after the token stay, the line keeps its length,
and `atoi` reads `prevent_reply(id)` from the new token. Then `gtp_cmd` is the
byte right after the line (where its NUL was), and `update_cmd` publishes the
new command there, with a new id. -/
theorem new_cmd_demotes (P : Params) (s : State) (pre digs body post : List Nat)
    (b_moves rnd : Nat) (cmd args : List Nat)
    (hcmd : s.gtp_cmd = some pre.length)
    (hbuf : s.gtp_cmds = pre ++ (digs ++ 32 :: (body ++ 0 :: post)))
    (hne : digs ≠ []) (hdigs : ∀ c ∈ digs, isdigit c = true) (hlen : digs.length ≤ 31)
    (hbody : ∀ c ∈ body, c ≠ 0)
    (hstart : P.is_gamestart (cstr cmd) = false) :
    let id := cmd_id_at s pre.length
    let demoted := fmt_0d digs.length (prevent_reply P id)
    let cursor := pre.length + (digs.length + 1 + body.length)
    let s1 : State :=
      { s with gtp_cmds := pre ++ (demoted ++ 32 :: (body ++ 0 :: post)), gtp_cmd := some cursor }
    demoted.length = digs.length ∧
    (∀ c ∈ demoted, isdigit c = true) ∧
    atoi (demoted ++ 32 :: (body ++ 0 :: post)) = prevent_reply P id ∧
    new_cmd_demote P s pre.length = .ok s1 ∧
    new_cmd P s b_moves rnd cmd args = update_cmd P s1 b_moves rnd cmd args true ∧
    ∃ s2, new_cmd P s b_moves rnd cmd args = .ok s2 ∧ s2.gtp_cmd = some cursor ∧
      s2.gtp_cmds.take cursor = pre ++ (demoted ++ 32 :: body) := by
  intro id demoted cursor s1
  obtain ⟨hid, hdem⟩ := new_cmd_demote_line P s pre digs body post hbuf hne hdigs hlen hbody
  obtain ⟨hdl, hdd, hparse⟩ := demoted_token P digs (body ++ 0 :: post) hne hdigs
  rw [← hid] at hdl hdd hparse
  have hnew : new_cmd P s b_moves rnd cmd args = update_cmd P s1 b_moves rnd cmd args true := by
    unfold new_cmd
    simp only [hcmd, hstart, hdem]
    simp
  refine ⟨hdl, hdd, hparse, hdem, hnew, ?_⟩
  rw [hnew]
  unfold update_cmd
  simp only [if_true]
  refine ⟨_, rfl, rfl, ?_⟩
  show (snprintf_at _ cursor _ _).take cursor = _
  have hcl : cursor ≤ (pre ++ (demoted ++ 32 :: (body ++ 0 :: post))).length := by
    simp [hdl]
    omega
  have hpre : (pre ++ (demoted ++ 32 :: (body ++ 0 :: post))).take cursor =
      pre ++ (demoted ++ 32 :: body) := by
    have h1 : pre ++ (demoted ++ 32 :: (body ++ 0 :: post)) =
        (pre ++ (demoted ++ 32 :: body)) ++ 0 :: post := by simp
    have h2 : cursor = (pre ++ (demoted ++ 32 :: body)).length := by
      simp [hdl]
      omega
    rw [h1, h2, List.take_left]
  unfold snprintf_at
  split
  · exact hpre
  · rw [write_at_take _ _ _ hcl]
    exact hpre

/-! ## The text of a round -/

/-- The conversion `%d` of a number that is not negative. -/
theorem fmt_d_nat (v : Nat) : fmt_d (v : Int) = fmt_nat v := by
  unfold fmt_d
  have h : ¬ ((v : Int) < 0) := by omega
  rw [if_neg h]
  simp

/-- A minted id is not negative; it is at least `DIST_GAMELEN`. -/
theorem Cmd.id_nat (P : Params) (c : Cmd) :
    ∃ v : Nat, c.id P = (v : Int) ∧ P.DIST_GAMELEN ≤ v := by
  unfold Cmd.id force_reply
  by_cases h : P.is_reset (cstr c.cmd) = true
  · refine ⟨0 + c.rnd * P.DIST_GAMELEN + P.DIST_GAMELEN, ?_, by omega⟩
    rw [if_pos h]
    push_cast
    ring
  · refine ⟨c.b_moves + c.rnd * P.DIST_GAMELEN + P.DIST_GAMELEN, ?_, by omega⟩
    rw [if_neg h]
    push_cast
    ring

/-- The text that `update_cmd` formats for a command with a new id is its line. -/
theorem cmd_text_eq (P : Params) (c : Cmd) : cmd_text (c.id P) c.cmd c.args = c.line P := by
  simp [cmd_text, Cmd.line, Cmd.tail]

/-- The word and the arguments of a line have no NUL. -/
theorem Cmd.tail_no_nul (c : Cmd) : ∀ x ∈ c.tail, x ≠ 0 := by
  intro x hx
  unfold Cmd.tail at hx
  rcases List.mem_append.mp hx with h | h
  · rcases List.mem_append.mp h with h | h
    · exact cstr_no_nul _ x h
    · simp at h
      omega
  · by_cases ha : cstr c.args = []
    · rw [if_pos ha] at h
      simp at h
      omega
    · rw [if_neg ha] at h
      exact cstr_no_nul _ x h

/-- The id of a line consists of digits. -/
theorem fmt_d_isdigit (P : Params) (c : Cmd) : ∀ x ∈ fmt_d (c.id P), isdigit x = true := by
  obtain ⟨v, hv, _⟩ := c.id_nat P
  rw [hv, fmt_d_nat]
  exact fmt_nat_isdigit v

/-- The id of a line is not empty. -/
theorem fmt_d_ne_nil (P : Params) (c : Cmd) : fmt_d (c.id P) ≠ [] := by
  obtain ⟨v, hv, _⟩ := c.id_nat P
  rw [hv, fmt_d_nat]
  exact List.length_pos.mp (fmt_nat_length_pos v)

/-- An id in the range of `int` has at most 31 digits. -/
theorem fmt_d_length_le (P : Params) (c : Cmd) (h : c.id P < 2 ^ 31) :
    (fmt_d (c.id P)).length ≤ 31 := by
  obtain ⟨v, hv, _⟩ := c.id_nat P
  rw [hv] at h
  rw [hv, fmt_d_nat]
  have h1 : v < 2 ^ 31 := by exact_mod_cast h
  exact fmt_nat_length_le v 31 (by decide) (Nat.lt_of_lt_of_le h1 (by norm_num))

/-- The line of a command has no NUL. -/
theorem Cmd.line_no_nul (P : Params) (c : Cmd) : ∀ x ∈ c.line P, x ≠ 0 := by
  intro x hx
  unfold Cmd.line at hx
  rcases List.mem_append.mp hx with h | h
  · exact isdigit_ne_zero _ (fmt_d_isdigit P c) x h
  · rcases List.mem_cons.mp h with h | h
    · omega
    · exact c.tail_no_nul x h

/-- The text that `snprintf` leaves when it has room. -/
theorem snprintf_at_fits (buf : List Nat) (p n : Nat) (out : List Nat)
    (hfit : p + out.length < n) :
    snprintf_at buf p (n - p) out = buf.take p ++ (out ++ 0 :: buf.drop (p + (out.length + 1))) := by
  unfold snprintf_at
  rw [if_neg (by omega), List.take_of_length_le (by omega)]
  unfold write_at
  simp [List.append_assoc]

/-- The call `update_cmd(..., true)` when the text fits: the line of the command and a
NUL are stored at `gtp_cmd`, which stays where it is. -/
theorem update_cmd_new_id (P : Params) (s : State) (p : Nat) (c : Cmd)
    (hcmd : s.gtp_cmd = some p) (hfit : p + (c.line P).length < P.CMDS_SIZE) :
    ∃ s1, update_cmd P s c.b_moves c.rnd c.cmd c.args true = .ok s1 ∧
      s1.gtp_cmd = some p ∧
      s1.gtp_cmds = s.gtp_cmds.take p ++
        (c.line P ++ 0 :: s.gtp_cmds.drop (p + ((c.line P).length + 1))) ∧
      s1.cmd_count = s.cmd_count + 1 := by
  unfold update_cmd
  simp only [hcmd, if_true]
  refine ⟨_, rfl, rfl, ?_, rfl⟩
  show snprintf_at _ _ _ (cmd_text (c.id P) c.cmd c.args) = _
  rw [cmd_text_eq, snprintf_at_fits _ _ _ _ hfit]

/-- The reply-suppressed line of a command is as long as its line and has no NUL. -/
theorem Cmd.quiet_line_spec (P : Params) (c : Cmd) :
    (c.quiet_line P).length = (c.line P).length ∧ ∀ x ∈ c.quiet_line P, x ≠ 0 := by
  obtain ⟨v, hv, _⟩ := c.id_nat P
  have hlen : (fmt_0d (fmt_d (c.id P)).length (prevent_reply P (c.id P))).length =
      (fmt_d (c.id P)).length := by
    rw [hv, prevent_reply_nat, fmt_d_nat]
    exact fmt_0d_length _ _ (fmt_nat_length_mono _ _ (Nat.mod_le _ _))
  constructor
  · unfold Cmd.quiet_line Cmd.line
    simp [hlen]
  · intro x hx
    unfold Cmd.quiet_line at hx
    rcases List.mem_append.mp hx with h | h
    · rw [hv, prevent_reply_nat] at h
      exact isdigit_ne_zero _ (fmt_0d_isdigit _ _) x h
    · rcases List.mem_cons.mp h with h | h
      · omega
      · exact c.tail_no_nul x h

/-- The text of a round is at least as long as the line of its first command. -/
theorem round_text_length (P : Params) (c : Cmd) (cs : List Cmd) :
    (c.line P).length ≤ (round_text P (c :: cs)).length := by
  cases cs with
  | nil => simp [round_text]
  | cons d ds =>
    simp only [round_text, List.length_append]
    rw [(c.quiet_line_spec P).1]
    omega

/-- The text of a round has no NUL. -/
theorem round_text_no_nul (P : Params) (cs : List Cmd) : ∀ x ∈ round_text P cs, x ≠ 0 := by
  induction cs with
  | nil => simp [round_text]
  | cons c cs ih =>
    cases cs with
    | nil => simpa [round_text] using c.line_no_nul P
    | cons d ds =>
      intro x hx
      simp only [round_text] at hx ih
      rcases List.mem_append.mp hx with h | h
      · exact (c.quiet_line_spec P).2 x h
      · exact ih x h

/-- One more `new_cmd` in a round. -/
theorem new_cmd_appends (P : Params) (s : State) (hist post : List Nat) (c d : Cmd)
    (hbuf : s.gtp_cmds = hist ++ (c.line P ++ 0 :: post))
    (hcmd : s.gtp_cmd = some hist.length)
    (hsize : s.gtp_cmds.length = P.CMDS_SIZE)
    (hstart : P.is_gamestart (cstr d.cmd) = false)
    (hint : c.id P < 2 ^ 31)
    (hfit : hist.length + (c.quiet_line P).length + (d.line P).length < P.CMDS_SIZE) :
    ∃ s1 post1, new_cmd P s d.b_moves d.rnd d.cmd d.args = .ok s1 ∧
      s1.gtp_cmds = (hist ++ c.quiet_line P) ++ (d.line P ++ 0 :: post1) ∧
      s1.gtp_cmd = some (hist ++ c.quiet_line P).length ∧
      s1.gtp_cmds.length = P.CMDS_SIZE ∧
      s1.cmd_count = s.cmd_count + 1 := by
  have hbuf1 : s.gtp_cmds = hist ++ (fmt_d (c.id P) ++ 32 :: (c.tail ++ 0 :: post)) := by
    rw [hbuf]
    simp [Cmd.line]
  obtain ⟨_, hdem⟩ := new_cmd_demote_line P s hist (fmt_d (c.id P)) c.tail post hbuf1
    (fmt_d_ne_nil P c) (fmt_d_isdigit P c) (fmt_d_length_le P c hint) c.tail_no_nul
  have hnew : new_cmd P s d.b_moves d.rnd d.cmd d.args = update_cmd P
      { s with
        gtp_cmds := hist ++ (fmt_0d (fmt_d (c.id P)).length
          (prevent_reply P (cmd_id_at s hist.length)) ++ 32 :: (c.tail ++ 0 :: post)),
        gtp_cmd := some (hist.length + ((fmt_d (c.id P)).length + 1 + c.tail.length)) }
      d.b_moves d.rnd d.cmd d.args true := by
    unfold new_cmd
    simp only [hcmd, hstart, hdem]
    simp
  have hidc : cmd_id_at s hist.length = c.id P := by
    unfold cmd_id_at
    obtain ⟨v, hv, _⟩ := c.id_nat P
    rw [hbuf1, List.drop_left, atoi_of_digits _ 32 _ (fmt_d_ne_nil P c) (fmt_d_isdigit P c)
      (by decide), hv, fmt_d_nat, atoi_digits_fmt_nat]
  rw [hidc] at hnew
  have hq := (c.quiet_line_spec P).1
  have hcur : hist.length + ((fmt_d (c.id P)).length + 1 + c.tail.length) =
      (hist ++ c.quiet_line P).length := by
    rw [List.length_append, hq]
    simp [Cmd.line]
    omega
  rw [hcur] at hnew
  have hfit1 : (hist ++ c.quiet_line P).length + (d.line P).length < P.CMDS_SIZE := by
    rw [List.length_append]
    exact hfit
  obtain ⟨s1, hu, h1, h2, h3⟩ := update_cmd_new_id P
    { s with
      gtp_cmds := hist ++ (fmt_0d (fmt_d (c.id P)).length (prevent_reply P (c.id P)) ++
        32 :: (c.tail ++ 0 :: post)),
      gtp_cmd := some (hist ++ c.quiet_line P).length }
    (hist ++ c.quiet_line P).length d rfl hfit1
  have e : hist ++ (fmt_0d (fmt_d (c.id P)).length (prevent_reply P (c.id P)) ++
      32 :: (c.tail ++ 0 :: post)) = (hist ++ c.quiet_line P) ++ 0 :: post := by
    simp [Cmd.quiet_line]
  dsimp only at h2 h3
  rw [e, List.take_left] at h2
  refine ⟨s1, _, hnew.trans hu, h2, h1, ?_, h3⟩
  have hl : ((hist ++ c.quiet_line P) ++ 0 :: post).length = P.CMDS_SIZE := by
    rw [← hsize, hbuf]
    simp [hq]
  rw [h2]
  simp only [List.length_append, List.length_cons, List.length_drop] at hl hfit1 ⊢
  omega

/-- The calls of `new_cmd` after the first of a round. -/
theorem new_cmds_text (P : Params) (cs : List Cmd) :
    ∀ (s : State) (hist post : List Nat) (c : Cmd),
      s.gtp_cmds = hist ++ (c.line P ++ 0 :: post) →
      s.gtp_cmd = some hist.length →
      s.gtp_cmds.length = P.CMDS_SIZE →
      (∀ d ∈ cs, P.is_gamestart (cstr d.cmd) = false) →
      (∀ d ∈ c :: cs, d.id P < 2 ^ 31) →
      hist.length + (round_text P (c :: cs)).length < P.CMDS_SIZE →
      ∃ s1 post1, new_cmds P s cs = .ok s1 ∧
        s1.gtp_cmds = hist ++ (round_text P (c :: cs) ++ 0 :: post1) ∧
        s1.gtp_cmd = some (hist.length + (round_text P (c :: cs)).length -
          ((last_cmd c cs).line P).length) ∧
        s1.cmd_count = s.cmd_count + cs.length := by
  induction cs with
  | nil =>
    intro s hist post c hbuf hcmd _ _ _ _
    refine ⟨s, post, rfl, ?_, ?_, by simp⟩
    · simpa [round_text] using hbuf
    · simp [round_text, last_cmd, hcmd]
  | cons d ds ih =>
    intro s hist post c hbuf hcmd hsize hround hint hfit
    have hd : P.is_gamestart (cstr d.cmd) = false := hround d (List.mem_cons_self _ _)
    have hlen := round_text_length P d ds
    simp only [round_text, List.length_append] at hfit
    obtain ⟨s1, post1, hnew, h1, h2, h3, h4⟩ := new_cmd_appends P s hist post c d hbuf hcmd hsize
      hd (hint c (List.mem_cons_self _ _)) (by omega)
    obtain ⟨s2, post2, hrun, k1, k2, k3⟩ := ih s1 (hist ++ c.quiet_line P) post1 d h1 h2 h3
      (fun e he => hround e (List.mem_cons_of_mem _ he))
      (fun e he => hint e (List.mem_cons_of_mem _ he))
      (by rw [List.length_append]; omega)
    refine ⟨s2, post2, ?_, ?_, ?_, ?_⟩
    · simp only [new_cmds, hnew]
      exact hrun
    · rw [k1]
      simp [round_text]
    · rw [k2]
      simp only [round_text, List.length_append, last_cmd, List.getLast_cons (List.cons_ne_nil d ds)]
      congr 1
      omega
    · rw [k3, h4]
      simp only [List.length_cons]
      push_cast
      ring

/-- The first `new_cmd` of a round. -/
theorem new_cmd_round_start (P : Params) (s0 : State) (c : Cmd)
    (hstart : s0.gtp_cmd = none ∨ P.is_gamestart (cstr c.cmd) = true)
    (hsize : s0.gtp_cmds.length = P.CMDS_SIZE)
    (hfit : (c.line P).length < P.CMDS_SIZE) :
    ∃ s1 post1, new_cmd P s0 c.b_moves c.rnd c.cmd c.args = .ok s1 ∧
      s1.gtp_cmds = [] ++ (c.line P ++ 0 :: post1) ∧
      s1.gtp_cmd = some 0 ∧
      s1.gtp_cmds.length = P.CMDS_SIZE ∧
      s1.cmd_count = s0.cmd_count + 1 := by
  have hnew : new_cmd P s0 c.b_moves c.rnd c.cmd c.args =
      update_cmd P (new_cmd_clear s0) c.b_moves c.rnd c.cmd c.args true := by
    unfold new_cmd
    cases hc : s0.gtp_cmd with
    | none => rfl
    | some p =>
      rcases hstart with h | h
      · rw [hc] at h
        exact absurd h (by simp)
      · simp only [h, if_true]
  obtain ⟨s1, hu, h1, h2, h3⟩ := update_cmd_new_id P (new_cmd_clear s0) 0 c rfl (by omega)
  dsimp only [new_cmd_clear] at h2 h3
  rw [List.take_zero] at h2
  refine ⟨s1, _, hnew.trans hu, h2, h1, ?_, h3⟩
  rw [h2]
  simp only [List.nil_append, List.length_append, List.length_cons, List.length_drop]
  omega

/-- The text of a round ends with the line of its last command. -/
theorem round_text_last (P : Params) (cs : List Cmd) (c : Cmd) :
    ∃ pre, round_text P (c :: cs) = pre ++ (last_cmd c cs).line P := by
  induction cs generalizing c with
  | nil => exact ⟨[], by simp [round_text, last_cmd]⟩
  | cons d ds ih =>
    obtain ⟨pre, hpre⟩ := ih d
    refine ⟨c.quiet_line P ++ pre, ?_⟩
    simp only [round_text, last_cmd, List.getLast_cons (List.cons_ne_nil d ds)] at hpre ⊢
    rw [hpre, List.append_assoc]

/-- The local `resend` of `slave_thread` is set exactly when `slave_loop` has
returned in an earlier pass of its loop. -/
theorem slave_thread_resend_eq (conns : List Conn) :
    slave_thread_resend conns = decide (Conn.lost_slave ∈ conns) := by
  have h : ∀ (b : Bool), conns.foldl slave_thread_pass b =
      (b || decide (Conn.lost_slave ∈ conns)) := by
    induction conns with
    | nil =>
      intro b
      simp
    | cons c cs ih =>
      intro b
      rw [List.foldl_cons, ih]
      cases c <;> cases b <;> simp [slave_thread_pass]
  unfold slave_thread_resend
  rw [h false]
  simp

/-- The local `resend` of `slave_thread` by the number of returns of
`slave_loop`. -/
theorem slave_thread_resend_count (conns : List Conn) :
    slave_thread_resend conns = thread_resend (conns.count Conn.lost_slave) := by
  rw [slave_thread_resend_eq]
  unfold thread_resend
  simp [List.count_pos_iff]

/-- C9, as the code has it. After the calls of `new_cmd` of a round (the first
is a round start, the others are not; the ids are C `int`s and the text fits into
`gtp_cmds`): a slave thread whose `slave_loop` has returned in an earlier pass of
the loop of `slave_thread` (`resend` is `true`), whatever handshakes have failed
before or after, sends from the base of `gtp_cmds` first, and what it sends is the
text of the round, the lines of all commands, each but the last with
`prevent_reply(id)` in place of its id and the last with its reply-required id. A
slave thread that calls `slave_loop` for the first time, on its first connection
or after connections whose handshake has failed (`resend` is `false`), sends the
current command alone, or waits when `cmd_count` is `0`. -/
theorem late_joiner (P : Params) (s0 : State) (c : Cmd) (cs : List Cmd)
    (hstart : s0.gtp_cmd = none ∨ P.is_gamestart (cstr c.cmd) = true)
    (hround : ∀ d ∈ cs, P.is_gamestart (cstr d.cmd) = false)
    (hsize : s0.gtp_cmds.length = P.CMDS_SIZE)
    (hint : ∀ d ∈ c :: cs, d.id P < 2 ^ 31)
    (hfit : (round_text P (c :: cs)).length < P.CMDS_SIZE) :
    ∃ s, new_cmds P s0 (c :: cs) = .ok s ∧
      (∀ conns, Conn.lost_slave ∈ conns →
        choose_to_send P s (slave_loop_entry (slave_thread_resend conns)).resend
          (slave_loop_entry (slave_thread_resend conns)).last_reply_id
          (slave_loop_entry (slave_thread_resend conns)).last_cmd_sent = .ok (.send 0)) ∧
      sent_text P s 0 = round_text P (c :: cs) ∧
      (∀ conns, Conn.lost_slave ∉ conns →
        choose_to_send P s (slave_loop_entry (slave_thread_resend conns)).resend
          (slave_loop_entry (slave_thread_resend conns)).last_reply_id
          (slave_loop_entry (slave_thread_resend conns)).last_cmd_sent =
        if s.cmd_count = 0 then .ok .wait
        else .ok (.send ((round_text P (c :: cs)).length - ((last_cmd c cs).line P).length))) ∧
      sent_text P s ((round_text P (c :: cs)).length - ((last_cmd c cs).line P).length) =
        (last_cmd c cs).line P := by
  have hlen := round_text_length P c cs
  obtain ⟨s1, post1, hnew, h1, h2, h3, h4⟩ := new_cmd_round_start P s0 c hstart hsize (by omega)
  obtain ⟨s, post, hrun, k1, k2, k3⟩ := new_cmds_text P cs s1 [] post1 c h1 h2 h3 hround hint
    (by simpa using hfit)
  simp only [List.nil_append, List.length_nil, Nat.zero_add] at k1 k2
  have hnn := round_text_no_nul P (c :: cs)
  refine ⟨s, ?_, ?_, ?_, ?_, ?_⟩
  · simp only [new_cmds, hnew]
    exact hrun
  · intro conns hn
    have hr : slave_thread_resend conns = true := by
      rw [slave_thread_resend_eq]
      simpa using hn
    simp [slave_loop_entry, hr, choose_to_send, next_command, k2]
  · unfold sent_text strncpy
    rw [List.drop_zero, k1, cstr_nul _ _ hnn]
    exact List.take_of_length_le (Nat.le_of_lt hfit)
  · intro conns hn
    have hr : slave_thread_resend conns = false := by
      rw [slave_thread_resend_eq]
      simpa using hn
    simp only [slave_loop_entry, hr, choose_to_send, k2]
    by_cases h0 : s.cmd_count = 0
    · simp [h0]
    · have h0' : ¬ (0 : Int) = s.cmd_count := fun h => h0 h.symm
      simp [h0, h0']
  · obtain ⟨pre, hpre⟩ := round_text_last P cs c
    have hl : (round_text P (c :: cs)).length - ((last_cmd c cs).line P).length = pre.length := by
      rw [hpre, List.length_append]
      omega
    have hle : ((last_cmd c cs).line P).length ≤ P.CMDS_SIZE := by
      have : (round_text P (c :: cs)).length = pre.length + ((last_cmd c cs).line P).length := by
        rw [hpre, List.length_append]
      omega
    unfold sent_text strncpy
    rw [hl, k1, hpre, List.append_assoc, List.drop_left, cstr_nul _ _ ((last_cmd c cs).line_no_nul P)]
    exact List.take_of_length_le hle

/-- A use of `late_joiner`: the round boardsize 19, clear_board, play b a1 from the
start of the program. -/
theorem late_joiner_witness :
    ∃ s, new_cmds P0 (State.init P0) (demo_first :: demo_rest) = .ok s ∧
      (∀ conns, Conn.lost_slave ∈ conns →
        choose_to_send P0 s (slave_loop_entry (slave_thread_resend conns)).resend
          (slave_loop_entry (slave_thread_resend conns)).last_reply_id
          (slave_loop_entry (slave_thread_resend conns)).last_cmd_sent = .ok (.send 0)) ∧
      sent_text P0 s 0 = round_text P0 (demo_first :: demo_rest) ∧
      (∀ conns, Conn.lost_slave ∉ conns →
        choose_to_send P0 s (slave_loop_entry (slave_thread_resend conns)).resend
          (slave_loop_entry (slave_thread_resend conns)).last_reply_id
          (slave_loop_entry (slave_thread_resend conns)).last_cmd_sent =
        if s.cmd_count = 0 then .ok .wait
        else .ok (.send ((round_text P0 (demo_first :: demo_rest)).length -
          ((last_cmd demo_first demo_rest).line P0).length))) ∧
      sent_text P0 s ((round_text P0 (demo_first :: demo_rest)).length -
          ((last_cmd demo_first demo_rest).line P0).length) =
        (last_cmd demo_first demo_rest).line P0 :=
  late_joiner P0 (State.init P0) demo_first demo_rest (Or.inl rfl) (by decide) (by decide)
    (by decide) (by decide)

/-- C9 as stated does not hold: a slave thread that completes the handshake of
its first connection when the third command of the round is current sends, as its
first transmission, the text at `gtp_cmd` (offset 36), the line 8001 play b a1
alone, and not the three lines from the base of `gtp_cmds`; so does a thread
whose earlier connections have all failed at the handshake. -/
theorem late_joiner_counterexample :
    (new_cmds P0 (State.init P0) (demo_first :: demo_rest)).toOption.map
      (fun s =>
        ((choose_to_send P0 s (slave_loop_entry (slave_thread_resend [])).resend
            (slave_loop_entry (slave_thread_resend [])).last_reply_id
            (slave_loop_entry (slave_thread_resend [])).last_cmd_sent).toOption,
          sent_text P0 s 36,
          decide (sent_text P0 s 36 = round_text P0 (demo_first :: demo_rest)))) =
      some (some (.send 36), line_play, false) ∧
    (new_cmds P0 (State.init P0) (demo_first :: demo_rest)).toOption.map
      (fun s =>
        (choose_to_send P0 s
          (slave_loop_entry (slave_thread_resend [.bad_slave, .bad_slave])).resend
          (slave_loop_entry (slave_thread_resend [.bad_slave, .bad_slave])).last_reply_id
          (slave_loop_entry (slave_thread_resend [.bad_slave, .bad_slave])).last_cmd_sent
        ).toOption) =
      some (some (.send 36)) := by
  decide

/-- A use of `new_cmd_demotes` at `demo_state`, whose current command is the line
1000 boardsize 19: the call of `new_cmd` for play b a1 turns the id into 0000. -/
theorem new_cmd_demotes_witness :
    (fmt_0d 4 (prevent_reply P0 (cmd_id_at demo_state 0))).length = 4 ∧
    fmt_0d 4 (prevent_reply P0 (cmd_id_at demo_state 0)) = [48, 48, 48, 48] ∧
    atoi (fmt_0d 4 (prevent_reply P0 (cmd_id_at demo_state 0)) ++
      32 :: (body_boardsize ++ 0 :: List.replicate 45 0)) =
      prevent_reply P0 (cmd_id_at demo_state 0) ∧
    ∃ s2, new_cmd P0 demo_state 1 7 w_play a_b_a1 = .ok s2 ∧ s2.gtp_cmd = some 18 ∧
      s2.gtp_cmds.take 18 =
        [] ++ (fmt_0d 4 (prevent_reply P0 (cmd_id_at demo_state 0)) ++ 32 :: body_boardsize) :=
  have h := new_cmd_demotes P0 demo_state [] [49, 48, 48, 48] body_boardsize
    (List.replicate 45 0) 1 7 w_play a_b_a1 rfl (by decide) (by decide) (by decide)
    (by decide) (by decide) (by decide)
  ⟨h.1, by decide, h.2.2.1, h.2.2.2.2.2⟩

/-! ## The history table in a round -/

/-- The entry that was assigned. -/
theorem set_entry_same (h : Int → Nat → cmd_history) (m : Int) (k : Nat) (e : cmd_history) :
    set_entry h m k e m k = e := by
  simp [set_entry]

/-- The other entries after an assignment. -/
theorem set_entry_other (h : Int → Nat → cmd_history) (m m1 : Int) (k k1 : Nat)
    (e : cmd_history) (hne : ¬ (m1 = m ∧ k1 = k)) : set_entry h m k e m1 k1 = h m1 k1 := by
  simp only [set_entry]
  rw [if_neg hne]

/-- The entry whose `next_cmd` was assigned. -/
theorem set_next_same (h : Int → Nat → cmd_history) (m : Int) (k : Nat) (x : Option Nat) :
    set_next h m k x m k = ⟨(h m k).gtp_id, x⟩ := by
  simp [set_next]

/-- The other entries after an assignment of `next_cmd`. -/
theorem set_next_other (h : Int → Nat → cmd_history) (m m1 : Int) (k k1 : Nat)
    (x : Option Nat) (hne : ¬ (m1 = m ∧ k1 = k)) : set_next h m k x m1 k1 = h m1 k1 := by
  simp only [set_next]
  rw [if_neg hne]

/-- An assignment of `next_cmd` changes no `gtp_id`. -/
theorem set_next_gtp_id (h : Int → Nat → cmd_history) (m m1 : Int) (k k1 : Nat)
    (x : Option Nat) : (set_next h m k x m1 k1).gtp_id = (h m1 k1).gtp_id := by
  simp only [set_next]
  by_cases hc : m1 = m ∧ k1 = k
  · rw [if_pos hc, hc.1, hc.2]
  · rw [if_neg hc]

/-- What `update_cmd` leaves when it mints an id. -/
theorem update_cmd_mint (P : Params) (s s1 : State) (b_moves rnd : Nat) (cmd args : List Nat)
    (p : Nat) (hcmd : s.gtp_cmd = some p)
    (h : update_cmd P s b_moves rnd cmd args true = .ok s1) :
    ∃ (mv : Nat) (sl : Nat),
      minted_of s1 = ⟨force_reply P ((mv : Int) + rnd * P.DIST_GAMELEN), p, mv, sl⟩ ∧
      s1.last = some ((mv : Int), sl) ∧
      s1.gtp_cmd = some p ∧
      s1.history = set_entry
        (match s.last with
          | some (m, k) => set_next s.history m k (some p)
          | none => s.history) mv sl ⟨force_reply P ((mv : Int) + rnd * P.DIST_GAMELEN), none⟩ := by
  unfold update_cmd at h
  simp only [hcmd, if_true] at h
  injection h with h
  subst h
  by_cases hr : P.is_reset (cstr cmd) = true
  · refine ⟨0, (s.slot + 1) % MAX_CMDS_PER_MOVE, ?_, ?_, rfl, ?_⟩
    · simp [minted_of, hr, hcmd]
    · simp [hr]
    · simp only [hr, if_true]
      rfl
  · refine ⟨b_moves, (s.slot + 1) % MAX_CMDS_PER_MOVE, ?_, ?_, rfl, ?_⟩
    · simp [minted_of, hr, hcmd]
    · simp [hr]
    · simp only [hr]
      rfl

/-- The step of the invariant: a publish with `new_id` true. -/
theorem update_cmd_mint_inv (P : Params) (s s1 : State) (log : List Minted)
    (b_moves rnd : Nat) (cmd args : List Nat) (p : Nat)
    (hinv : LogInv s log) (hcmd : s.gtp_cmd = some p)
    (h : update_cmd P s b_moves rnd cmd args true = .ok s1) :
    LogInv s1 (log ++ [minted_of s1]) := by
  obtain ⟨mv, sl, hn, hlast, _, hhist⟩ := update_cmd_mint P s s1 b_moves rnd cmd args p hcmd h
  obtain ⟨i1, i2, i3, i4⟩ := hinv
  have hlen : (log ++ [minted_of s1]).length - 1 = log.length := by simp
  have hnm : (minted_of s1).move = (mv : Int) := by rw [hn]
  have hns : (minted_of s1).slot = sl := by rw [hn]
  have hnp : (minted_of s1).pos = p := by rw [hn]
  have hni : (minted_of s1).id = force_reply P ((mv : Int) + rnd * P.DIST_GAMELEN) := by rw [hn]
  refine ⟨?_, ?_, ?_, ?_⟩
  · intro e he
    rw [hlen, List.getElem?_concat_length] at he
    injection he with he
    rw [← he, hnm, hns]
    exact ⟨hlast, rfl⟩
  · intro k e hk hfree
    rcases Nat.lt_trichotomy k log.length with hlt | heq | hgt
    · rw [List.getElem?_append_left hlt] at hk
      have hfree0 : ∀ j f, k < j → log[j]? = some f → ¬ (f.move = e.move ∧ f.slot = e.slot) := by
        intro j f hj hf
        have hjl : j < log.length := (List.getElem?_eq_some.mp hf).1
        exact hfree j f hj (by rw [List.getElem?_append_left hjl]; exact hf)
      have hnew : ¬ (e.move = (mv : Int) ∧ e.slot = sl) := by
        intro hc
        have := hfree log.length (minted_of s1) hlt (List.getElem?_concat_length _ _)
        exact this ⟨by rw [hnm, hc.1], by rw [hns, hc.2]⟩
      have hold := i2 k e hk hfree0
      rw [hhist, set_entry_other _ _ _ _ _ _ hnew]
      obtain ⟨el, hel⟩ : ∃ el, log[log.length - 1]? = some el := by
        have : log.length - 1 < log.length := by omega
        exact ⟨log[log.length - 1], List.getElem?_eq_getElem this⟩
      rw [(i1 el hel).1]
      by_cases hkl : k = log.length - 1
      · have hee : e = el := by
          rw [hkl, hel] at hk
          injection hk with hk
          exact hk.symm
        subst hee
        simp only
        rw [set_next_same, hold]
        have hk1 : k + 1 = log.length := by omega
        rw [hk1, List.getElem?_concat_length]
        simp [hnp]
      · have hk1 : k + 1 < log.length := by omega
        have hne : ¬ (e.move = el.move ∧ e.slot = el.slot) := by
          intro hc
          exact hfree0 (log.length - 1) el (by omega) hel ⟨hc.1.symm, hc.2.symm⟩
        simp only
        rw [set_next_other _ _ _ _ _ _ hne, hold, List.getElem?_append_left hk1]
    · subst heq
      rw [List.getElem?_concat_length] at hk
      injection hk with hk
      subst hk
      rw [hnm, hns, hhist, set_entry_same, List.getElem?_eq_none (by simp), hni]
      rfl
    · rw [List.getElem?_eq_none (by simp; omega)] at hk
      exact absurd hk (by simp)
  · intro m k hno
    have hnew : ¬ (m = (mv : Int) ∧ k = sl) := by
      intro hc
      exact hno (minted_of s1) (by simp) ⟨by rw [hnm, hc.1], by rw [hns, hc.2]⟩
    have hold := i3 m k (fun e he => hno e (List.mem_append_left _ he))
    rw [hhist, set_entry_other _ _ _ _ _ _ hnew]
    cases hl : s.last with
    | none => exact hold
    | some q =>
      obtain ⟨lm, ls⟩ := q
      simp only
      rw [set_next_gtp_id]
      exact hold
  · intro e he
    rcases List.mem_append.mp he with h1 | h1
    · exact i4 e h1
    · simp only [List.mem_singleton] at h1
      rw [h1, hni]
      unfold force_reply
      have := P.gamelen_pos
      have h2 : (0 : Int) ≤ (mv : Int) + (rnd : Int) * (P.DIST_GAMELEN : Int) := by positivity
      have h3 : (0 : Int) < (P.DIST_GAMELEN : Int) := by exact_mod_cast this
      omega

/-- The invariant looks at `history`, `last` and `gtp_id` only. -/
theorem LogInv_of_eq (s s1 : State) (log : List Minted) (hinv : LogInv s log)
    (hh : s1.history = s.history) (hl : s1.last = s.last) (hg : s1.gtp_id = s.gtp_id) :
    LogInv s1 log := by
  unfold LogInv at hinv ⊢
  rw [hh, hl, hg]
  exact hinv

/-- The second branch of `new_cmd` touches neither `history` nor `last` nor
`gtp_id`, and leaves a current command. -/
theorem new_cmd_demote_frame (P : Params) (s s1 : State) (p : Nat)
    (h : new_cmd_demote P s p = .ok s1) :
    s1.history = s.history ∧ s1.last = s.last ∧ s1.gtp_cmd.isSome = true ∧
      s1.gtp_id = s.gtp_id := by
  unfold new_cmd_demote at h
  by_cases hl : 32 < strspn_digits (s.gtp_cmds.drop p)
  · simp [hl] at h
  · simp only [hl, if_false] at h
    injection h with h
    subst h
    exact ⟨rfl, rfl, rfl, rfl⟩

/-- A refresh touches neither `history` nor `last` nor `gtp_cmd` nor `gtp_id`. -/
theorem update_cmd_refresh_history (P : Params) (s s1 : State) (b_moves rnd : Nat)
    (cmd args : List Nat) (h : update_cmd P s b_moves rnd cmd args false = .ok s1) :
    s1.history = s.history ∧ s1.last = s.last ∧ s1.gtp_cmd = s.gtp_cmd ∧
      s1.gtp_id = s.gtp_id := by
  unfold update_cmd at h
  cases hc : s.gtp_cmd with
  | none => simp [hc] at h
  | some p =>
    simp only [hc] at h
    injection h with h
    subst h
    exact ⟨rfl, rfl, rfl, rfl⟩

/-- The first call of a round establishes the invariant. -/
theorem round_start_inv (P : Params) (s0 s1 : State) (c : Cmd)
    (hstart : s0.gtp_cmd = none ∨ P.is_gamestart (cstr c.cmd) = true)
    (h : new_cmd P s0 c.b_moves c.rnd c.cmd c.args = .ok s1) :
    LogInv s1 [minted_of s1] := by
  have hnew : new_cmd P s0 c.b_moves c.rnd c.cmd c.args =
      update_cmd P (new_cmd_clear s0) c.b_moves c.rnd c.cmd c.args true := by
    unfold new_cmd
    cases hc : s0.gtp_cmd with
    | none => rfl
    | some p =>
      rcases hstart with h1 | h1
      · rw [hc] at h1
        exact absurd h1 (by simp)
      · simp only [h1, if_true]
  rw [hnew] at h
  have h0 : LogInv (new_cmd_clear s0) [] := by
    refine ⟨?_, ?_, ?_, ?_⟩
    · intro e he
      simp at he
    · intro k e he
      simp at he
    · intro m sl _
      rfl
    · intro e he
      simp at he
  exact update_cmd_mint_inv P (new_cmd_clear s0) s1 [] c.b_moves c.rnd c.cmd c.args 0 h0 rfl h

/-- Every call within a round keeps the invariant. -/
theorem pub_step_inv (P : Params) (s s1 : State) (log : List Minted) (pub : Pub)
    (hinv : LogInv s log) (hsome : s.gtp_cmd.isSome = true)
    (hin : pub.in_round P = true) (h : pub.run P s = .ok s1) :
    LogInv s1 (if pub.mints then log ++ [minted_of s1] else log) ∧
      s1.gtp_cmd.isSome = true := by
  obtain ⟨p, hc⟩ := Option.isSome_iff_exists.mp hsome
  cases pub with
  | update c new_id =>
    simp only [Pub.run] at h
    cases new_id with
    | false =>
      obtain ⟨h1, h2, h3, h4⟩ := update_cmd_refresh_history P s s1 _ _ _ _ h
      exact ⟨LogInv_of_eq s s1 log hinv h1 h2 h4, by rw [h3]; exact hsome⟩
    | true =>
      obtain ⟨_, _, _, _, h3, _⟩ := update_cmd_mint P s s1 _ _ _ _ p hc h
      exact ⟨update_cmd_mint_inv P s s1 log _ _ _ _ p hinv hc h, by rw [h3]; rfl⟩
  | newc c =>
    simp only [Pub.in_round, Bool.not_eq_true'] at hin
    simp only [Pub.run, new_cmd, hc, hin] at h
    simp only [Pub.mints, if_true]
    cases hd : new_cmd_demote P s p with
    | error e => simp [hd] at h
    | ok s2 =>
      simp only [hd] at h
      obtain ⟨h1, h2, h3, h5⟩ := new_cmd_demote_frame P s s2 p hd
      obtain ⟨q, hq⟩ := Option.isSome_iff_exists.mp h3
      obtain ⟨_, _, _, _, h4, _⟩ := update_cmd_mint P s2 s1 _ _ _ _ q hq h
      exact ⟨update_cmd_mint_inv P s2 s1 log _ _ _ _ q (LogInv_of_eq s s2 log hinv h1 h2 h5) hq h,
        by rw [h4]; rfl⟩

/-- The invariant holds after the calls of a round. -/
theorem round_log_inv (P : Params) (pubs : List Pub) :
    ∀ (s s1 : State) (log log1 : List Minted), LogInv s log → s.gtp_cmd.isSome = true →
      (∀ pub ∈ pubs, pub.in_round P = true) →
      round_log P s log pubs = .ok (s1, log1) → LogInv s1 log1 := by
  induction pubs with
  | nil =>
    intro s s1 log log1 hinv _ _ h
    simp only [round_log] at h
    injection h with h
    injection h with h1 h2
    subst h1
    subst h2
    exact hinv
  | cons pub pubs ih =>
    intro s s1 log log1 hinv hsome hin h
    simp only [round_log] at h
    cases hr : pub.run P s with
    | error e => simp [hr] at h
    | ok s2 =>
      simp only [hr] at h
      obtain ⟨k1, k2⟩ := pub_step_inv P s s2 log pub hinv hsome
        (hin pub (List.mem_cons_self _ _)) hr
      exact ih s2 s1 _ log1 k1 k2 (fun q hq => hin q (List.mem_cons_of_mem _ hq)) h

/-- Among the records that satisfy a condition there is a latest one. -/
theorem exists_latest (log : List Minted) (q : Minted → Prop)
    (h : ∃ e ∈ log, q e) :
    ∃ (j : Nat) (f : Minted), log[j]? = some f ∧ q f ∧
      ∀ (i : Nat) (g : Minted), j < i → log[i]? = some g → ¬ q g := by
  induction log using List.reverseRecOn with
  | nil =>
    obtain ⟨e, he, _⟩ := h
    exact absurd he (List.not_mem_nil e)
  | append_singleton l a ih =>
    by_cases ha : q a
    · refine ⟨l.length, a, List.getElem?_concat_length l a, ha, ?_⟩
      intro i g hi hg
      rw [List.getElem?_eq_none (by simp; omega)] at hg
      exact absurd hg (by simp)
    · have hl : ∃ e ∈ l, q e := by
        obtain ⟨e, he, hq⟩ := h
        rcases List.mem_append.mp he with h1 | h1
        · exact ⟨e, h1, hq⟩
        · simp only [List.mem_singleton] at h1
          rw [h1] at hq
          exact absurd hq ha
      obtain ⟨j, f, hj, hf, hafter⟩ := ih hl
      have hjl : j < l.length := (List.getElem?_eq_some.mp hj).1
      refine ⟨j, f, by rw [List.getElem?_append_left hjl]; exact hj, hf, ?_⟩
      intro i g hi hg
      rcases Nat.lt_trichotomy i l.length with h1 | h1 | h1
      · rw [List.getElem?_append_left h1] at hg
        exact hafter i g hi hg
      · rw [h1, List.getElem?_concat_length] at hg
        injection hg with hg
        rw [← hg]
        exact ha
      · rw [List.getElem?_eq_none (by simp; omega)] at hg
        exact absurd hg (by simp)

/-- There is a current command in every state that the calls of a round reach. -/
theorem round_log_some (P : Params) (pubs : List Pub) :
    ∀ (s s1 : State) (log log1 : List Minted), s.gtp_cmd.isSome = true →
      (∀ pub ∈ pubs, pub.in_round P = true) →
      round_log P s log pubs = .ok (s1, log1) → s1.gtp_cmd.isSome = true := by
  induction pubs with
  | nil =>
    intro s s1 log log1 hsome _ h
    simp only [round_log] at h
    injection h with h
    injection h with h1 h2
    subst h1
    exact hsome
  | cons pub pubs ih =>
    intro s s1 log log1 hsome hin h
    simp only [round_log] at h
    cases hr : pub.run P s with
    | error e => simp [hr] at h
    | ok s2 =>
      simp only [hr] at h
      have k2 : s2.gtp_cmd.isSome = true := by
        obtain ⟨p, hp⟩ := Option.isSome_iff_exists.mp hsome
        cases pub with
        | update c new_id =>
          simp only [Pub.run] at hr
          cases new_id with
          | false =>
            obtain ⟨_, _, h3, _⟩ := update_cmd_refresh_history P s s2 _ _ _ _ hr
            rw [h3]
            exact hsome
          | true =>
            obtain ⟨_, _, _, _, h3, _⟩ := update_cmd_mint P s s2 _ _ _ _ p hp hr
            rw [h3]
            rfl
        | newc c =>
          have hg := hin (.newc c) (List.mem_cons_self _ _)
          simp only [Pub.in_round, Bool.not_eq_true'] at hg
          simp only [Pub.run, new_cmd, hp, hg] at hr
          cases hd : new_cmd_demote P s p with
          | error e => simp [hd] at hr
          | ok s3 =>
            simp only [hd] at hr
            obtain ⟨_, _, h3, _⟩ := new_cmd_demote_frame P s s3 p hd
            obtain ⟨q, hq⟩ := Option.isSome_iff_exists.mp h3
            obtain ⟨_, _, _, _, h4, _⟩ := update_cmd_mint P s3 s2 _ _ _ _ q hq hr
            rw [h4]
            rfl
      exact ih s2 s1 _ log1 k2 (fun q hq => hin q (List.mem_cons_of_mem _ hq)) h

/-- The invariant holds in every state that the calls of a round reach. -/
theorem round_inv (P : Params) (s0 : State) (c : Cmd) (pubs : List Pub)
    (s : State) (log : List Minted)
    (hstart : s0.gtp_cmd = none ∨ P.is_gamestart (cstr c.cmd) = true)
    (hround : ∀ pub ∈ pubs, pub.in_round P = true)
    (hrun : round P s0 c pubs = .ok (s, log)) : LogInv s log := by
  unfold round at hrun
  cases hn : new_cmd P s0 c.b_moves c.rnd c.cmd c.args with
  | error err => simp [hn] at hrun
  | ok s1 =>
    simp only [hn] at hrun
    have h1 := round_start_inv P s0 s1 c hstart hn
    have hsome : s1.gtp_cmd.isSome = true := by
      have hnew : new_cmd P s0 c.b_moves c.rnd c.cmd c.args =
          update_cmd P (new_cmd_clear s0) c.b_moves c.rnd c.cmd c.args true := by
        unfold new_cmd
        cases hc : s0.gtp_cmd with
        | none => rfl
        | some p =>
          rcases hstart with h2 | h2
          · rw [hc] at h2
            exact absurd h2 (by simp)
          · simp only [h2, if_true]
      rw [hnew] at hn
      obtain ⟨_, _, _, _, h4, _⟩ := update_cmd_mint P _ s1 _ _ _ _ 0 rfl hn
      rw [h4]
      rfl
    exact round_log_inv P pubs s1 s [minted_of s1] log h1 hsome hround hrun

/-- C6, as the code has it. In every state that the calls of a round reach (a
first `new_cmd` that starts the round, then calls of `new_cmd` that are no round
start and of `update_cmd`), for every command published with `new_id` true whose
history slot no later such command of the round took again: the slot holds the
id of the command, and its `next_cmd` is `NULL` as long as the command is the
latest one published with `new_id` true, and from the next such publish on it is
the offset of that next command in `gtp_cmds`. When the ids minted in the round
are pairwise distinct, this slot is the only one of the table with that id. -/
theorem history_linkage (P : Params) (s0 : State) (c : Cmd) (pubs : List Pub)
    (s : State) (log : List Minted) (k : Nat) (e : Minted)
    (hstart : s0.gtp_cmd = none ∨ P.is_gamestart (cstr c.cmd) = true)
    (hround : ∀ pub ∈ pubs, pub.in_round P = true)
    (hrun : round P s0 c pubs = .ok (s, log))
    (hk : log[k]? = some e)
    (hfree : ∀ (j : Nat) (f : Minted), k < j → log[j]? = some f →
      ¬ (f.move = e.move ∧ f.slot = e.slot)) :
    s.history e.move e.slot = ⟨e.id, (log[k + 1]?).map Minted.pos⟩ ∧
    ((∀ (i j : Nat) (f g : Minted), i < j → log[i]? = some f → log[j]? = some g → f.id ≠ g.id) →
      ∀ m sl, (s.history m sl).gtp_id = e.id → m = e.move ∧ sl = e.slot) := by
  obtain ⟨i1, i2, i3, i4⟩ := round_inv P s0 c pubs s log hstart hround hrun
  refine ⟨i2 k e hk hfree, ?_⟩
  intro hdist m sl hm
  have hke : e ∈ log := List.getElem?_mem hk
  have hex : ∃ f ∈ log, f.move = m ∧ f.slot = sl := by
    by_contra hno
    have h0 := i3 m sl (fun f hf hc => hno ⟨f, hf, hc⟩)
    rw [h0] at hm
    exact i4 e hke hm.symm
  obtain ⟨j, f, hj, hf, hafter⟩ := exists_latest log (fun f => f.move = m ∧ f.slot = sl) hex
  have hfj := i2 j f hj (fun i g hi hg hc => hafter i g hi hg
    ⟨hc.1.trans hf.1, hc.2.trans hf.2⟩)
  rw [hf.1, hf.2] at hfj
  rw [hfj] at hm
  simp only at hm
  rcases Nat.lt_trichotomy j k with h2 | h2 | h2
  · exact absurd hm (hdist j k f e h2 hj hk)
  · subst h2
    rw [hj] at hk
    injection hk with hk
    rw [← hk]
    exact ⟨hf.1.symm, hf.2.symm⟩
  · exact absurd hm.symm (hdist k j e f h2 hk hj)

/-- A use of `history_linkage`: in the round of `demo_pubs` the command 6000
clear_board, the second record, keeps its slot `history[0][2]`, which points to
the command published after it. -/
theorem history_linkage_witness :
    demo_final.history 0 2 = ⟨6000, (demo_log[1 + 1]?).map Minted.pos⟩ ∧
    ((∀ (i j : Nat) (f g : Minted), i < j → demo_log[i]? = some f → demo_log[j]? = some g →
        f.id ≠ g.id) →
      ∀ m sl, (demo_final.history m sl).gtp_id = 6000 → m = 0 ∧ sl = 2) :=
  history_linkage P0 (State.init P0) demo_first demo_pubs demo_final demo_log 1
    ⟨6000, 18, 0, 2⟩ (Or.inl rfl) (by decide) rfl (by decide)
    (fun j f hj hf => by
      have hlog : demo_log = [⟨1000, 0, 0, 1⟩, ⟨6000, 18, 0, 2⟩, ⟨8001, 37, 1, 3⟩] := by decide
      rw [hlog] at hf
      match j, hj with
      | 2, _ =>
        injection hf with hf
        subst hf
        decide
      | j + 3, _ => simp at hf)

/-- C6 as stated does not hold. First, a second command of a round that gets the
id 1000 of the first (same move, same random value) leaves two slots with that
id. Second, after ten more commands of the same move the slot `history[0][1]` of
the first command holds the id 11000 of the eleventh, and no slot of
`history[0]` holds the id 1000 any more. -/
theorem history_linkage_counterexample :
    (round P0 (State.init P0) demo_first pubs_same_id).toOption.map
      (fun r => (r.2.map Minted.id, (r.1.history 0 1).gtp_id, (r.1.history 0 2).gtp_id)) =
      some ([1000, 1000], 1000, 1000) ∧
    (round P0 (State.init P0) demo_first pubs_wrap).toOption.map
      (fun r => (r.2.head?, r.2.length, r.1.history 0 1,
        (List.range MAX_CMDS_PER_MOVE).all (fun sl => decide ((r.1.history 0 sl).gtp_id ≠ 1000)))) =
      some (some ⟨1000, 0, 0, 1⟩, 11, ⟨11000, none⟩, true) := by
  decide

/-! ## `next_command`: the assertion -/

/-- C7, at an input where the code fails. From the start of the program, after
`new_cmd` for boardsize 19 the current id is 1000 and the slot `history[0][0]`
is still zero. A slave that replies `=0` is out of sync (`process_reply` returns
`true` and sets `last_reply_id` to `0`), and `next_command(0)` then finds
`gtp_id == 0` in `history[0][0]`, whose `next_cmd` is `NULL`: `assert(next)`
fails, in `next_command` and so in the next pass of `slave_loop`. -/
theorem next_command_assert_fails :
    (new_cmds P0 (State.init P0) [demo_first]).toOption.map
      (fun s => (current_id s, s.history 0 0)) = some (some 1000, ⟨0, none⟩) ∧
    (new_cmds P0 (State.init P0) [demo_first]).toOption.map
      (fun s => (process_reply P0 s 0 reply_ok_0 0 (-1) (-1)).toOption.map
        (fun r => (r.resend, r.last_reply_id))) = some (some (true, 0)) ∧
    (new_cmds P0 (State.init P0) [demo_first]).toOption.map
      (fun s => (fault_of (next_command P0 s 0), fault_of (choose_to_send P0 s true 0 1))) =
      some (some .assert_failed, some .assert_failed) := by
  decide

/-- The loop of `next_command` stops before the end only at a slot that holds
the id. -/
theorem scan_slots_hit (row : Nat → cmd_history) (cmd_id : Int) (n slot : Nat)
    (h : scan_slots row cmd_id n slot ≠ slot + n) :
    (row (scan_slots row cmd_id n slot)).gtp_id = cmd_id := by
  induction n generalizing slot with
  | zero => exact absurd rfl h
  | succ n ih =>
    unfold scan_slots at h ⊢
    by_cases h0 : cmd_id = (row slot).gtp_id
    · rw [if_pos h0]
      exact h0.symm
    · rw [if_neg h0] at h ⊢
      exact ih (slot + 1) (fun e => h (by omega))

/-- In every state that the calls of a round reach, a history slot whose id is
neither `0` nor the id `gtp_id` of the latest command published with `new_id`
true has a `next_cmd` that is not `NULL`. -/
theorem history_next_non_null (P : Params) (s0 : State) (c : Cmd) (pubs : List Pub)
    (s : State) (log : List Minted)
    (hstart : s0.gtp_cmd = none ∨ P.is_gamestart (cstr c.cmd) = true)
    (hround : ∀ pub ∈ pubs, pub.in_round P = true)
    (hrun : round P s0 c pubs = .ok (s, log))
    (m : Int) (sl : Nat) (hzero : (s.history m sl).gtp_id ≠ 0)
    (hcur : (s.history m sl).gtp_id ≠ s.gtp_id) :
    (s.history m sl).next_cmd ≠ none := by
  obtain ⟨i1, i2, i3, _⟩ := round_inv P s0 c pubs s log hstart hround hrun
  have hex : ∃ f ∈ log, f.move = m ∧ f.slot = sl := by
    by_contra hno
    exact hzero (i3 m sl (fun f hf hc => hno ⟨f, hf, hc⟩))
  obtain ⟨j, f, hj, hf, hafter⟩ := exists_latest log (fun f => f.move = m ∧ f.slot = sl) hex
  have hfj := i2 j f hj (fun i g hi hg hc => hafter i g hi hg
    ⟨hc.1.trans hf.1, hc.2.trans hf.2⟩)
  rw [hf.1, hf.2] at hfj
  rw [hfj] at hcur ⊢
  simp only at hcur ⊢
  have hjl : j < log.length := (List.getElem?_eq_some.mp hj).1
  by_cases hlast : j + 1 < log.length
  · rw [List.getElem?_eq_getElem hlast]
    simp
  · have hjj : log.length - 1 = j := by omega
    have := (i1 f (by rw [hjj]; exact hj)).2
    exact absurd this.symm hcur

/-- In every state that the calls of a round reach, `assert(next)` holds in
`next_command` for every id other than `0` and other than `gtp_id`, the id of
the latest command published with `new_id` true. -/
theorem next_command_assert_holds (P : Params) (s0 : State) (c : Cmd) (pubs : List Pub)
    (s : State) (log : List Minted)
    (hstart : s0.gtp_cmd = none ∨ P.is_gamestart (cstr c.cmd) = true)
    (hround : ∀ pub ∈ pubs, pub.in_round P = true)
    (hrun : round P s0 c pubs = .ok (s, log))
    (cmd_id : Int) (hzero : cmd_id ≠ 0) (hcur : cmd_id ≠ s.gtp_id) :
    ∃ to_send, next_command P s cmd_id = .ok to_send := by
  unfold next_command
  by_cases h1 : cmd_id = -1
  · rw [if_pos h1]
    exact ⟨0, rfl⟩
  · rw [if_neg h1]
    cases hc : s.gtp_cmd with
    | none =>
      exfalso
      unfold round at hrun
      cases hn : new_cmd P s0 c.b_moves c.rnd c.cmd c.args with
      | error err => simp [hn] at hrun
      | ok s1 =>
        simp only [hn] at hrun
        have hnew : new_cmd P s0 c.b_moves c.rnd c.cmd c.args =
            update_cmd P (new_cmd_clear s0) c.b_moves c.rnd c.cmd c.args true := by
          unfold new_cmd
          cases hc0 : s0.gtp_cmd with
          | none => rfl
          | some p =>
            rcases hstart with h2 | h2
            · rw [hc0] at h2
              exact absurd h2 (by simp)
            · simp only [h2, if_true]
        rw [hnew] at hn
        obtain ⟨_, _, _, _, h4, _⟩ := update_cmd_mint P _ s1 _ _ _ _ 0 rfl hn
        have hsome := round_log_some P pubs s1 s _ log (by rw [h4]; rfl) hround hrun
        rw [hc] at hsome
        exact absurd hsome (by decide)
    | some p =>
      simp only
      by_cases hgt : move_number P cmd_id > move_number P (cmd_id_at s p)
      · rw [if_pos hgt]
        exact ⟨0, rfl⟩
      · rw [if_neg hgt]
        by_cases hs : scan_slots (s.history (move_number P cmd_id)) cmd_id
            MAX_CMDS_PER_MOVE 0 = MAX_CMDS_PER_MOVE
        · rw [if_pos hs]
          exact ⟨0, rfl⟩
        · rw [if_neg hs]
          have hit := scan_slots_hit (s.history (move_number P cmd_id)) cmd_id
            MAX_CMDS_PER_MOVE 0 (by omega)
          have hnn := history_next_non_null P s0 c pubs s log hstart hround hrun
            (move_number P cmd_id)
            (scan_slots (s.history (move_number P cmd_id)) cmd_id MAX_CMDS_PER_MOVE 0)
            (by rw [hit]; exact hzero) (by rw [hit]; exact hcur)
          cases hnx : (s.history (move_number P cmd_id)
              (scan_slots (s.history (move_number P cmd_id)) cmd_id MAX_CMDS_PER_MOVE 0)).next_cmd with
          | none => exact absurd hnx hnn
          | some q => exact ⟨q, rfl⟩

/-! ## Round start and the history table -/

/-- What a round start leaves in the history table. -/
theorem round_start_history (P : Params) (s0 : State) (c : Cmd)
    (hstart : s0.gtp_cmd = none ∨ P.is_gamestart (cstr c.cmd) = true) :
    ∃ s1 mv sl, new_cmd P s0 c.b_moves c.rnd c.cmd c.args = .ok s1 ∧
      s1.gtp_cmd = some 0 ∧
      s1.last = some (mv, sl) ∧
      s1.history mv sl = ⟨s1.gtp_id, none⟩ ∧
      (∀ m k, ¬ (m = mv ∧ k = sl) →
        (s1.history m k).gtp_id = 0 ∧
        ((s1.history m k).next_cmd = if s0.last = some (m, k) then some 0 else none)) := by
  have hnew : new_cmd P s0 c.b_moves c.rnd c.cmd c.args =
      update_cmd P (new_cmd_clear s0) c.b_moves c.rnd c.cmd c.args true := by
    unfold new_cmd
    cases hc : s0.gtp_cmd with
    | none => rfl
    | some p =>
      rcases hstart with h1 | h1
      · rw [hc] at h1
        exact absurd h1 (by simp)
      · simp only [h1, if_true]
  rw [hnew]
  unfold update_cmd
  simp only [new_cmd_clear, if_true]
  refine ⟨_, _, _, rfl, rfl, rfl, ?_, ?_⟩
  · simp only
    rw [set_entry_same]
  · intro m k hne
    simp only
    rw [set_entry_other _ _ _ _ _ _ hne]
    cases hl : s0.last with
    | none => simp
    | some q =>
      obtain ⟨lm, ls⟩ := q
      simp only
      by_cases hq : m = lm ∧ k = ls
      · rw [hq.1, hq.2, set_next_same]
        simp
      · rw [set_next_other _ _ _ _ _ _ hq]
        have : ¬ (lm = m ∧ ls = k) := fun h => hq ⟨h.1.symm, h.2.symm⟩
        simp [this]

/-- C11, at an input where the code fails. After a first round (boardsize 19,
id 1000, slot 1 of row 0) the round-start command boardsize 19 is published again
by `new_cmd`, with the random value 3: the current command begins at the base and
its slot, slot 2 of row 0, holds its id 4000 and no successor; but slot 1 of row 0,
which is not the slot of the new command, holds the id `0` and a `next_cmd` that is
not null, the base of `gtp_cmds`: `update_cmd` writes it through its static
pointer `last` after `new_cmd` has zeroed the table. -/
theorem round_start_stale_slot :
    (new_cmds P0 (State.init P0) two_rounds).toOption.map
      (fun s => (s.gtp_cmd, s.last, s.gtp_id)) = some (some 0, some (0, 2), 4000) ∧
    (new_cmds P0 (State.init P0) two_rounds).toOption.map
      (fun s => (s.history 0 2, s.history 0 1)) = some (⟨4000, none⟩, ⟨0, some 0⟩) := by
  decide

/-! ## C strings and `atoi` -/

/-- The C string at a byte that is not NUL. -/
theorem cstr_cons (c : Nat) (cs : List Nat) (hc : c ≠ 0) : cstr (c :: cs) = c :: cstr cs := by
  simp [cstr, List.takeWhile_cons, hc]

/-- The C string at a NUL. -/
theorem cstr_zero (cs : List Nat) : cstr (0 :: cs) = [] := by
  simp [cstr]

/-- A C string ends at a NUL whatever follows it. -/
theorem cstr_append_nul (a x : List Nat) : cstr (a ++ 0 :: x) = cstr a := by
  induction a with
  | nil => simp [cstr]
  | cons c cs ih =>
    by_cases hc : c = 0
    · subst hc
      rw [List.cons_append, cstr_zero, cstr_zero]
    · rw [List.cons_append, cstr_cons _ _ hc, cstr_cons _ _ hc, ih]

/-- White space is skipped within the C string. -/
theorem dropWhile_isspace_cstr (l : List Nat) :
    (cstr l).dropWhile isspace = cstr (l.dropWhile isspace) := by
  induction l with
  | nil => rfl
  | cons c cs ih =>
    by_cases hc : c = 0
    · subst hc
      have h0 : ¬ isspace 0 = true := by decide
      rw [List.dropWhile_cons_of_neg h0]
      simp [cstr]
    · have e : cstr (c :: cs) = c :: cstr cs := cstr_cons c cs hc
      rw [e]
      by_cases hs : isspace c = true
      · rw [List.dropWhile_cons_of_pos hs, List.dropWhile_cons_of_pos hs]
        exact ih
      · rw [List.dropWhile_cons_of_neg hs, List.dropWhile_cons_of_neg hs, e]

/-- The digit loop of `atoi` reads the C string only. -/
theorem atoi_digits_cstr (l : List Nat) (acc : Nat) :
    atoi_digits acc (cstr l) = atoi_digits acc l := by
  induction l generalizing acc with
  | nil => rfl
  | cons c cs ih =>
    by_cases hc : c = 0
    · subst hc
      have h0 : isdigit 0 = false := by decide
      rw [atoi_digits_stop _ _ _ h0]
      simp [cstr, atoi_digits]
    · have e : cstr (c :: cs) = c :: cstr cs := cstr_cons c cs hc
      rw [e, atoi_digits, atoi_digits, ih]

/-- The function `atoi` reads the C string only. -/
theorem atoi_cstr (l : List Nat) : atoi (cstr l) = atoi l := by
  unfold atoi
  rw [dropWhile_isspace_cstr]
  cases hd : l.dropWhile isspace with
  | nil => rfl
  | cons c cs =>
    by_cases hc : c = 0
    · subst hc
      have h0 : isdigit 0 = false := by decide
      simp [cstr, atoi_digits, h0]
    · have e : cstr (c :: cs) = c :: cstr cs := cstr_cons c cs hc
      rw [e]
      by_cases h45 : c = 45
      · subst h45
        simp only [atoi_digits_cstr]
      · by_cases h43 : c = 43
        · subst h43
          simp only [atoi_digits_cstr]
        · have e2 := atoi_digits_cstr (c :: cs) 0
          rw [e] at e2
          split
          · rename_i h
            injection h with ha hb
            exact absurd ha h45
          · rename_i h
            injection h with ha hb
            exact absurd ha h43
          · rename_i x h5 h3
            split
            · rename_i h
              injection h with ha hb
              exact absurd ha h45
            · rename_i h
              injection h with ha hb
              exact absurd ha h43
            · exact_mod_cast e2

/-! ## Publishing in place -/

/-- The function `atoi` reads back what `%d` prints. -/
theorem atoi_fmt_d (i : Int) (c : Nat) (rest : List Nat) (hc : isdigit c = false) :
    atoi (fmt_d i ++ c :: rest) = i := by
  unfold fmt_d
  by_cases hneg : i < 0
  · rw [if_pos hneg]
    have h45 : ¬ isspace 45 = true := by decide
    unfold atoi
    rw [List.cons_append, List.dropWhile_cons_of_neg h45]
    simp only
    rw [(atoi_digits_append _ (fmt_nat_isdigit _) 0 (c :: rest)).1, atoi_digits_stop _ _ _ hc,
      atoi_digits_fmt_nat]
    simp only [Nat.zero_mul, Nat.zero_add]
    omega
  · rw [if_neg hneg, atoi_of_digits _ c rest (List.length_pos.mp (fmt_nat_length_pos _))
      (fmt_nat_isdigit _) hc, atoi_digits_fmt_nat]
    omega

/-- The text of a command starts with its id and a space. -/
theorem cmd_text_shape (gtp_id : Int) (cmd args : List Nat) :
    ∃ tail, cmd_text gtp_id cmd args = fmt_d gtp_id ++ 32 :: tail := by
  refine ⟨cstr cmd ++ [32] ++ (if cstr args = [] then [10] else cstr args), ?_⟩
  simp [cmd_text]

/-- What `update_cmd` leaves in `gtp_cmds`, for a `gtp_cmd` within the buffer: the
bytes in front of `gtp_cmd` stay, and the C string at `gtp_cmd` is the text, cut to
the room that is left, when there is room at all. -/
theorem snprintf_at_text (buf : List Nat) (p size : Nat) (out : List Nat)
    (hp : p ≤ buf.length) :
    (snprintf_at buf p size out).take p = buf.take p ∧
    (0 < size → cstr ((snprintf_at buf p size out).drop p) = cstr (out.take (size - 1))) ∧
    (size = 0 → snprintf_at buf p size out = buf) ∧
    p ≤ (snprintf_at buf p size out).length := by
  unfold snprintf_at
  by_cases h0 : size = 0
  · simp [h0, hp]
  · rw [if_neg h0]
    refine ⟨write_at_take _ _ _ hp, ?_, fun h => absurd h h0, ?_⟩
    · intro _
      rw [write_at_drop _ _ _ hp, List.append_assoc, List.singleton_append, cstr_append_nul]
    · unfold write_at
      simp
      omega

/-- The state that `update_cmd` leaves, field by field. -/
theorem update_cmd_fields (P : Params) (s : State) (p b_moves rnd : Nat) (cmd args : List Nat)
    (new_id : Bool) (hcmd : s.gtp_cmd = some p) :
    ∃ s1, update_cmd P s b_moves rnd cmd args new_id = .ok s1 ∧
      s1.gtp_id = (if new_id then force_reply P
        ((if P.is_reset (cstr cmd) then (0 : Int) else (b_moves : Int)) + rnd * P.DIST_GAMELEN)
        else s.gtp_id) ∧
      s1.gtp_cmds = snprintf_at s.gtp_cmds p (P.CMDS_SIZE - p) (cmd_text s1.gtp_id cmd args) ∧
      s1.gtp_cmd = some p ∧
      s1.cmd_count = s.cmd_count + 1 ∧
      s1.reply_count = (if new_id then 0 else s.reply_count) ∧
      s1.gtp_replies = s.gtp_replies ∧
      s1.reply_bufs = s.reply_bufs ∧
      s1.active_slaves = s.active_slaves ∧
      s1.history = (if new_id then
        set_entry (match s.last with
          | some (m, k) => set_next s.history m k (some p)
          | none => s.history)
          (if P.is_reset (cstr cmd) then (0 : Int) else (b_moves : Int))
          ((s.slot + 1) % MAX_CMDS_PER_MOVE) ⟨s1.gtp_id, none⟩
        else s.history) ∧
      s1.slot = (if new_id then (s.slot + 1) % MAX_CMDS_PER_MOVE else s.slot) ∧
      s1.last = (if new_id then
        some ((if P.is_reset (cstr cmd) then (0 : Int) else (b_moves : Int)),
          (s.slot + 1) % MAX_CMDS_PER_MOVE) else s.last) := by
  unfold update_cmd
  simp only [hcmd]
  cases new_id with
  | true => exact ⟨_, rfl, rfl, rfl, hcmd ▸ rfl, rfl, rfl, rfl, rfl, rfl, rfl, rfl, rfl⟩
  | false => exact ⟨_, rfl, rfl, rfl, hcmd ▸ rfl, rfl, rfl, rfl, rfl, rfl, rfl, rfl, rfl⟩

/-- C12. Publishing in place is idempotent up to the counter: in a state with a
current command (its position `p` within `gtp_cmds`), `update_cmd` for the word
`cmd` and the arguments `p1` with `new_id` true, then `update_cmd` for `cmd` and
`p2` with `new_id` false, gives the same state as `update_cmd` for `cmd` and `p2`
with `new_id` true, each with the same move number and random value for the call
that makes the id: the same command text at `gtp_cmd` (as a C string), the same
bytes before it, the same `gtp_cmd`, id, history, `reply_count`, `gtp_replies`,
reply buffers, `active_slaves`, `slot` and `last`; `cmd_count` is greater by 2
after the two calls and by 1 after the single call. -/
theorem republish_in_place (P : Params) (s : State) (p b_moves rnd b_moves2 rnd2 : Nat)
    (cmd p1 p2 : List Nat)
    (hcmd : s.gtp_cmd = some p) (hp : p ≤ s.gtp_cmds.length) :
    ∃ s1 s2 s3,
      update_cmd P s b_moves rnd cmd p1 true = .ok s1 ∧
      update_cmd P s1 b_moves2 rnd2 cmd p2 false = .ok s2 ∧
      update_cmd P s b_moves rnd cmd p2 true = .ok s3 ∧
      cstr (s2.gtp_cmds.drop p) = cstr (s3.gtp_cmds.drop p) ∧
      s2.gtp_cmds.take p = s3.gtp_cmds.take p ∧
      s2.gtp_cmd = some p ∧ s3.gtp_cmd = some p ∧
      s2.gtp_id = s3.gtp_id ∧
      current_id s2 = current_id s3 ∧
      s2.history = s3.history ∧
      s2.reply_count = s3.reply_count ∧
      s2.gtp_replies = s3.gtp_replies ∧
      s2.reply_bufs = s3.reply_bufs ∧
      s2.active_slaves = s3.active_slaves ∧
      s2.slot = s3.slot ∧ s2.last = s3.last ∧
      s2.cmd_count = s.cmd_count + 2 ∧ s3.cmd_count = s.cmd_count + 1 := by
  obtain ⟨s1, r1, a1, a2, a3, a4, a5, a6, a7, a8, a9, a10, a11⟩ :=
    update_cmd_fields P s p b_moves rnd cmd p1 true hcmd
  obtain ⟨s2, r2, b1, b2, b3, b4, b5, b6, b7, b8, b9, b10, b11⟩ :=
    update_cmd_fields P s1 p b_moves2 rnd2 cmd p2 false a3
  obtain ⟨s3, r3, c1, c2, c3, c4, c5, c6, c7, c8, c9, c10, c11⟩ :=
    update_cmd_fields P s p b_moves rnd cmd p2 true hcmd
  simp only [if_true] at a1 a5 a9 a10 a11 c1 c5 c9 c10 c11
  simp only [Bool.false_eq_true, if_false] at b1 b5 b9 b10 b11
  have hid : s2.gtp_id = s3.gtp_id := by rw [b1, a1, c1]
  have hA := snprintf_at_text s.gtp_cmds p (P.CMDS_SIZE - p) (cmd_text s1.gtp_id cmd p1) hp
  rw [← a2] at hA
  have hB := snprintf_at_text s1.gtp_cmds p (P.CMDS_SIZE - p) (cmd_text s2.gtp_id cmd p2) hA.2.2.2
  rw [← b2] at hB
  have hC := snprintf_at_text s.gtp_cmds p (P.CMDS_SIZE - p) (cmd_text s3.gtp_id cmd p2) hp
  rw [← c2] at hC
  have htext : cstr (s2.gtp_cmds.drop p) = cstr (s3.gtp_cmds.drop p) := by
    by_cases h0 : P.CMDS_SIZE - p = 0
    · rw [hB.2.2.1 h0, hA.2.2.1 h0, hC.2.2.1 h0]
    · rw [hB.2.1 (by omega), hC.2.1 (by omega), hid]
  refine ⟨s1, s2, s3, r1, r2, r3, htext, ?_, b3, c3, hid, ?_, ?_, ?_, ?_, ?_, ?_, ?_, ?_, ?_, c4⟩
  · rw [hB.1, hA.1, hC.1]
  · unfold current_id cmd_id_at
    rw [b3, c3]
    simp only [Option.map_some']
    rw [← atoi_cstr, htext, atoi_cstr]
  · rw [b9, a9, c9, a1, c1]
  · rw [b5, a5, c5]
  · rw [b6, a6, c6]
  · rw [b7, a7, c7]
  · rw [b8, a8, c8]
  · rw [b10, a10, c10]
  · rw [b11, a11, c11]
  · rw [b4, a4]
    omega

/-- C13. The frame of a refresh: in a state with a current command at position
`p` within `gtp_cmds`, `update_cmd` with `new_id` false returns, adds one to
`cmd_count`, and leaves `gtp_cmd`, the static `gtp_id`, every slot of `history`,
`reply_count`, `gtp_replies`, `active_slaves`, the reply buffers, `slot`, `last`
and the bytes of `gtp_cmds` before `p` as they were. When the new text fits the
buffer, the bytes from `p` on are that text, a NUL, and the old bytes behind it;
the command then carries the id `gtp_id`, which is the id it carried before when
the text at `gtp_cmd` carried `gtp_id`, as it does after every publishing call. -/
theorem refresh_frame (P : Params) (s : State) (p b_moves rnd : Nat) (cmd args : List Nat)
    (hcmd : s.gtp_cmd = some p) (hp : p ≤ s.gtp_cmds.length) :
    ∃ s1, update_cmd P s b_moves rnd cmd args false = .ok s1 ∧
      s1.cmd_count = s.cmd_count + 1 ∧
      s1.gtp_cmd = s.gtp_cmd ∧
      s1.gtp_id = s.gtp_id ∧
      s1.history = s.history ∧
      s1.reply_count = s.reply_count ∧
      s1.gtp_replies = s.gtp_replies ∧
      s1.active_slaves = s.active_slaves ∧
      s1.reply_bufs = s.reply_bufs ∧
      s1.slot = s.slot ∧ s1.last = s.last ∧
      s1.gtp_cmds.take p = s.gtp_cmds.take p ∧
      (p + (cmd_text s.gtp_id cmd args).length < P.CMDS_SIZE →
        s1.gtp_cmds.drop p = cmd_text s.gtp_id cmd args ++
          0 :: s.gtp_cmds.drop (p + ((cmd_text s.gtp_id cmd args).length + 1)) ∧
        current_id s1 = some s.gtp_id ∧
        (current_id s = some s.gtp_id → current_id s1 = current_id s)) := by
  obtain ⟨s1, r1, a1, a2, a3, a4, a5, a6, a7, a8, a9, a10, a11⟩ :=
    update_cmd_fields P s p b_moves rnd cmd args false hcmd
  simp only [Bool.false_eq_true, if_false] at a1 a5 a9 a10 a11
  rw [a1] at a2
  have hA := snprintf_at_text s.gtp_cmds p (P.CMDS_SIZE - p) (cmd_text s.gtp_id cmd args) hp
  rw [← a2] at hA
  refine ⟨s1, r1, a4, by rw [a3, hcmd], a1, a9, a5, a6, a8, a7, a10, a11, hA.1, ?_⟩
  intro hfit
  have hdrop : s1.gtp_cmds.drop p = cmd_text s.gtp_id cmd args ++
      0 :: s.gtp_cmds.drop (p + ((cmd_text s.gtp_id cmd args).length + 1)) := by
    rw [a2, snprintf_at_fits _ _ _ _ hfit]
    have hl : (s.gtp_cmds.take p).length = p := by simp [hp]
    rw [List.drop_append_of_le_length (by omega), List.drop_of_length_le (by omega)]
    simp
  have hcur : current_id s1 = some s.gtp_id := by
    unfold current_id cmd_id_at
    rw [a3, Option.map_some', hdrop]
    obtain ⟨tail, ht⟩ := cmd_text_shape s.gtp_id cmd args
    rw [ht, List.append_assoc, List.cons_append, atoi_fmt_d _ 32 _ (by decide)]
  exact ⟨hdrop, hcur, fun h => by rw [hcur, h]⟩

/-- After a publish that fits into `gtp_cmds`, the current command carries `gtp_id`. -/
theorem update_cmd_carries_id (P : Params) (s : State) (p b_moves rnd : Nat)
    (cmd args : List Nat) (new_id : Bool)
    (hcmd : s.gtp_cmd = some p) (hp : p ≤ s.gtp_cmds.length) :
    ∃ s1, update_cmd P s b_moves rnd cmd args new_id = .ok s1 ∧
      (p + (cmd_text s1.gtp_id cmd args).length < P.CMDS_SIZE →
        current_id s1 = some s1.gtp_id) := by
  obtain ⟨s1, r1, a1, a2, a3, _⟩ := update_cmd_fields P s p b_moves rnd cmd args new_id hcmd
  refine ⟨s1, r1, ?_⟩
  intro hfit
  unfold current_id cmd_id_at
  rw [a3, Option.map_some', a2, snprintf_at_fits _ _ _ _ hfit]
  have hl : (s.gtp_cmds.take p).length = p := by simp [hp]
  rw [List.drop_append_of_le_length (by omega), List.drop_of_length_le (by omega)]
  obtain ⟨tail, ht⟩ := cmd_text_shape s1.gtp_id cmd args
  rw [ht]
  simp only [List.nil_append, List.append_assoc, List.cons_append]
  rw [atoi_fmt_d _ 32 _ (by decide)]

/-- The second branch of `new_cmd` leaves `cmd_count` alone. -/
theorem new_cmd_demote_cmd_count (P : Params) (s s1 : State) (p : Nat)
    (h : new_cmd_demote P s p = .ok s1) : s1.cmd_count = s.cmd_count := by
  unfold new_cmd_demote at h
  by_cases hl : 32 < strspn_digits (s.gtp_cmds.drop p)
  · simp [hl] at h
  · simp only [hl, if_false] at h
    injection h with h
    subst h
    rfl

/-- C16. The counter `cmd_count`: every call of `update_cmd`, with `new_id` true
or false, and every call of `new_cmd` that returns leaves `cmd_count` greater by
exactly one; `update_cmd` returns whenever there is a current command, and
`new_cmd` whenever there is none, or the command starts a round, or the id of the
current command has at most 32 digits; `process_reply` and a slave thread entering
or leaving its loop leave `cmd_count` as it was. -/
theorem cmd_count_steps (P : Params) (s : State) :
    (∀ b_moves rnd cmd args new_id s1, update_cmd P s b_moves rnd cmd args new_id = .ok s1 →
      s1.cmd_count = s.cmd_count + 1) ∧
    (∀ b_moves rnd cmd args s1, new_cmd P s b_moves rnd cmd args = .ok s1 →
      s1.cmd_count = s.cmd_count + 1) ∧
    (∀ p, s.gtp_cmd = some p → ∀ b_moves rnd cmd args new_id,
      ∃ s1, update_cmd P s b_moves rnd cmd args new_id = .ok s1) ∧
    (∀ b_moves rnd cmd args,
      (s.gtp_cmd = none ∨ P.is_gamestart (cstr cmd) = true ∨
        ∃ p, s.gtp_cmd = some p ∧ strspn_digits (s.gtp_cmds.drop p) ≤ 32) →
      ∃ s1, new_cmd P s b_moves rnd cmd args = .ok s1) ∧
    (∀ reply_id reply reply_buf last_reply_id reply_slot r,
      process_reply P s reply_id reply reply_buf last_reply_id reply_slot = .ok r →
      r.state.cmd_count = s.cmd_count) ∧
    (slave_enter s).cmd_count = s.cmd_count ∧
    (∀ s1, slave_leave s = .ok s1 → s1.cmd_count = s.cmd_count) := by
  have hupd : ∀ (t : State) b_moves rnd cmd args new_id s1,
      update_cmd P t b_moves rnd cmd args new_id = .ok s1 → s1.cmd_count = t.cmd_count + 1 := by
    intro t b_moves rnd cmd args new_id s1 h
    cases hc : t.gtp_cmd with
    | none => simp [update_cmd, hc] at h
    | some p =>
      obtain ⟨s2, r2, _, _, _, a4, _⟩ := update_cmd_fields P t p b_moves rnd cmd args new_id hc
      rw [r2] at h
      injection h with h
      rw [← h]
      exact a4
  have hret : ∀ (t : State) b_moves rnd cmd args new_id, t.gtp_cmd.isSome = true →
      ∃ s1, update_cmd P t b_moves rnd cmd args new_id = .ok s1 := by
    intro t b_moves rnd cmd args new_id hs
    obtain ⟨p, hp⟩ := Option.isSome_iff_exists.mp hs
    obtain ⟨s2, r2, _⟩ := update_cmd_fields P t p b_moves rnd cmd args new_id hp
    exact ⟨s2, r2⟩
  refine ⟨hupd s, ?_, ?_, ?_, ?_, rfl, ?_⟩
  · intro b_moves rnd cmd args s1 h
    unfold new_cmd at h
    cases hc : s.gtp_cmd with
    | none =>
      simp only [hc] at h
      exact hupd (new_cmd_clear s) _ _ _ _ _ s1 h
    | some p =>
      simp only [hc] at h
      by_cases hg : P.is_gamestart (cstr cmd) = true
      · rw [if_pos hg] at h
        exact hupd (new_cmd_clear s) _ _ _ _ _ s1 h
      · rw [if_neg hg] at h
        cases hd : new_cmd_demote P s p with
        | error e => simp [hd] at h
        | ok s2 =>
          simp only [hd] at h
          rw [hupd s2 _ _ _ _ _ s1 h, new_cmd_demote_cmd_count P s s2 p hd]
  · intro p hp b_moves rnd cmd args new_id
    exact hret s b_moves rnd cmd args new_id (by rw [hp]; rfl)
  · intro b_moves rnd cmd args hcase
    unfold new_cmd
    cases hc : s.gtp_cmd with
    | none => exact hret (new_cmd_clear s) _ _ _ _ _ rfl
    | some p =>
      simp only
      by_cases hg : P.is_gamestart (cstr cmd) = true
      · rw [if_pos hg]
        exact hret (new_cmd_clear s) _ _ _ _ _ rfl
      · rw [if_neg hg]
        rcases hcase with h1 | h1 | ⟨q, hq, hlen⟩
        · rw [hc] at h1
          exact absurd h1 (by simp)
        · exact absurd h1 hg
        · rw [hc] at hq
          injection hq with hq
          subst hq
          have hd : ∃ s2, new_cmd_demote P s p = .ok s2 ∧ s2.gtp_cmd.isSome = true := by
            unfold new_cmd_demote
            simp only
            rw [if_neg (by omega)]
            exact ⟨_, rfl, rfl⟩
          obtain ⟨s2, hd2, hs2⟩ := hd
          simp only [hd2]
          exact hret s2 _ _ _ _ _ hs2
  · intro reply_id reply reply_buf last_reply_id reply_slot r h
    unfold process_reply at h
    by_cases hf : reply.headD 0 ≠ 61
    · rw [if_pos hf] at h
      injection h with h
      subst h
      rfl
    · rw [if_neg hf] at h
      cases hc : s.gtp_cmd with
      | none => simp [hc] at h
      | some p =>
        simp only [hc] at h
        by_cases hid : reply_id = cmd_id_at s p
        · rw [if_pos hid] at h
          injection h with h
          subst h
          rfl
        · rw [if_neg hid] at h
          injection h with h
          subst h
          rfl
  · intro s1 h
    unfold slave_leave at h
    by_cases hp : 0 < s.active_slaves
    · rw [if_pos hp] at h
      injection h with h
      subst h
      rfl
    · rw [if_neg hp] at h
      exact absurd h (by simp)

/-! ## Reconnects, overwritten commands, reply slots -/

/-- C17. Full resend after a reconnect: when `slave_loop` has returned (with any
locals `prev`) and the thread enters it again after the next handshake, `resend`
is true and `last_reply_id` is `-1`, as on every entry but the first of the
thread; with a current command, `next_command(-1)` is the base of `gtp_cmds`
(offset `0`) and it is what the first pass of the loop sends; in a state reached by
the calls of `new_cmd` of a round whose lines fit the buffer, the text sent from
there is all lines of the round. -/
theorem reconnect_resends_all (P : Params) (s : State) (p : Nat) (prev : LoopLocals)
    (hcmd : s.gtp_cmd = some p) :
    (slave_thread_reconnect prev).resend = true ∧
    (slave_thread_reconnect prev).last_reply_id = -1 ∧
    (∀ n, 0 < n → slave_loop_entry (thread_resend n) = slave_thread_reconnect prev) ∧
    next_command P s (slave_thread_reconnect prev).last_reply_id = .ok 0 ∧
    choose_to_send P s (slave_thread_reconnect prev).resend
      (slave_thread_reconnect prev).last_reply_id
      (slave_thread_reconnect prev).last_cmd_sent = .ok (.send 0) ∧
    (∀ s0 c cs, (s0.gtp_cmd = none ∨ P.is_gamestart (cstr c.cmd) = true) →
      (∀ d ∈ cs, P.is_gamestart (cstr d.cmd) = false) →
      s0.gtp_cmds.length = P.CMDS_SIZE →
      (∀ d ∈ c :: cs, d.id P < 2 ^ 31) →
      (round_text P (c :: cs)).length < P.CMDS_SIZE →
      new_cmds P s0 (c :: cs) = .ok s →
      sent_text P s 0 = round_text P (c :: cs)) := by
  refine ⟨rfl, rfl, ?_, ?_, ?_, ?_⟩
  · intro n hn
    have hr : thread_resend n = true := by simp [thread_resend, hn]
    rw [hr]
    rfl
  · simp [slave_thread_reconnect, slave_loop_entry, next_command]
  · simp [slave_thread_reconnect, slave_loop_entry, choose_to_send, next_command, hcmd]
  · intro s0 c cs hstart hround hsize hint hfit hrun
    have hlen := round_text_length P c cs
    obtain ⟨s1, post1, hnew, h1, h2, h3, _⟩ := new_cmd_round_start P s0 c hstart hsize (by omega)
    obtain ⟨s2, post, hrun2, k1, _, _⟩ := new_cmds_text P cs s1 [] post1 c h1 h2 h3 hround hint
      (by simpa using hfit)
    simp only [new_cmds, hnew, hrun2] at hrun
    injection hrun with hrun
    subst hrun
    simp only [List.nil_append] at k1
    unfold sent_text strncpy
    rw [List.drop_zero, k1, cstr_nul _ _ (round_text_no_nul P (c :: cs))]
    exact List.take_of_length_le (Nat.le_of_lt hfit)

/-- C19, as the code has it. In a state whose current command, at position `p`,
was published with `new_id` true and has the id `a` (an id other than `-1`): its
slot `history[m][k]` is the one `last` points to, `m` is the move number of `a`,
and no slot before `k` of that row holds `a`. A direct call of `update_cmd` with
`new_id` true returns and leaves `gtp_cmd` at `p`. When the new id is not `a`, the
new text fits the buffer and the new command gets another slot, `next_command(a)`
is `p`, the position of the overwriting command, provided the move number of `a`
is not greater than the move number of the new id; when it is greater,
`next_command(a)` is the base of `gtp_cmds`. -/
theorem overwritten_successor (P : Params) (s : State) (p : Nat) (a : Int) (m : Int) (k : Nat)
    (b_moves rnd : Nat) (cmd args : List Nat)
    (hcmd : s.gtp_cmd = some p) (hp : p ≤ s.gtp_cmds.length)
    (hlast : s.last = some (m, k)) (hslot : (s.history m k).gtp_id = a)
    (hrow : m = move_number P a) (hk : k < MAX_CMDS_PER_MOVE)
    (hfirst : ∀ j, j < k → (s.history m j).gtp_id ≠ a) (ha : a ≠ -1) :
    ∃ s1, update_cmd P s b_moves rnd cmd args true = .ok s1 ∧
      s1.gtp_cmd = some p ∧
      (s1.gtp_id ≠ a →
        p + (cmd_text s1.gtp_id cmd args).length < P.CMDS_SIZE →
        s1.last ≠ some (m, k) →
        (¬ move_number P a > move_number P s1.gtp_id → next_command P s1 a = .ok p) ∧
        (move_number P a > move_number P s1.gtp_id → next_command P s1 a = .ok 0)) := by
  obtain ⟨s1, r1, a1, a2, a3, a4, a5, a6, a7, a8, a9, a10, a11⟩ :=
    update_cmd_fields P s p b_moves rnd cmd args true hcmd
  obtain ⟨s1', r1', hcarry⟩ := update_cmd_carries_id P s p b_moves rnd cmd args true hcmd hp
  rw [r1] at r1'
  injection r1' with r1'
  subst r1'
  simp only [if_true] at a1 a9 a10 a11
  refine ⟨s1, r1, a3, ?_⟩
  intro hne hfit hreuse
  have hcur : cmd_id_at s1 p = s1.gtp_id := by
    have := hcarry hfit
    unfold current_id at this
    rw [a3, Option.map_some'] at this
    injection this
  rw [a11] at hreuse
  have hnew : ¬ (m = (if P.is_reset (cstr cmd) = true then (0 : Int) else (b_moves : Int)) ∧
      k = (s.slot + 1) % MAX_CMDS_PER_MOVE) := by
    intro hc
    exact hreuse (by rw [hc.1, hc.2])
  constructor
  · intro hgt
    have hk_entry : s1.history m k = ⟨a, some p⟩ := by
      rw [a9, set_entry_other _ _ _ _ _ _ hnew, hlast]
      simp only
      rw [set_next_same, hslot]
    have hbefore : ∀ j, j < k → (s1.history m j).gtp_id ≠ a := by
      intro j hj
      rw [a9]
      by_cases hc : m = (if P.is_reset (cstr cmd) = true then (0 : Int) else (b_moves : Int)) ∧
          j = (s.slot + 1) % MAX_CMDS_PER_MOVE
      · rw [hc.1, hc.2, set_entry_same]
        exact hne
      · rw [set_entry_other _ _ _ _ _ _ hc, hlast]
        simp only
        rw [set_next_gtp_id]
        exact hfirst j hj
    have hs := scan_slots_first (s1.history (move_number P a)) a MAX_CMDS_PER_MOVE 0 k
      (Nat.zero_le _) (by omega) (by rw [← hrow, hk_entry])
      (fun j _ h2 => by rw [← hrow]; exact hbefore j h2)
    unfold next_command
    rw [if_neg ha]
    simp only [a3, hcur]
    rw [if_neg hgt]
    simp only [hs]
    rw [if_neg (by omega), ← hrow, hk_entry]
  · intro hgt
    unfold next_command
    rw [if_neg ha]
    simp only [a3, hcur]
    rw [if_pos hgt]

/-- C20, at an input where the code fails. A slave answers `=2000` while 1000 is
the id of the current command: the reply is out of sync and `last_reply_id`
becomes 2000, with `reply_slot` still `-1`; the loop then sends the text from the
base of `gtp_cmds`. Then `new_cmd` gives the next command the id 2000, distinct
from 1000, and the slave answers `=2000` again: the reply matches and is not taken
as a new one, so `process_reply` writes `gtp_replies[reply_slot]` with
`reply_slot = -1`, while `reply_count` is 0. -/
theorem reply_slot_minus_one :
    run_minus_one_first.toOption.map
      (fun r => (r.resend, r.last_reply_id, r.reply_slot,
        (choose_to_send P0 r.state r.resend r.last_reply_id 1).toOption)) =
      some (true, 2000, -1, some (.send 0)) ∧
    run_minus_one.toOption.map
      (fun r => (r.resend, r.last_reply_id, r.reply_slot, r.state.reply_count)) =
      some (false, 2000, -1, 0) ∧
    run_minus_one.toOption.map (fun r => (current_id r.state, r.state.gtp_replies (-1))) =
      some (some 2000, some 0) := by
  decide

/-- C19 as stated does not hold: the command 8005 of move 5 is current at offset
18, and `update_cmd` with `new_id` true publishes a command of move 3 in place.
The new id 4003 is not 8005, the new slot is slot 3 of row 3, and the slot of
8005, slot 2 of row 5, still holds 8005 with the successor 18; but
`next_command(8005)` is the base of `gtp_cmds` (offset `0`), not the position 18
of the overwriting command, because the move number of 8005 is greater than that
of the current id. -/
theorem overwritten_successor_counterexample :
    run_overwrite.toOption.map (fun s1 => (s1.gtp_cmd, s1.gtp_id, s1.last)) =
      some (some 18, 4003, some (3, 3)) ∧
    run_overwrite.toOption.map (fun s1 => (s1.history 5 2, (next_command P0 s1 8005).toOption)) =
      some (⟨8005, some 18⟩, some 0) := by
  decide

/-! ## `get_replies` -/

/-- The loop of `get_replies` returns only at a wake-up where it is to return,
the first one, and its final `assert` holds there. -/
theorem get_replies_loop_sound (debugl : Nat → Bool) (time_limit : Int) (ws : List WakeUp) :
    ∀ (k0 k : Nat) (t : Bool), (∀ w ∈ ws, 0 ≤ w.reply_count) →
      (get_replies_loop debugl time_limit k0 ws).1 = .returned k t →
      k0 ≤ k ∧ ∃ w, ws[k - k0]? = some w ∧ w.done time_limit = true ∧ 0 < w.reply_count ∧
        (t = true ↔ w.reply_count < w.active_slaves) ∧
        ∀ (j : Nat) (v : WakeUp), j < k - k0 → ws[j]? = some v → v.done time_limit = false := by
  induction ws with
  | nil =>
    intro k0 k t _ h
    simp [get_replies_loop] at h
  | cons w ws ih =>
    intro k0 k t hnn h
    have hw : 0 ≤ w.reply_count := hnn w (List.mem_cons_self _ _)
    have hrest : ∀ v ∈ ws, 0 ≤ v.reply_count := fun v hv => hnn v (List.mem_cons_of_mem _ hv)
    have hcont : (get_replies_loop debugl time_limit (k0 + 1) ws).1 = .returned k t →
        w.done time_limit = false →
        k0 ≤ k ∧ ∃ w1, (w :: ws)[k - k0]? = some w1 ∧ w1.done time_limit = true ∧
          0 < w1.reply_count ∧ (t = true ↔ w1.reply_count < w1.active_slaves) ∧
          ∀ (j : Nat) (v : WakeUp), j < k - k0 → (w :: ws)[j]? = some v →
            v.done time_limit = false := by
      intro h1 hd
      obtain ⟨hk, w1, e1, e2, e3, e4, e5⟩ := ih (k0 + 1) k t hrest h1
      have hkk : k - k0 = (k - (k0 + 1)) + 1 := by omega
      refine ⟨by omega, w1, ?_, e2, e3, e4, ?_⟩
      · rw [hkk, List.getElem?_cons_succ]
        exact e1
      · intro j v hj hv
        cases j with
        | zero =>
          simp only [List.getElem?_cons_zero, Option.some.injEq] at hv
          rw [← hv]
          exact hd
        | succ j =>
          rw [List.getElem?_cons_succ] at hv
          exact e5 j v (by omega) hv
    unfold get_replies_loop at h
    by_cases h0 : w.reply_count = 0
    · rw [if_pos h0] at h
      exact hcont h (by simp [WakeUp.done, h0])
    · rw [if_neg h0] at h
      have hpos : 0 < w.reply_count := by omega
      by_cases hall : w.reply_count ≥ w.active_slaves
      · rw [if_pos hall] at h
        simp only [Waited.returned.injEq] at h
        obtain ⟨hk, ht⟩ := h
        subst hk
        refine ⟨Nat.le_refl _, w, by simp, by simp [WakeUp.done, hpos, hall], hpos, ?_, ?_⟩
        · rw [← ht]
          simp
          omega
        · intro j v hj
          omega
      · rw [if_neg hall] at h
        by_cases htime : w.now ≥ time_limit
        · rw [if_pos htime, if_pos hpos] at h
          simp only [Waited.returned.injEq] at h
          obtain ⟨hk, ht⟩ := h
          subst hk
          refine ⟨Nat.le_refl _, w, by simp, by simp [WakeUp.done, hpos, htime], hpos, ?_, ?_⟩
          · rw [← ht]
            simp
            omega
          · intro j v hj
            omega
        · rw [if_neg htime] at h
          exact hcont h (by simp [WakeUp.done, hall, htime])

/-- The loop of `get_replies` returns at the first wake-up where it is to return,
waits on when there is none, and its final `assert` never fails. -/
theorem get_replies_loop_complete (debugl : Nat → Bool) (time_limit : Int) (ws : List WakeUp) :
    ∀ (k0 : Nat), (∀ w ∈ ws, 0 ≤ w.reply_count) →
      (∀ (i : Nat) (w : WakeUp), ws[i]? = some w → w.done time_limit = true →
        (∀ (j : Nat) (v : WakeUp), j < i → ws[j]? = some v → v.done time_limit = false) →
        ∃ t, (get_replies_loop debugl time_limit k0 ws).1 = .returned (k0 + i) t) ∧
      ((∀ w ∈ ws, w.done time_limit = false) →
        (get_replies_loop debugl time_limit k0 ws).1 = .blocked) ∧
      (∀ k, (get_replies_loop debugl time_limit k0 ws).1 ≠ .assert_failed k) := by
  induction ws with
  | nil =>
    intro k0 _
    refine ⟨?_, fun _ => rfl, ?_⟩
    · intro i w hi
      simp at hi
    · intro k
      simp [get_replies_loop]
  | cons w ws ih =>
    intro k0 hnn
    have hw : 0 ≤ w.reply_count := hnn w (List.mem_cons_self _ _)
    have hrest : ∀ v ∈ ws, 0 ≤ v.reply_count := fun v hv => hnn v (List.mem_cons_of_mem _ hv)
    obtain ⟨i1, i2, i3⟩ := ih (k0 + 1) hrest
    by_cases hd : w.done time_limit = true
    · have hpos : 0 < w.reply_count := by
        simp only [WakeUp.done, Bool.and_eq_true, decide_eq_true_eq] at hd
        exact hd.1
      have hret : ∃ t, (get_replies_loop debugl time_limit k0 (w :: ws)).1 = .returned k0 t := by
        unfold get_replies_loop
        rw [if_neg (by omega)]
        by_cases hall : w.reply_count ≥ w.active_slaves
        · rw [if_pos hall]
          exact ⟨false, rfl⟩
        · rw [if_neg hall]
          have htime : w.now ≥ time_limit := by
            simp only [WakeUp.done, Bool.and_eq_true, decide_eq_true_eq, Bool.or_eq_true] at hd
            rcases hd.2 with h | h
            · exact absurd h hall
            · exact h
          rw [if_pos htime, if_pos hpos]
          exact ⟨true, rfl⟩
      obtain ⟨t, ht⟩ := hret
      refine ⟨?_, ?_, ?_⟩
      · intro i v hi hv hbefore
        cases i with
        | zero => exact ⟨t, ht⟩
        | succ i =>
          have := hbefore 0 w (by omega) (by simp)
          rw [hd] at this
          exact absurd this (by decide)
      · intro hnone
        have := hnone w (List.mem_cons_self _ _)
        rw [hd] at this
        exact absurd this (by decide)
      · intro k
        rw [ht]
        simp
    · have hd0 : w.done time_limit = false := by simpa using hd
      have hstep : (get_replies_loop debugl time_limit k0 (w :: ws)).1 =
          (get_replies_loop debugl time_limit (k0 + 1) ws).1 := by
        conv_lhs => unfold get_replies_loop
        by_cases h0 : w.reply_count = 0
        · rw [if_pos h0]
        · rw [if_neg h0]
          have hpos : 0 < w.reply_count := by omega
          simp only [WakeUp.done, hpos, decide_True, Bool.true_and, Bool.or_eq_false_iff,
            decide_eq_false_iff_not] at hd0
          rw [if_neg hd0.1, if_neg hd0.2]
      rw [hstep]
      refine ⟨?_, ?_, i3⟩
      · intro i v hi hv hbefore
        cases i with
        | zero =>
          simp only [List.getElem?_cons_zero, Option.some.injEq] at hi
          rw [← hi, hd0] at hv
          exact absurd hv (by decide)
        | succ i =>
          rw [List.getElem?_cons_succ] at hi
          obtain ⟨t, ht⟩ := i1 i v hi hv (fun j u hj hu => hbefore (j + 1) u (by omega)
            (by rw [List.getElem?_cons_succ]; exact hu))
          refine ⟨t, ?_⟩
          rw [ht]
          congr 1
          omega
      · intro hnone
        exact i2 (fun v hv => hnone v (List.mem_cons_of_mem _ hv))

/-- C15. The function `get_replies` over the wake-ups of its waits, none with a
negative `reply_count`: it returns at the first wake-up with `reply_count > 0` and
(`reply_count >= active_slaves` or `time_now() >= time_limit`); when it returns,
it is at such a wake-up, no earlier wake-up is such a one, `reply_count > 0`
holds there, and it has left its loop by `break` exactly when `reply_count` is
less than `active_slaves`; it waits on when no wake-up is such a one, in
particular while `reply_count` is 0, whatever the time; its final `assert` never
fails. -/
theorem get_replies_first_done (debugl : Nat → Bool) (time_limit : Int) (wakes : List WakeUp)
    (hnn : ∀ w ∈ wakes, 0 ≤ w.reply_count) :
    (∀ (i : Nat) (w : WakeUp), wakes[i]? = some w → w.done time_limit = true →
      (∀ (j : Nat) (v : WakeUp), j < i → wakes[j]? = some v → v.done time_limit = false) →
      ∃ t, (get_replies debugl time_limit wakes).1 = .returned i t) ∧
    (∀ (k : Nat) (t : Bool), (get_replies debugl time_limit wakes).1 = .returned k t →
      ∃ w, wakes[k]? = some w ∧ w.done time_limit = true ∧ 0 < w.reply_count ∧
        (t = true ↔ w.reply_count < w.active_slaves) ∧
        ∀ (j : Nat) (v : WakeUp), j < k → wakes[j]? = some v → v.done time_limit = false) ∧
    ((∀ w ∈ wakes, w.done time_limit = false) →
      (get_replies debugl time_limit wakes).1 = .blocked) ∧
    ((∀ w ∈ wakes, w.reply_count = 0) →
      (get_replies debugl time_limit wakes).1 = .blocked) ∧
    (∀ k, (get_replies debugl time_limit wakes).1 ≠ .assert_failed k) := by
  obtain ⟨c1, c2, c3⟩ := get_replies_loop_complete debugl time_limit wakes 0 hnn
  refine ⟨?_, ?_, c2, ?_, c3⟩
  · intro i w hi hw hbefore
    obtain ⟨t, ht⟩ := c1 i w hi hw hbefore
    exact ⟨t, by simpa [get_replies] using ht⟩
  · intro k t h
    obtain ⟨_, w, e1, e2, e3, e4, e5⟩ := get_replies_loop_sound debugl time_limit wakes 0 k t hnn h
    exact ⟨w, e1, e2, e3, e4, e5⟩
  · intro hzero
    apply c2
    intro w hw
    simp [WakeUp.done, hzero w hw]

/-! ## `get_reply` -/

/-- A full line is some bytes other than newline, at least one, and a newline. -/
theorem full_line_shape (l : List Nat) (h : full_line l = true) :
    ∃ body, body ≠ [] ∧ (∀ x ∈ body, x ≠ 10) ∧ l = body ++ [10] := by
  simp only [full_line, Bool.and_eq_true, decide_eq_true_eq, Bool.not_eq_true',
    beq_iff_eq] at h
  obtain ⟨⟨hlen, hlast⟩, hno⟩ := h
  have hne : l ≠ [] := by
    intro e
    rw [e] at hlen
    simp at hlen
  have hl : l = l.dropLast ++ [10] := by
    have h1 := List.dropLast_append_getLast? 10 (by simpa using hlast)
    exact h1.symm
  refine ⟨l.dropLast, ?_, ?_, hl⟩
  · intro e
    have : l.dropLast.length = 0 := by rw [e]; rfl
    rw [List.length_dropLast] at this
    omega
  · intro x hx e
    rw [e] at hx
    have : l.dropLast.contains 10 = true := by simpa using hx
    rw [hno] at this
    exact absurd this (by decide)

/-- The call `fgets` reads a line whole when it fits. -/
theorem read_line_full (body : List Nat) : ∀ (k : Nat) (rest : List Nat),
    (∀ x ∈ body, x ≠ 10) → body.length < k →
    read_line k (body ++ 10 :: rest) = (body ++ [10], rest) := by
  induction body with
  | nil =>
    intro k rest _ hk
    cases k with
    | zero => omega
    | succ k => simp [read_line]
  | cons c cs ih =>
    intro k rest hno hk
    cases k with
    | zero => omega
    | succ k =>
      have hc : c ≠ 10 := hno c (List.mem_cons_self _ _)
      have := ih k rest (fun x hx => hno x (List.mem_cons_of_mem _ hx))
        (by simp only [List.length_cons] at hk; omega)
      simp [read_line, hc, this]

/-- The call `fgets` reads what is left of a stream with no newline when it fits. -/
theorem read_line_end (u : List Nat) : ∀ (k : Nat),
    (∀ x ∈ u, x ≠ 10) → u.length ≤ k → read_line k u = (u, []) := by
  induction u with
  | nil =>
    intro k _ _
    cases k <;> rfl
  | cons c cs ih =>
    intro k hno hk
    cases k with
    | zero => simp at hk
    | succ k =>
      have hc : c ≠ 10 := hno c (List.mem_cons_self _ _)
      have := ih k (fun x hx => hno x (List.mem_cons_of_mem _ hx))
        (by simp only [List.length_cons] at hk; omega)
      simp [read_line, hc, this]

/-- The length of a C string is at most the length of the bytes. -/
theorem strlen_le (l : List Nat) : strlen l ≤ l.length := by
  unfold strlen cstr
  exact (List.takeWhile_sublist _).length_le

/-- The function `atoi` on a text that starts with a digit gives no negative number. -/
theorem atoi_nonneg_of_digit (l : List Nat) (h : isdigit (l.headD 0) = true) : 0 ≤ atoi l := by
  cases l with
  | nil => simp [isdigit] at h
  | cons c cs =>
    simp only [List.headD_cons] at h
    have hsp : isspace c = false := by
      simp only [isdigit, Bool.and_eq_true, decide_eq_true_eq] at h
      simp only [isspace, Bool.or_eq_false_iff, beq_eq_false_iff_ne, ne_eq, Bool.and_eq_false_iff,
        decide_eq_false_iff_not]
      omega
    have h45 : c ≠ 45 := by
      simp only [isdigit, Bool.and_eq_true, decide_eq_true_eq] at h
      omega
    have h43 : c ≠ 43 := by
      simp only [isdigit, Bool.and_eq_true, decide_eq_true_eq] at h
      omega
    unfold atoi
    rw [List.dropWhile_cons_of_neg (by simp [hsp])]
    split
    · rename_i cs1 heq
      simp only [List.cons.injEq] at heq
      exact absurd heq.1 h45
    · rename_i cs1 heq
      simp only [List.cons.injEq] at heq
      exact absurd heq.1 h43
    · exact Int.ofNat_nonneg _

/-- The call `atoi` returns the number it reads when that is within the range of
`int`. -/
theorem atoi_int_eq (l : List Nat) (h0 : 0 ≤ atoi l) (h1 : atoi l < 2147483648) :
    atoi_int l = atoi l := by
  unfold atoi_int
  rw [min_eq_right (by omega), max_eq_right (by omega)]
  omega

/-- The id of the first line with an id is `-1`, when no line has one, or not
negative. -/
theorem first_id_nonneg (lines : List (List Nat)) : first_id lines = -1 ∨ 0 ≤ first_id lines := by
  induction lines with
  | nil => exact Or.inl rfl
  | cons l ls ih =>
    unfold first_id
    by_cases hid : is_id_line l = true
    · rw [if_pos hid]
      right
      simp only [is_id_line, Bool.and_eq_true] at hid
      exact atoi_nonneg_of_digit _ hid.2
    · rw [if_neg hid]
      exact ih

/-- The loop of `get_reply` over full lines that fit the buffer: it comes to what
follows them; when it held no id or an id that is not negative, and the number of
the first line with an id is within the range of `int`, it then holds the id of
that line when it held none, and the id it held otherwise. -/
theorem get_reply_loop_lines (lines : List (List Nat)) :
    ∀ (fuel room : Nat) (rid : Int) (rest : List Nat),
      (∀ l ∈ lines, full_line l = true) → lines.flatten.length + 2 ≤ room →
      ∃ room1 rid1, room ≤ room1 + lines.flatten.length ∧
        get_reply_loop (lines.length + fuel) room rid (lines.flatten ++ rest) =
          get_reply_loop fuel room1 rid1 rest ∧
        ((rid = -1 ∨ 0 ≤ rid) → (rid < 0 → first_id_fits lines = true) →
          rid1 = if rid < 0 then first_id lines else rid) := by
  induction lines with
  | nil =>
    intro fuel room rid rest _ _
    refine ⟨room, rid, by simp, by simp, ?_⟩
    intro hrid _
    rcases hrid with h | h
    · subst h
      simp [first_id]
    · have : ¬ rid < 0 := by omega
      simp [this]
  | cons l ls ih =>
    intro fuel room rid rest hfull hfit
    obtain ⟨body, hne, hno, hl⟩ := full_line_shape l (hfull l (List.mem_cons_self _ _))
    have hrest : ∀ x ∈ ls, full_line x = true := fun x hx => hfull x (List.mem_cons_of_mem _ hx)
    simp only [List.flatten_cons, List.length_append] at hfit
    have hlen : l.length = body.length + 1 := by rw [hl]; simp
    obtain ⟨b, bs, hb⟩ := List.exists_cons_of_ne_nil hne
    have hb10 : b ≠ 10 := hno b (by rw [hb]; exact List.mem_cons_self _ _)
    have hhead : l.headD 0 = b := by rw [hl, hb]; rfl
    have hfg : fgets room (l ++ (ls.flatten ++ rest)) = some (l, ls.flatten ++ rest) := by
      have hr := read_line_full body (room - 1) (ls.flatten ++ rest) hno (by omega)
      have e : l ++ (ls.flatten ++ rest) = b :: (bs ++ 10 :: (ls.flatten ++ rest)) := by
        rw [hl, hb]; simp
      rw [hb] at hr
      simp only [List.cons_append] at hr
      unfold fgets
      rw [if_neg (by omega), e]
      simp only
      rw [hr, hl, hb]
      simp
    have hsl := strlen_le l
    set rid1 : Int := if rid < 0 ∧ (l.headD 0 = 61 ∨ l.headD 0 = 63) ∧
        isdigit ((l.drop 1).headD 0) = true then atoi_int (l.drop 1) else rid with hrid1
    have hstep : get_reply_loop ((l :: ls).length + fuel) room rid
        ((l :: ls).flatten ++ rest) =
        get_reply_loop (ls.length + fuel) (room - strlen l) rid1 (ls.flatten ++ rest) := by
      have e1 : (l :: ls).length + fuel = (ls.length + fuel) + 1 := by
        simp only [List.length_cons]; omega
      rw [e1, List.flatten_cons, List.append_assoc]
      conv_lhs => unfold get_reply_loop
      rw [hfg]
      simp only
      rw [if_neg (by rw [hhead]; exact hb10)]
    obtain ⟨room1, rid2, hroom1, hgo, hid2⟩ := ih fuel (room - strlen l) rid1 rest hrest (by omega)
    refine ⟨room1, rid2, ?_, by rw [hstep, hgo], ?_⟩
    · simp only [List.flatten_cons, List.length_append]
      omega
    · intro hrid hfits
      have hcons : first_id (l :: ls) =
          if is_id_line l = true then atoi (l.drop 1) else first_id ls := rfl
      have hfcons : first_id_fits (l :: ls) =
          if is_id_line l = true then decide (atoi (l.drop 1) < 2147483648)
          else first_id_fits ls := rfl
      by_cases hneg : rid < 0
      · rw [if_pos hneg, hcons]
        have hf := hfits hneg
        rw [hfcons] at hf
        by_cases hid : is_id_line l = true
        · rw [if_pos hid] at hf ⊢
          have hc : (l.headD 0 = 61 ∨ l.headD 0 = 63) ∧ isdigit ((l.drop 1).headD 0) = true := by
            simpa [is_id_line] using hid
          have h0 := atoi_nonneg_of_digit _ hc.2
          have e : rid1 = atoi (l.drop 1) := by
            rw [hrid1, if_pos ⟨hneg, hc⟩]
            exact atoi_int_eq _ h0 (by simpa using hf)
          have := hid2 (Or.inr (by rw [e]; exact h0)) (fun h => by rw [e] at h; omega)
          rw [this, e, if_neg (by omega)]
        · rw [if_neg hid] at hf ⊢
          have hc : ¬ (rid < 0 ∧ (l.headD 0 = 61 ∨ l.headD 0 = 63) ∧
              isdigit ((l.drop 1).headD 0) = true) := by
            intro hc
            apply hid
            simpa [is_id_line] using hc.2
          have e : rid1 = rid := by rw [hrid1, if_neg hc]
          have := hid2 (by rw [e]; exact hrid) (fun _ => hf)
          rw [this, e, if_pos hneg]
      · rw [if_neg hneg]
        have e : rid1 = rid := by
          rw [hrid1, if_neg (fun hc => hneg hc.1)]
        have := hid2 (by rw [e]; exact hrid) (fun h => by rw [e] at h; exact absurd h hneg)
        rw [this, e, if_neg hneg]

/-- The loop of `get_reply` returns the id it holds at the empty line. -/
theorem get_reply_loop_terminator (fuel room : Nat) (rid : Int) (tail : List Nat)
    (hroom : 2 ≤ room) :
    get_reply_loop (fuel + 1) room rid (10 :: tail) = some rid := by
  unfold get_reply_loop fgets
  rw [if_neg (by omega)]
  obtain ⟨k, hk⟩ : ∃ k, room - 1 = k + 1 := ⟨room - 2, by omega⟩
  simp [hk, read_line]

/-- The loop of `get_reply` returns `-1` when the stream ends with no empty line. -/
theorem get_reply_loop_eof (fuel room : Nat) (rid : Int) (u : List Nat)
    (hno : ∀ x ∈ u, x ≠ 10) (hroom : u.length + 2 ≤ room) :
    get_reply_loop (fuel + 2) room rid u = some (-1) := by
  cases u with
  | nil =>
    unfold get_reply_loop fgets
    rw [if_neg (by omega)]
  | cons c cs =>
    have hc : c ≠ 10 := hno c (List.mem_cons_self _ _)
    have hfg : fgets room (c :: cs) = some (c :: cs, []) := by
      unfold fgets
      rw [if_neg (by omega)]
      simp only
      rw [read_line_end (c :: cs) (room - 1) hno (by omega)]
    have hsl := strlen_le (c :: cs)
    unfold get_reply_loop
    rw [hfg]
    simp only [List.headD_cons]
    rw [if_neg hc]
    unfold get_reply_loop fgets
    rw [if_neg (by omega)]

/-- The loop of `get_reply` never ends once the buffer is full: `fgets` then
stores the empty string and reads nothing. -/
theorem get_reply_loop_spins (fuel : Nat) : ∀ (room : Nat) (rid : Int) (stream : List Nat),
    room ≤ 1 → get_reply_loop fuel room rid stream = none := by
  induction fuel with
  | zero =>
    intro room rid stream _
    rfl
  | succ fuel ih =>
    intro room rid stream hroom
    unfold get_reply_loop fgets
    rw [if_pos hroom]
    simp only [List.headD_nil]
    rw [if_neg (by decide)]
    exact ih _ _ _ (by simp [strlen, cstr]; omega)

/-- C14, as the code has it. For a stream of full lines (each some bytes other
than newline, at least one, and a newline) that fits the buffer of `CMDS_SIZE`
bytes with two bytes to spare, and enough passes of the loop: when the stream
ends after the lines, or after some more bytes with no newline, `get_reply`
returns `-1`; when an empty line follows the lines and the decimal number of the
first line that starts with `=` or `?` and a digit is within the range of `int`,
`get_reply` returns the id of that line, which is `-1` when no line is such a
one. The id is the number read by `atoi` behind the first byte of that line, it
is not negative, and it is returned whatever the lines after that line are. -/
theorem get_reply_first_id (P : Params) (lines : List (List Nat)) (u tail : List Nat)
    (fuel : Nat)
    (hfull : ∀ l ∈ lines, full_line l = true)
    (hu : ∀ x ∈ u, x ≠ 10)
    (hfit : lines.flatten.length + u.length + 2 ≤ P.CMDS_SIZE)
    (hfuel : lines.length + 2 ≤ fuel) :
    (first_id_fits lines = true →
      get_reply P fuel (lines.flatten ++ 10 :: tail) = some (first_id lines)) ∧
    get_reply P fuel (lines.flatten ++ u) = some (-1) ∧
    (∀ (pre post : List (List Nat)) (l : List Nat), lines = pre ++ l :: post →
      (∀ x ∈ pre, is_id_line x = false) → is_id_line l = true →
      first_id lines = atoi (l.drop 1) ∧ 0 ≤ first_id lines ∧
      (first_id_fits lines = true ↔ atoi (l.drop 1) < 2147483648) ∧
      (atoi (l.drop 1) < 2147483648 →
        get_reply P fuel (lines.flatten ++ 10 :: tail) = some (atoi (l.drop 1)))) ∧
    ((∀ x ∈ lines, is_id_line x = false) →
      first_id lines = -1 ∧ first_id_fits lines = true) := by
  obtain ⟨f, hf⟩ : ∃ f, fuel = lines.length + (f + 2) := ⟨fuel - lines.length - 2, by omega⟩
  have hret : first_id_fits lines = true →
      get_reply P fuel (lines.flatten ++ 10 :: tail) = some (first_id lines) := by
    intro hfits
    obtain ⟨room1, rid1, hroom1, hgo, hid⟩ := get_reply_loop_lines lines (f + 2) P.CMDS_SIZE (-1)
      (10 :: tail) hfull (by omega)
    unfold get_reply
    rw [hf, hgo, get_reply_loop_terminator (f + 1) room1 _ tail (by omega),
      hid (Or.inl rfl) (fun _ => hfits)]
    simp
  refine ⟨hret, ?_, ?_, ?_⟩
  · obtain ⟨room1, rid1, hroom1, hgo, _⟩ := get_reply_loop_lines lines (f + 2) P.CMDS_SIZE (-1)
      u hfull (by omega)
    unfold get_reply
    rw [hf, hgo, get_reply_loop_eof f room1 _ u hu (by omega)]
  · intro pre post l hl hpre hid
    have key : first_id lines = atoi (l.drop 1) ∧
        (first_id_fits lines = true ↔ atoi (l.drop 1) < 2147483648) := by
      rw [hl]
      clear hl hret
      induction pre with
      | nil => simp [first_id, first_id_fits, hid]
      | cons x xs ih =>
        have hx : is_id_line x = false := hpre x (List.mem_cons_self _ _)
        simp only [List.cons_append, first_id, first_id_fits, hx]
        simpa using ih (fun y hy => hpre y (List.mem_cons_of_mem _ hy))
    refine ⟨key.1, ?_, key.2, ?_⟩
    · rw [key.1]
      simp only [is_id_line, Bool.and_eq_true] at hid
      exact atoi_nonneg_of_digit _ hid.2
    · intro hb
      rw [hret (key.2.mpr hb), key.1]
  · intro hnone
    clear hfull hfit hfuel hf hret
    induction lines with
    | nil => exact ⟨rfl, rfl⟩
    | cons x xs ih =>
      have hx : is_id_line x = false := hnone x (List.mem_cons_self _ _)
      simp only [first_id, first_id_fits, hx]
      simpa using ih (fun y hy => hnone y (List.mem_cons_of_mem _ hy))

/-- C14 as stated does not hold. When the first line of the reply has no id, a
later line gives it: the replies x, =5, empty line and x, =6, empty line differ in
the second line only, and `get_reply` returns 5 for one and 6 for the other; the
same holds when the first line starts with `=` and no digit follows. And the
number behind `=` goes through the `int` `reply_id`: the reply =4294967295 gives
`-1`, the reply =2147483648 gives a negative id, and after such a first line the
id of a later line is returned, here 7. -/
theorem get_reply_later_line :
    get_reply P0 8 [120, 10, 61, 53, 10, 10] = some 5 ∧
    get_reply P0 8 [120, 10, 61, 54, 10, 10] = some 6 ∧
    get_reply P0 8 [61, 120, 10, 61, 53, 10, 10] = some 5 ∧
    get_reply P0 8 ([61, 52, 50, 57, 52, 57, 54, 55, 50, 57, 53, 10] ++ [10]) = some (-1) ∧
    get_reply P0 8 ([61, 50, 49, 52, 55, 52, 56, 51, 54, 52, 56, 10] ++ [10]) =
      some (-2147483648) ∧
    get_reply P0 8 ([61, 50, 49, 52, 55, 52, 56, 51, 54, 52, 56, 10] ++ [61, 55, 10] ++ [10]) =
      some 7 := by
  decide

/-! ## The two locks -/

/-- The check of a run goes through its parts. -/
theorem log_outside_lock_append (a b : List LockEvent) : ∀ (held : Bool),
    log_outside_lock held (a ++ b) =
      (log_outside_lock held a && log_outside_lock (held_after held a) b) := by
  induction a with
  | nil =>
    intro held
    simp [log_outside_lock, held_after]
  | cons e es ih =>
    intro held
    cases e with
    | lock_slave => simp [log_outside_lock, held_after, ih]
    | unlock_slave => simp [log_outside_lock, held_after, ih]
    | log => simp [log_outside_lock, held_after, ih, Bool.and_assoc]

/-- Whether the lock is held after a run goes through its parts. -/
theorem held_after_append (a b : List LockEvent) : ∀ (held : Bool),
    held_after held (a ++ b) = held_after (held_after held a) b := by
  induction a with
  | nil =>
    intro held
    rfl
  | cons e es ih =>
    intro held
    cases e <;> simp [held_after, ih]

/-- Calls of `logline` alone are in order when `slave_lock` is not held, and they
do not take it. -/
theorem logs_outside (es : List LockEvent) (h : ∀ e ∈ es, e = LockEvent.log) :
    log_outside_lock false es = true ∧ held_after false es = false := by
  induction es with
  | nil => exact ⟨rfl, rfl⟩
  | cons e es ih =>
    have he := h e (List.mem_cons_self _ _)
    subst he
    have := ih (fun x hx => h x (List.mem_cons_of_mem _ hx))
    simp [log_outside_lock, held_after, this]

/-- The function `send_command` logs only after it has released `slave_lock`, and
holds the lock again at its end. -/
theorem send_command_log_lock (debugl : Nat → Bool) (resend : Bool) (reply_logs : Nat)
    (held : Bool) :
    log_outside_lock held (send_command_events debugl resend reply_logs) = true ∧
    held_after held (send_command_events debugl resend reply_logs) = true := by
  have hmid : ∀ e ∈ (if (debugl 1 && resend) = true then [LockEvent.log] else []) ++
      (if debugl 2 = true then [LockEvent.log] else []) ++
      List.replicate reply_logs LockEvent.log, e = LockEvent.log := by
    intro e he
    simp only [List.mem_append, List.mem_replicate] at he
    rcases he with (he | he) | he
    · split at he <;> simp_all
    · split at he <;> simp_all
    · exact he.2
  obtain ⟨h1, h2⟩ := logs_outside _ hmid
  have e : send_command_events debugl resend reply_logs =
      [LockEvent.unlock_slave] ++ (((if (debugl 1 && resend) = true then [LockEvent.log] else []) ++
      (if debugl 2 = true then [LockEvent.log] else []) ++
      List.replicate reply_logs LockEvent.log) ++ [LockEvent.lock_slave]) := by
    simp [send_command_events]
  rw [e]
  constructor
  · rw [List.singleton_append, log_outside_lock, log_outside_lock_append, h1, h2]
    rfl
  · rw [List.singleton_append, held_after, held_after_append, h2]
    rfl

/-- The waits of `slave_loop` on `cmd_cond` call no `logline`, and the lock is held
after them. -/
theorem waits_log_lock (n : Nat) :
    log_outside_lock true
      (List.replicate n [LockEvent.unlock_slave, LockEvent.lock_slave]).flatten = true ∧
    held_after true
      (List.replicate n [LockEvent.unlock_slave, LockEvent.lock_slave]).flatten = true := by
  induction n with
  | zero => exact ⟨rfl, rfl⟩
  | succ n ih =>
    simp only [List.replicate_succ, List.flatten_cons, List.cons_append, List.nil_append,
      log_outside_lock, held_after]
    exact ih

/-- The function `slave_loop`, entered with `slave_lock` held, never logs while it
holds the lock, and holds it when it returns. -/
theorem slave_loop_log_lock (debugl : Nat → Bool) (passes : List LoopPass) :
    log_outside_lock true (slave_loop_events debugl passes) = true ∧
    held_after true (slave_loop_events debugl passes) = true := by
  induction passes with
  | nil => exact ⟨rfl, rfl⟩
  | cons q qs ih =>
    obtain ⟨w1, w2⟩ := waits_log_lock q.waits
    obtain ⟨s1, s2⟩ := send_command_log_lock debugl q.resend q.reply_logs true
    unfold slave_loop_events
    constructor
    · rw [log_outside_lock_append, log_outside_lock_append, held_after_append, w1, w2, s1, s2,
        ih.1]
      rfl
    · rw [held_after_append, held_after_append, w2, s2, ih.2]

/-- A pass of the loop of `slave_thread` never logs while it holds `slave_lock`. -/
theorem slave_thread_log_lock (debugl : Nat → Bool) (good : Bool) (passes : List LoopPass) :
    log_outside_lock false (slave_thread_events debugl good passes) = true := by
  obtain ⟨l1, l2⟩ := slave_loop_log_lock debugl passes
  have hd : ∀ e ∈ (if debugl 2 = true then [LockEvent.log] else []), e = LockEvent.log := by
    intro e he
    split at he <;> simp_all
  obtain ⟨d1, d2⟩ := logs_outside _ hd
  unfold slave_thread_events
  rw [log_outside_lock_append, d1, d2]
  cases good with
  | true =>
    simp only [if_true, Bool.true_and]
    rw [List.append_assoc, List.append_assoc, List.singleton_append, log_outside_lock,
      log_outside_lock_append, l1, l2, List.singleton_append, log_outside_lock, d1]
    rfl
  | false => rfl

/-- The function `get_replies` calls `logline` with `slave_lock` held exactly when
it leaves its loop at the time limit and `DEBUGL(1)` holds. -/
theorem get_replies_loop_log_lock (debugl : Nat → Bool) (time_limit : Int)
    (ws : List WakeUp) : ∀ (k0 : Nat) (held : Bool),
    (debugl 1 = false →
      log_outside_lock held (get_replies_loop debugl time_limit k0 ws).2 = true) ∧
    (∀ k, (get_replies_loop debugl time_limit k0 ws).1 = .returned k false →
      log_outside_lock held (get_replies_loop debugl time_limit k0 ws).2 = true) ∧
    ((get_replies_loop debugl time_limit k0 ws).1 = .blocked →
      log_outside_lock held (get_replies_loop debugl time_limit k0 ws).2 = true) ∧
    (debugl 1 = true →
      ∀ k, (get_replies_loop debugl time_limit k0 ws).1 = .returned k true →
        log_outside_lock held (get_replies_loop debugl time_limit k0 ws).2 = false) := by
  induction ws with
  | nil =>
    intro k0 held
    simp [get_replies_loop, log_outside_lock]
  | cons w ws ih =>
    intro k0 held
    obtain ⟨i1, i2, i3, i4⟩ := ih (k0 + 1) true
    unfold get_replies_loop
    by_cases h0 : w.reply_count = 0
    · simp only [if_pos h0, log_outside_lock]
      exact ⟨i1, i2, i3, i4⟩
    · simp only [if_neg h0]
      by_cases hall : w.reply_count ≥ w.active_slaves
      · simp [if_pos hall, log_outside_lock]
      · simp only [if_neg hall]
        by_cases htime : w.now ≥ time_limit
        · simp only [if_pos htime]
          by_cases hd : debugl 1 = true
          · by_cases hpos : 0 < w.reply_count <;> simp [hd, hpos, log_outside_lock]
          · by_cases hpos : 0 < w.reply_count <;> simp [hd, hpos, log_outside_lock]
        · simp only [if_neg htime, log_outside_lock]
          exact ⟨i1, i2, i3, i4⟩

/-- C18, at an input where the code fails. At debug level 1, with two active
slaves and the time limit 10, `get_replies` wakes up once with no reply and then
at time 10 with one reply: it leaves its loop by `break` and calls `logline`,
which takes `log_lock`, after the wake-up has taken `slave_lock` again, so the log
lock is taken while `slave_lock` is held. -/
theorem get_replies_logs_under_lock :
    get_replies debug_level_1 10 [⟨0, 2, 3⟩, ⟨1, 2, 10⟩] =
      (.returned 1 true, [.unlock_slave, .lock_slave, .unlock_slave, .lock_slave, .log]) ∧
    log_outside_lock true
      (get_replies debug_level_1 10 [⟨0, 2, 3⟩, ⟨1, 2, 10⟩]).2 = false ∧
    held_after true [LockEvent.unlock_slave, .lock_slave, .unlock_slave, .lock_slave] = true := by
  decide

/-! ## Uses of the theorems at concrete inputs -/

/-- A use of `republish_in_place`: on the command of `demo_state`, play b a1 with a
new id and then play with no arguments in place, against play with no arguments
with a new id. -/
theorem republish_in_place_witness :
    ∃ s1 s2 s3,
      update_cmd P0 demo_state 0 2 w_play a_b_a1 true = .ok s1 ∧
      update_cmd P0 s1 0 2 w_play [] false = .ok s2 ∧
      update_cmd P0 demo_state 0 2 w_play [] true = .ok s3 ∧
      cstr (s2.gtp_cmds.drop 0) = cstr (s3.gtp_cmds.drop 0) ∧
      s2.gtp_cmds.take 0 = s3.gtp_cmds.take 0 ∧
      s2.gtp_cmd = some 0 ∧ s3.gtp_cmd = some 0 ∧
      s2.gtp_id = s3.gtp_id ∧
      current_id s2 = current_id s3 ∧
      s2.history = s3.history ∧
      s2.reply_count = s3.reply_count ∧
      s2.gtp_replies = s3.gtp_replies ∧
      s2.reply_bufs = s3.reply_bufs ∧
      s2.active_slaves = s3.active_slaves ∧
      s2.slot = s3.slot ∧ s2.last = s3.last ∧
      s2.cmd_count = demo_state.cmd_count + 2 ∧ s3.cmd_count = demo_state.cmd_count + 1 :=
  republish_in_place P0 demo_state 0 0 2 0 2 w_play a_b_a1 [] rfl (Nat.zero_le _)

/-- A use of `refresh_frame`: the command of `demo_state` is refreshed as
play b a1. -/
theorem refresh_frame_witness :
    ∃ s1, update_cmd P0 demo_state 0 2 w_play a_b_a1 false = .ok s1 ∧
      s1.cmd_count = demo_state.cmd_count + 1 ∧
      s1.gtp_cmd = demo_state.gtp_cmd ∧
      s1.gtp_id = demo_state.gtp_id ∧
      s1.history = demo_state.history ∧
      s1.reply_count = demo_state.reply_count ∧
      s1.gtp_replies = demo_state.gtp_replies ∧
      s1.active_slaves = demo_state.active_slaves ∧
      s1.reply_bufs = demo_state.reply_bufs ∧
      s1.slot = demo_state.slot ∧ s1.last = demo_state.last ∧
      s1.gtp_cmds.take 0 = demo_state.gtp_cmds.take 0 ∧
      (0 + (cmd_text demo_state.gtp_id w_play a_b_a1).length < P0.CMDS_SIZE →
        s1.gtp_cmds.drop 0 = cmd_text demo_state.gtp_id w_play a_b_a1 ++
          0 :: demo_state.gtp_cmds.drop
            (0 + ((cmd_text demo_state.gtp_id w_play a_b_a1).length + 1)) ∧
        current_id s1 = some demo_state.gtp_id ∧
        (current_id demo_state = some demo_state.gtp_id →
          current_id s1 = current_id demo_state)) :=
  refresh_frame P0 demo_state 0 0 2 w_play a_b_a1 rfl (Nat.zero_le _)

/-- A use of `get_reply_first_id`: the lines x, =5, =6, then an empty line, give
the id 5; the same lines and then `?` with the stream at its end give `-1`. -/
theorem get_reply_first_id_witness :
    ((∀ l ∈ demo_reply_lines, full_line l = true) ∧
      demo_reply_lines.flatten.length + [63].length + 2 ≤ P0.CMDS_SIZE) ∧
    first_id_fits demo_reply_lines = true ∧
    first_id demo_reply_lines = 5 ∧
    get_reply P0 8 (demo_reply_lines.flatten ++ 10 :: [61, 55, 10]) =
      some (first_id demo_reply_lines) ∧
    get_reply P0 8 (demo_reply_lines.flatten ++ [63]) = some (-1) :=
  ⟨⟨by decide, by decide⟩, by decide, by decide,
    (get_reply_first_id P0 demo_reply_lines [63] [61, 55, 10] 8 (by decide) (by decide)
      (by decide) (by decide)).1 (by decide),
    (get_reply_first_id P0 demo_reply_lines [63] [61, 55, 10] 8 (by decide) (by decide)
      (by decide) (by decide)).2.1⟩

/-- A use of `get_replies_first_done`: over `demo_wakes`, `get_replies` returns at
the fourth wake-up, and it waits on after the first three. -/
theorem get_replies_first_done_witness :
    (∀ w ∈ demo_wakes, 0 ≤ w.reply_count) ∧
    (∃ t, (get_replies debug_level_1 10 demo_wakes).1 = .returned 3 t) ∧
    (get_replies debug_level_1 10 (demo_wakes.take 3)).1 = .blocked :=
  ⟨by decide,
    (get_replies_first_done debug_level_1 10 demo_wakes (by decide)).1 3 ⟨1, 2, 10⟩ rfl
      (by decide) (by
        intro j v hj hv
        have hj3 : j = 0 ∨ j = 1 ∨ j = 2 := by omega
        rcases hj3 with h | h | h <;> subst h <;>
          simp only [demo_wakes, List.getElem?_cons_succ, List.getElem?_cons_zero,
            Option.some.injEq] at hv <;> subst hv <;> decide),
    (get_replies_first_done debug_level_1 10 (demo_wakes.take 3) (by decide)).2.2.1 (by decide)⟩

/-- A use of `reconnect_resends_all`: a thread whose slave had acknowledged 8001
enters `slave_loop` again while the command of `demo_state` is current. -/
theorem reconnect_resends_all_witness :
    (slave_thread_reconnect ⟨false, 3, 8001, 0⟩).resend = true ∧
    (slave_thread_reconnect ⟨false, 3, 8001, 0⟩).last_reply_id = -1 ∧
    (∀ n, 0 < n → slave_loop_entry (thread_resend n) =
      slave_thread_reconnect ⟨false, 3, 8001, 0⟩) ∧
    next_command P0 demo_state (slave_thread_reconnect ⟨false, 3, 8001, 0⟩).last_reply_id =
      .ok 0 ∧
    choose_to_send P0 demo_state (slave_thread_reconnect ⟨false, 3, 8001, 0⟩).resend
      (slave_thread_reconnect ⟨false, 3, 8001, 0⟩).last_reply_id
      (slave_thread_reconnect ⟨false, 3, 8001, 0⟩).last_cmd_sent = .ok (.send 0) ∧
    (∀ s0 c cs, (s0.gtp_cmd = none ∨ P0.is_gamestart (cstr c.cmd) = true) →
      (∀ d ∈ cs, P0.is_gamestart (cstr d.cmd) = false) →
      s0.gtp_cmds.length = P0.CMDS_SIZE →
      (∀ d ∈ c :: cs, d.id P0 < 2 ^ 31) →
      (round_text P0 (c :: cs)).length < P0.CMDS_SIZE →
      new_cmds P0 s0 (c :: cs) = .ok demo_state →
      sent_text P0 demo_state 0 = round_text P0 (c :: cs)) :=
  reconnect_resends_all P0 demo_state 0 ⟨false, 3, 8001, 0⟩ rfl

/-- A use of `overwritten_successor`: the command 8001 of `demo_final`, at offset
37, is overwritten by a command of move 2. -/
theorem overwritten_successor_witness :
    ∃ s1, update_cmd P0 demo_final 2 2 w_play a_b_a1 true = .ok s1 ∧
      s1.gtp_cmd = some 37 ∧
      (s1.gtp_id ≠ 8001 →
        37 + (cmd_text s1.gtp_id w_play a_b_a1).length < P0.CMDS_SIZE →
        s1.last ≠ some (1, 3) →
        (¬ move_number P0 8001 > move_number P0 s1.gtp_id →
          next_command P0 s1 8001 = .ok 37) ∧
        (move_number P0 8001 > move_number P0 s1.gtp_id → next_command P0 s1 8001 = .ok 0)) :=
  overwritten_successor P0 demo_final 37 8001 1 3 2 2 w_play a_b_a1 (by decide) (by decide)
    (by decide) (by decide) (by decide) (by decide) (by decide) (by decide)

end Pachi
